import Mathlib

/-!
# Task management backend: the task mutation workflow

A shallow embedding of `internal/services/task_service.go` together with the
parts of `internal/models` and `pkg/redis` it relies on, of the task handlers, of
the user deletion in `internal/services/user_service.go`, of the user service built
on `internal/dao`, and of the todo list in `todolist/models`.

* The relational store is a record of four tables (`users`, `tasks`, `tags`,
  `task_tags`); the GORM calls used by the service are functions on it.
* The Redis cache is a map from string keys to entries; each method of
  `redis.CacheService` is a function on the state that also records the
  attempted operation in a trace.
* Every store or cache call that can fail in the source takes a `Fault`
  (`none`: the call succeeds, `some cause`: it returns an error with that text).
* `time.Now()` is a parameter `now` of each service call.
-/

namespace TaskManagement

/-! ## Data model (`internal/models`) -/

/-- Instants of `time.Time`, as ticks of a discrete clock. -/
abbrev Time := Nat

/-- Go struct `models.User` with its embedded `BaseModel`; also a row of `users`. -/
structure User where
  ID : Nat
  CreatedAt : Time
  UpdatedAt : Time
  DeletedAt : Option Time
  Username : String
  Email : String
  Password : String
  Nickname : String
  Avatar : String
  Phone : String
  Status : Int
  LastLoginAt : Option Time
deriving DecidableEq

/-- The zero value of `models.User`. -/
def User.zero : User :=
  { ID := 0, CreatedAt := 0, UpdatedAt := 0, DeletedAt := none, Username := "", Email := "",
    Password := "", Nickname := "", Avatar := "", Phone := "", Status := 0, LastLoginAt := none }

/-- Go struct `models.UserCreateRequest`. -/
structure UserCreateRequest where
  Username : String
  Email : String
  Password : String
  Nickname : String
  Phone : String
deriving DecidableEq

/-- Go struct `models.UserResponse`. -/
structure UserResponse where
  ID : Nat
  Username : String
  Email : String
  Nickname : String
  Avatar : String
  Phone : String
  Status : Int
  LastLoginAt : Option Time
  CreatedAt : Time
  UpdatedAt : Time
deriving DecidableEq

/-- Method `User.ToResponse`. -/
def User.ToResponse (u : User) : UserResponse :=
  { ID := u.ID, Username := u.Username, Email := u.Email, Nickname := u.Nickname,
    Avatar := u.Avatar, Phone := u.Phone, Status := u.Status, LastLoginAt := u.LastLoginAt,
    CreatedAt := u.CreatedAt, UpdatedAt := u.UpdatedAt }

/-- Go struct `models.Tag` (without the back reference `Tasks`); also a row of `tags`. -/
structure Tag where
  ID : Nat
  CreatedAt : Time
  UpdatedAt : Time
  DeletedAt : Option Time
  Name : String
  Color : String
deriving DecidableEq

def TaskStatusPending : Int := 0
def TaskStatusInProgress : Int := 1
def TaskStatusCompleted : Int := 2
def TaskStatusCancelled : Int := 3

def TaskPriorityLow : Int := 1
def TaskPriorityMedium : Int := 2
def TaskPriorityHigh : Int := 3
def TaskPriorityUrgent : Int := 4

/-- A row of the `tasks` table: the columns of `models.Task`. -/
structure TaskRow where
  ID : Nat
  CreatedAt : Time
  UpdatedAt : Time
  DeletedAt : Option Time
  Title : String
  Description : String
  Status : Int
  Priority : Int
  StartTime : Option Time
  EndTime : Option Time
  DueDate : Option Time
  UserID : Nat
deriving DecidableEq

/-- Go struct `models.Task`: the columns plus the associations `User` and `Tags`. -/
structure Task where
  ID : Nat
  CreatedAt : Time
  UpdatedAt : Time
  DeletedAt : Option Time
  Title : String
  Description : String
  Status : Int
  Priority : Int
  StartTime : Option Time
  EndTime : Option Time
  DueDate : Option Time
  UserID : Nat
  User : User
  Tags : List Tag
deriving DecidableEq

/-- The columns of a `models.Task` value. -/
def Task.toRow (t : Task) : TaskRow :=
  { ID := t.ID, CreatedAt := t.CreatedAt, UpdatedAt := t.UpdatedAt, DeletedAt := t.DeletedAt,
    Title := t.Title, Description := t.Description, Status := t.Status, Priority := t.Priority,
    StartTime := t.StartTime, EndTime := t.EndTime, DueDate := t.DueDate, UserID := t.UserID }

/-- A `models.Task` value scanned from a row, with the given associations. -/
def Task.ofRow (r : TaskRow) (u : TaskManagement.User) (tags : List Tag) : Task :=
  { ID := r.ID, CreatedAt := r.CreatedAt, UpdatedAt := r.UpdatedAt, DeletedAt := r.DeletedAt,
    Title := r.Title, Description := r.Description, Status := r.Status, Priority := r.Priority,
    StartTime := r.StartTime, EndTime := r.EndTime, DueDate := r.DueDate, UserID := r.UserID,
    User := u, Tags := tags }

/-- Go struct `models.TaskCreateRequest`. -/
structure TaskCreateRequest where
  Title : String
  Description : String
  Priority : Int
  DueDate : Option Time
  TagIDs : List Nat
deriving DecidableEq

/-- Go struct `models.TaskUpdateRequest`; a nil pointer or nil slice is `none`. -/
structure TaskUpdateRequest where
  Title : Option String
  Description : Option String
  Status : Option Int
  Priority : Option Int
  StartTime : Option Time
  EndTime : Option Time
  DueDate : Option Time
  TagIDs : Option (List Nat)
deriving DecidableEq

/-! ## Relational store (the GORM calls of the service) -/

/-- The relational state: the four tables. -/
structure DB where
  users : List User
  tasks : List TaskRow
  tags : List Tag
  task_tags : List (Nat × Nat)
deriving DecidableEq

/-- Query `db.First(&user, id)`: the first live row of `users` with that key. -/
def DB.firstUser (db : DB) (id : Nat) : Option User :=
  db.users.find? (fun u => decide (u.ID = id ∧ u.DeletedAt = none))

/-- Auto-increment key of the next inserted task: larger than every key in the table
(soft deletion keeps the rows, so keys are never reused). -/
def DB.nextTaskID (db : DB) : Nat :=
  (db.tasks.map (fun r => r.ID)).foldr max 0 + 1

/-- Statement `tx.Create(task)`: the auto-increment key and both timestamps are
assigned, a zero `Priority` takes the column default 2 (tag `default:2`), and the row
is inserted; returns the store and the struct as GORM leaves it. -/
def DB.create (db : DB) (now : Time) (task : Task) : DB × Task :=
  let task1 : Task :=
    { task with
      ID := db.nextTaskID, CreatedAt := now, UpdatedAt := now,
      Priority := if task.Priority = 0 then 2 else task.Priority }
  ({ db with tasks := db.tasks ++ [task1.toRow] }, task1)

/-- Query `tx.Where("id IN ?", ids).Find(&tags)`: the live tags whose key is listed. -/
def DB.findTags (db : DB) (ids : List Nat) : List Tag :=
  db.tags.filter (fun g => decide (g.ID ∈ ids ∧ g.DeletedAt = none))

/-- Call `tx.Model(task).Association("Tags").Append(tags)`: one join row per tag,
an existing pair is left alone. -/
def DB.appendTags (db : DB) (taskID : Nat) (tags : List Tag) : DB :=
  { db with task_tags := tags.foldl (fun l g => if (taskID, g.ID) ∈ l then l else l ++ [(taskID, g.ID)]) db.task_tags }

/-- Call `tx.Model(task).Association("Tags").Clear()`: drops the task's join rows. -/
def DB.clearTags (db : DB) (taskID : Nat) : DB :=
  { db with task_tags := db.task_tags.filter (fun p => decide (p.1 ≠ taskID)) }

/-- Association `Preload("User")`: the live owner row, else the zero struct. -/
def DB.preloadUser (db : DB) (r : TaskRow) : User :=
  (db.firstUser r.UserID).getD User.zero

/-- Association `Preload("Tags")`: the live tags joined to the task. -/
def DB.preloadTags (db : DB) (r : TaskRow) : List Tag :=
  db.tags.filter (fun g => decide ((r.ID, g.ID) ∈ db.task_tags ∧ g.DeletedAt = none))

/-- Query `db.Preload("User").Preload("Tags").First(dest, id)`: the live row whose key
is `id` and, when the destination struct already carries a non-zero key `destID`,
also equal to that key; `none` is `gorm.ErrRecordNotFound`. -/
def DB.firstTask (db : DB) (destID : Nat) (id : Nat) : Option Task :=
  match db.tasks.find? (fun r => decide (r.ID = id ∧ (destID = 0 ∨ r.ID = destID) ∧ r.DeletedAt = none)) with
  | some r => some (Task.ofRow r (db.preloadUser r) (db.preloadTags r))
  | none => none

/-- The map `updates` built by `UpdateTask`: one optional entry per column key. -/
structure Updates where
  title : Option String
  description : Option String
  status : Option Int
  priority : Option Int
  start_time : Option Time
  end_time : Option Time
  due_date : Option Time
deriving DecidableEq

/-- Effect of the update map on one row; GORM also refreshes `updated_at`. -/
def Updates.apply (u : Updates) (now : Time) (r : TaskRow) : TaskRow :=
  { r with
    UpdatedAt := now
    Title := u.title.getD r.Title
    Description := u.description.getD r.Description
    Status := u.status.getD r.Status
    Priority := u.priority.getD r.Priority
    StartTime := match u.start_time with | some t => some t | none => r.StartTime
    EndTime := match u.end_time with | some t => some t | none => r.EndTime
    DueDate := match u.due_date with | some t => some t | none => r.DueDate }

/-- The UPDATE statement of `tx.Model(task).Updates(updates)`: applies the map to the
live row whose key is that of `task`. -/
def DB.updates (db : DB) (now : Time) (taskID : Nat) (u : Updates) : DB :=
  { db with tasks := db.tasks.map (fun r =>
      if r.ID = taskID ∧ r.DeletedAt = none then u.apply now r else r) }

/-- Call `tx.Model(task).Updates(updates)`: the UPDATE of the row, then the save of
the associations of the struct passed to `Model`, which GORM's update callbacks run
with every `Updates`: for each tag the struct `task` carries, the join row
`(task, tag)` is inserted unless that pair exists. The struct's owner and tags are
rows of `users` and `tags` (rows are only ever soft-deleted), so their insertion,
which does nothing on a conflict, adds no row; and the key of the struct's owner,
which GORM adds to the statement as `user_id`, is the `user_id` the row has. -/
def DB.modelUpdates (db : DB) (now : Time) (task : Task) (u : Updates) : DB :=
  (db.updates now task.ID u).appendTags task.ID task.Tags

/-- Statement `tx.Where("user_id = ?", id).Delete(&models.Task{})`: soft deletion of
every live task of the user. -/
def DB.softDeleteUserTasks (db : DB) (now : Time) (userID : Nat) : DB :=
  { db with tasks := db.tasks.map (fun r =>
      if r.UserID = userID ∧ r.DeletedAt = none then { r with DeletedAt := some now } else r) }

/-- Statement `tx.Delete(&user)`: soft deletion of the live row with the user's key. -/
def DB.softDeleteUser (db : DB) (now : Time) (userID : Nat) : DB :=
  { db with users := db.users.map (fun u =>
      if u.ID = userID ∧ u.DeletedAt = none then { u with DeletedAt := some now } else u) }

/-- Query `Model(&models.Task{}).Where("user_id = ? AND status = ?", ...).Count`: the
number of live tasks of a user in a status. -/
def DB.countTasks (db : DB) (userID : Nat) (status : Int) : Nat :=
  (db.tasks.filter (fun r =>
    decide (r.UserID = userID ∧ r.Status = status ∧ r.DeletedAt = none))).length

/-- Query `Model(&models.Task{}).Where("user_id = ?", userID).Count`: the number of
live tasks of a user. -/
def DB.countUserTasks (db : DB) (userID : Nat) : Nat :=
  (db.tasks.filter (fun r => decide (r.UserID = userID ∧ r.DeletedAt = none))).length

/-- Query `Where("user_id = ? AND due_date < ? AND status != ?", userID, now,
TaskStatusCompleted).Count`: the live tasks of a user that are due before `now` and not
completed; a row without a due date does not match. -/
def DB.countOverdue (db : DB) (userID : Nat) (now : Time) : Nat :=
  (db.tasks.filter (fun r =>
    decide (r.UserID = userID) &&
    (match r.DueDate with
     | some d => decide (d < now)
     | none => false) &&
    decide (r.Status ≠ TaskStatusCompleted ∧ r.DeletedAt = none))).length

/-- Statement `tx.Delete(task)`: soft deletion of the live row with the task's key. -/
def DB.softDeleteTask (db : DB) (now : Time) (taskID : Nat) : DB :=
  { db with tasks := db.tasks.map (fun r =>
      if r.ID = taskID ∧ r.DeletedAt = none then { r with DeletedAt := some now } else r) }

/-! ## Cache (`pkg/redis`) -/

/-- A value held by Redis under one key, by what it decodes to. -/
inductive CacheVal where
  /-- The JSON document of a `models.Task`, as `json.Unmarshal` reads it back. -/
  | task (t : Task)
  /-- A decimal integer, the operand of `INCRBY` and `DECRBY`. -/
  | count (n : Int)
  /-- The JSON document of a `models.UserResponse`. -/
  | user (u : UserResponse)
  /-- Any other payload. -/
  | other (raw : String)
deriving DecidableEq

/-- A cache entry: the value and the time to live set on the key, in seconds. -/
structure CacheEntry where
  val : CacheVal
  ttl : Option Nat
deriving DecidableEq

/-- The content of the Redis database. -/
abbrev Cache := String → Option CacheEntry

/-- A store or cache call as seen by the service: `none` succeeds, `some cause` fails. -/
abbrev Fault := Option String

/-- What the service attempts on its collaborators, in program order: the calls on
the transaction and on the cache, and the calls of `CreateUser` on the user DAO. -/
inductive Event where
  | txBegin
  | txCommit (ok : Bool)
  | txRollback
  | cacheGet (key : String)
  | cacheSet (key : String) (ok : Bool)
  | cacheDelete (key : String) (ok : Bool)
  | cacheIncrBy (key : String) (ok : Bool)
  | cacheDecrBy (key : String) (ok : Bool)
  | cacheExpire (key : String) (ok : Bool)
  | cacheHGetAll (key : String)
  | daoGetByUsername (username : String)
  | daoGetByEmail (email : String)
  | daoCreate (user : User)
deriving DecidableEq

/-- The state the service works on: the store, the cache and the trace so far. -/
structure State where
  db : DB
  cache : Cache
  trace : List Event

def UserCachePrefix : String := "user:"
def TaskCachePrefix : String := "task:"
def UserTasksPrefix : String := "user_tasks:"
def TaskCountPrefix : String := "task_count:"
def LoginAttemptsPrefix : String := "login_attempts:"

/-- Go `redis.BuildCacheKey` at an unsigned id: `fmt.Sprintf("%s%v", pfx, id)`. -/
def BuildCacheKey (pfx : String) (id : Nat) : String :=
  pfx ++ toString id

/-- The duration `time.Hour`, in seconds. -/
def Hour : Nat := 3600

/-- JSON round trip of a task (`json.Marshal` then `json.Unmarshal`): every field is
kept except the owner's `Password`, tagged `json:"-"`. -/
def marshalTask (t : Task) : Task :=
  { t with User := { t.User with Password := "" } }

/-- Method `CacheService.Set` for a task value with an expiration. -/
def CacheService.Set (s : State) (f : Fault) (key : String) (v : CacheVal) (expiration : Nat) :
    State :=
  match f with
  | some _ => { s with trace := s.trace ++ [Event.cacheSet key false] }
  | none =>
    { s with
      cache := fun k => if k = key then some ⟨v, some expiration⟩ else s.cache k
      trace := s.trace ++ [Event.cacheSet key true] }

/-- The task document held under a key, if the key exists and holds one. -/
def cachedTask (c : Cache) (key : String) : Option Task :=
  match c key with
  | some ⟨CacheVal.task t, _⟩ => some t
  | _ => none

/-- Method `CacheService.Get` into a `models.Task`: the decoded task when the call
succeeds, the key exists and holds a task document; an error (`none`) otherwise. -/
def CacheService.Get (s : State) (f : Fault) (key : String) : Option Task × State :=
  match f with
  | some _ => (none, { s with trace := s.trace ++ [Event.cacheGet key] })
  | none => (cachedTask s.cache key, { s with trace := s.trace ++ [Event.cacheGet key] })

/-- Method `CacheService.Delete`. -/
def CacheService.Delete (s : State) (f : Fault) (key : String) : State :=
  match f with
  | some _ => { s with trace := s.trace ++ [Event.cacheDelete key false] }
  | none =>
    { s with
      cache := fun k => if k = key then none else s.cache k
      trace := s.trace ++ [Event.cacheDelete key true] }

/-- Redis `INCRBY key value`: a missing key counts as 0 and is created without a time
to live; an integer is replaced by the sum and keeps its time to live; any other
value is an error and stays. Counters are unbounded integers here: Redis rejects,
and does not wrap, a sum outside the signed 64-bit range. -/
def redisIncrBy (c : Cache) (key : String) (value : Int) : Option Cache :=
  match c key with
  | none => some (fun k => if k = key then some ⟨CacheVal.count value, none⟩ else c k)
  | some ⟨CacheVal.count n, ttl⟩ =>
    some (fun k => if k = key then some ⟨CacheVal.count (n + value), ttl⟩ else c k)
  | some _ => none

/-- Method `CacheService.IncrBy`; the service discards the returned number. -/
def CacheService.IncrBy (s : State) (f : Fault) (key : String) (value : Int) : State :=
  match f, redisIncrBy s.cache key value with
  | none, some c => { s with cache := c, trace := s.trace ++ [Event.cacheIncrBy key true] }
  | _, _ => { s with trace := s.trace ++ [Event.cacheIncrBy key false] }

/-- Method `CacheService.DecrBy`: Redis `DECRBY key value` adds `-value`. -/
def CacheService.DecrBy (s : State) (f : Fault) (key : String) (value : Int) : State :=
  match f, redisIncrBy s.cache key (-value) with
  | none, some c => { s with cache := c, trace := s.trace ++ [Event.cacheDecrBy key true] }
  | _, _ => { s with trace := s.trace ++ [Event.cacheDecrBy key false] }

/-- Method `CacheService.SetExpire`: Redis `EXPIRE` sets the time to live of an
existing key and does nothing, without an error, for a missing one. -/
def CacheService.SetExpire (s : State) (f : Fault) (key : String) (expiration : Nat) : State :=
  match f with
  | some _ => { s with trace := s.trace ++ [Event.cacheExpire key false] }
  | none =>
    { s with
      cache := fun k =>
        if k = key then (s.cache k).map (fun e => { e with ttl := some expiration })
        else s.cache k
      trace := s.trace ++ [Event.cacheExpire key true] }

/-- The content of Redis `d` seconds later, nothing being written meanwhile: a key
whose time to live is at most `d` seconds has expired and is gone, a longer time to
live is `d` seconds shorter, and a key without a time to live stays as it is. -/
def Cache.elapse (c : Cache) (d : Nat) : Cache := fun k =>
  match c k with
  | some ⟨v, some t⟩ => if t ≤ d then none else some ⟨v, some (t - d)⟩
  | e => e

/-- The state after `d` seconds in which the service is not called. -/
def State.elapse (s : State) (d : Nat) : State :=
  { s with cache := Cache.elapse s.cache d }

/-- Method `CacheService.HGetAll`, whose result the service does not use: a read. -/
def CacheService.HGetAll (s : State) (_f : Fault) (key : String) : State :=
  { s with trace := s.trace ++ [Event.cacheHGetAll key] }

/-! ## Task service (`internal/services/task_service.go`) -/

/-- The errors returned by the task service, one constructor per `fmt.Errorf` site. -/
inductive Err where
  | userNotFound (id : Nat)
  | queryUserFailed (cause : String)
  | createTaskFailed (cause : String)
  | queryTagsFailed (cause : String)
  | linkTagsFailed (cause : String)
  | commitFailed (cause : String)
  | taskNotFound (id : Nat)
  | queryTaskFailed (cause : String)
  | updateNotPermitted
  | updateTaskFailed (cause : String)
  | clearTagsFailed (cause : String)
  | reloadTaskFailed (cause : String)
  | deleteNotPermitted
  | deleteTaskFailed (cause : String)
  | deleteUserTasksFailed (cause : String)
  | deleteUserFailed (cause : String)
  | countStatusFailed (status : Int) (cause : String)
  | countTotalFailed (cause : String)
  | countOverdueFailed (cause : String)
deriving DecidableEq

/-- The text of each error (`err.Error()`). -/
def Err.Error : Err → String
  | .userNotFound id => "用户不存在: ID=" ++ toString id
  | .queryUserFailed cause => "查询用户失败: " ++ cause
  | .createTaskFailed cause => "创建任务失败: " ++ cause
  | .queryTagsFailed cause => "查询标签失败: " ++ cause
  | .linkTagsFailed cause => "关联标签失败: " ++ cause
  | .commitFailed cause => "提交事务失败: " ++ cause
  | .taskNotFound id => "任务不存在: ID=" ++ toString id
  | .queryTaskFailed cause => "查询任务失败: " ++ cause
  | .updateNotPermitted => "没有权限修改此任务"
  | .updateTaskFailed cause => "更新任务失败: " ++ cause
  | .clearTagsFailed cause => "清除标签关联失败: " ++ cause
  | .reloadTaskFailed cause => "重新加载任务数据失败: " ++ cause
  | .deleteNotPermitted => "没有权限删除此任务"
  | .deleteTaskFailed cause => "删除任务失败: " ++ cause
  | .deleteUserTasksFailed cause => "删除用户任务失败: " ++ cause
  | .deleteUserFailed cause => "删除用户失败: " ++ cause
  | .countStatusFailed status cause =>
    "统计状态 " ++ toString status ++ " 的任务数量失败: " ++ cause
  | .countTotalFailed cause => "统计总任务数量失败: " ++ cause
  | .countOverdueFailed cause => "统计过期任务数量失败: " ++ cause

/-- Faults of the two cache calls of `updateTaskStats`. -/
structure StatFaults where
  incr : Fault
  expire : Fault

/-- The key name of a status in `updateTaskStats`; `none` is the `default` branch. -/
def statusKey (status : Int) : Option String :=
  if status = TaskStatusPending then some "pending"
  else if status = TaskStatusInProgress then some "in_progress"
  else if status = TaskStatusCompleted then some "completed"
  else if status = TaskStatusCancelled then some "cancelled"
  else none

/-- The counter key `fmt.Sprintf("%s%d:%s", redis.TaskCountPrefix, userID, key)`. -/
def countKey (userID : Nat) (key : String) : String :=
  TaskCountPrefix ++ toString userID ++ ":" ++ key

/-- Method `TaskService.updateTaskStats`. -/
def updateTaskStats (s : State) (f : StatFaults) (userID : Nat) (status : Int) (delta : Int) :
    State :=
  match statusKey status with
  | none => s
  | some key =>
    let s1 :=
      if delta > 0 then CacheService.IncrBy s f.incr (countKey userID key) delta
      else CacheService.DecrBy s f.incr (countKey userID key) (-delta)
    CacheService.SetExpire s1 f.expire (countKey userID key) (Hour * 24)

/-- Call `s.db.Begin()`: the transaction starts from the current store. -/
def beginTx (s : State) : State :=
  { s with trace := s.trace ++ [Event.txBegin] }

/-- Call `tx.Rollback()`: the store stays as it was when the transaction began. -/
def rollback (s : State) : State :=
  { s with trace := s.trace ++ [Event.txRollback] }

/-- Call `tx.Commit()` succeeding: the transaction's copy `tx` becomes the store. -/
def commitTx (s : State) (tx : DB) : State :=
  { s with db := tx, trace := s.trace ++ [Event.txCommit true] }

/-- Call `tx.Commit()` failing: the store stays as it was. -/
def commitFailed (s : State) : State :=
  { s with trace := s.trace ++ [Event.txCommit false] }

/-- Faults of the calls made by `GetTaskByID`. -/
structure GetFaults where
  cacheGet : Fault
  dbFirst : Fault
  cacheSet : Fault

/-- Method `TaskService.GetTaskByID`. -/
def GetTaskByID (s : State) (f : GetFaults) (id : Nat) : Except Err Task × State :=
  let cacheKey := BuildCacheKey TaskCachePrefix id
  match CacheService.Get s f.cacheGet cacheKey with
  | (some task, s1) => (.ok task, s1)
  | (none, s1) =>
    match f.dbFirst with
    | some cause => (.error (.queryTaskFailed cause), s1)
    | none =>
      match s1.db.firstTask 0 id with
      | none => (.error (.taskNotFound id), s1)
      | some task =>
        (.ok task, CacheService.Set s1 f.cacheSet cacheKey (CacheVal.task (marshalTask task)) Hour)

/-- Faults of the calls made by `CreateTask` after the user lookup. -/
structure CreateFaults where
  userFirst : Fault
  create : Fault
  findTags : Fault
  appendTags : Fault
  commit : Fault
  reload : Fault
  cacheSet : Fault
  cacheDelete : Fault
  stats : StatFaults


/-- The best-effort steps that end `CreateTask`. -/
def createSideEffects (s : State) (f : CreateFaults) (userID : Nat) (task : Task) : State :=
  let s1 := CacheService.Set s f.cacheSet (BuildCacheKey TaskCachePrefix task.ID)
    (CacheVal.task (marshalTask task)) Hour
  let s2 := CacheService.Delete s1 f.cacheDelete (BuildCacheKey UserTasksPrefix userID)
  updateTaskStats s2 f.stats userID TaskStatusPending 1

/-- The struct `task` that `CreateTask` builds from the request; the status is the
constant `TaskStatusPending`. -/
def newTask (userID : Nat) (req : TaskCreateRequest) : Task :=
  { ID := 0, CreatedAt := 0, UpdatedAt := 0, DeletedAt := none,
    Title := req.Title, Description := req.Description, Status := TaskStatusPending,
    Priority := req.Priority, StartTime := none, EndTime := none, DueDate := req.DueDate,
    UserID := userID, User := User.zero, Tags := [] }

/-- The tag linking step of `CreateTask`, inside the transaction: the store and the
struct after it, or the error of the failing call. -/
def linkTags (tx : DB) (task : Task) (f : CreateFaults) (tagIDs : List Nat) :
    Except Err (DB × Task) :=
  if tagIDs.length > 0 then
    match f.findTags with
    | some cause => .error (.queryTagsFailed cause)
    | none =>
      match f.appendTags with
      | some cause => .error (.linkTagsFailed cause)
      | none =>
        .ok (tx.appendTags task.ID (tx.findTags tagIDs), { task with Tags := tx.findTags tagIDs })
  else .ok (tx, task)

/-- The reload that follows the commit in `CreateTask`; its error is only logged, and
the struct then stays as the transaction left it. -/
def reloadCreated (db : DB) (f : Fault) (task : Task) : Task :=
  match f with
  | some _ => task
  | none => (db.firstTask task.ID task.ID).getD task

/-- Method `TaskService.CreateTask`. The transaction works on a copy `tx` of the
store, which replaces the store at commit and is dropped at rollback. -/
def CreateTask (s : State) (f : CreateFaults) (now : Time) (userID : Nat)
    (req : TaskCreateRequest) : Except Err Task × State :=
  match f.userFirst with
  | some cause => (.error (.queryUserFailed cause), s)
  | none =>
  match s.db.firstUser userID with
  | none => (.error (.userNotFound userID), s)
  | some _ =>
  let s0 := beginTx s
  match f.create with
  | some cause => (.error (.createTaskFailed cause), rollback s0)
  | none =>
  let created := s0.db.create now (newTask userID req)
  match linkTags created.1 created.2 f req.TagIDs with
  | .error e => (.error e, rollback s0)
  | .ok (tx2, task2) =>
  match f.commit with
  | some cause => (.error (.commitFailed cause), commitFailed s0)
  | none =>
  let s1 := commitTx s0 tx2
  let task3 := reloadCreated s1.db f.reload task2
  (.ok task3, createSideEffects s1 f userID task3)

/-- Faults of the calls made by `UpdateTask`. -/
structure UpdateFaults where
  get : GetFaults
  updates : Fault
  clearTags : Fault
  findTags : Fault
  appendTags : Fault
  commit : Fault
  reload : Fault
  cacheDelete : Fault
  listDelete : Fault
  statsOld : StatFaults
  statsNew : StatFaults

/-- The map `updates` that `UpdateTask` builds from the fetched task and the request. -/
def buildUpdates (task : Task) (now : Time) (req : TaskUpdateRequest) : Updates :=
  let stamped : Option Time × Option Time :=
    match req.Status with
    | none => (none, none)
    | some st =>
      if st = TaskStatusInProgress then
        (if task.StartTime = none then some now else none, none)
      else if st = TaskStatusCompleted then
        (none, if task.EndTime = none then some now else none)
      else (none, none)
  { title := req.Title
    description := req.Description
    status := req.Status
    priority := req.Priority
    start_time := match req.StartTime with | some t => some t | none => stamped.1
    end_time := match req.EndTime with | some t => some t | none => stamped.2
    due_date := req.DueDate }

/-- The tag replacement step of `UpdateTask`, inside the transaction. -/
def replaceTags (tx : DB) (f : UpdateFaults) (taskID : Nat) (tagIDs : Option (List Nat)) :
    Except Err DB :=
  match tagIDs with
  | none => .ok tx
  | some ids =>
    match f.clearTags with
    | some cause => .error (.clearTagsFailed cause)
    | none =>
      let tx1 := tx.clearTags taskID
      if ids.length > 0 then
        match f.findTags with
        | some cause => .error (.queryTagsFailed cause)
        | none =>
          match f.appendTags with
          | some cause => .error (.linkTagsFailed cause)
          | none => .ok (tx1.appendTags taskID (tx1.findTags ids))
      else .ok tx1

/-- The best-effort steps that end `UpdateTask`. -/
def updateSideEffects (s : State) (f : UpdateFaults) (id userID : Nat) (oldStatus : Int)
    (req : TaskUpdateRequest) : State :=
  let s1 := CacheService.Delete s f.cacheDelete (BuildCacheKey TaskCachePrefix id)
  let s2 := CacheService.Delete s1 f.listDelete (BuildCacheKey UserTasksPrefix userID)
  match req.Status with
  | none => s2
  | some st =>
    if oldStatus ≠ st then
      updateTaskStats (updateTaskStats s2 f.statsOld userID oldStatus (-1)) f.statsNew userID st 1
    else s2

/-- Method `TaskService.UpdateTask`. -/
def UpdateTask (s : State) (f : UpdateFaults) (now : Time) (id userID : Nat)
    (req : TaskUpdateRequest) : Except Err Task × State :=
  match GetTaskByID s f.get id with
  | (.error e, s1) => (.error e, s1)
  | (.ok task, s1) =>
  if task.UserID ≠ userID then (.error .updateNotPermitted, s1)
  else
  let s2 := beginTx s1
  let oldStatus := task.Status
  match f.updates with
  | some cause => (.error (.updateTaskFailed cause), rollback s2)
  | none =>
  let tx1 := s2.db.modelUpdates now task (buildUpdates task now req)
  match replaceTags tx1 f task.ID req.TagIDs with
  | .error e => (.error e, rollback s2)
  | .ok tx2 =>
  match f.commit with
  | some cause =>
    (.error (.commitFailed cause), commitFailed s2)
  | none =>
  let s3 := commitTx s2 tx2
  match f.reload with
  | some cause => (.error (.reloadTaskFailed cause), s3)
  | none =>
  match s3.db.firstTask task.ID id with
  | none => (.error (.reloadTaskFailed "record not found"), s3)
  | some task1 => (.ok task1, updateSideEffects s3 f id userID oldStatus req)

/-- Faults of the calls made by `DeleteTask`. -/
structure DeleteFaults where
  get : GetFaults
  clearTags : Fault
  delete : Fault
  commit : Fault
  cacheDelete : Fault
  listDelete : Fault
  stats : StatFaults

/-- The best-effort steps that end `DeleteTask`. -/
def deleteSideEffects (s : State) (f : DeleteFaults) (id userID : Nat) (status : Int) : State :=
  let s1 := CacheService.Delete s f.cacheDelete (BuildCacheKey TaskCachePrefix id)
  let s2 := CacheService.Delete s1 f.listDelete (BuildCacheKey UserTasksPrefix userID)
  updateTaskStats s2 f.stats userID status (-1)

/-- Method `TaskService.DeleteTask`. -/
def DeleteTask (s : State) (f : DeleteFaults) (now : Time) (id userID : Nat) :
    Except Err Unit × State :=
  match GetTaskByID s f.get id with
  | (.error e, s1) => (.error e, s1)
  | (.ok task, s1) =>
  if task.UserID ≠ userID then (.error .deleteNotPermitted, s1)
  else
  let s2 := beginTx s1
  match f.clearTags with
  | some cause => (.error (.clearTagsFailed cause), rollback s2)
  | none =>
  match f.delete with
  | some cause => (.error (.deleteTaskFailed cause), rollback s2)
  | none =>
  let tx := (s2.db.clearTags task.ID).softDeleteTask now task.ID
  match f.commit with
  | some cause =>
    (.error (.commitFailed cause), commitFailed s2)
  | none =>
  (.ok (), deleteSideEffects (commitTx s2 tx) f id userID task.Status)

/-- Faults of the calls made by `GetUserTaskStats`; the count query and the cache
write of the loop are made once per status. -/
structure StatsFaults where
  hgetall : Fault
  count : Int → Fault
  cacheSet : Int → Fault
  total : Fault
  overdue : Fault

/-- The map `stats` returned by `GetUserTaskStats`. -/
abbrev Stats := String → Option Int

/-- The slice `statusList` of `GetUserTaskStats`. -/
def statusList : List Int :=
  [TaskStatusPending, TaskStatusInProgress, TaskStatusCompleted, TaskStatusCancelled]

/-- The loop of `GetUserTaskStats` over the statuses still to visit: count the live
tasks of the user in the status, enter the count in `stats` under the name of the
status (the `switch` has no default, so the name of another status is empty), and
write it to the counter key; a failed write is only logged. -/
def statsLoop (f : StatsFaults) (userID : Nat) :
    List Int → State → Stats → Except Err Stats × State
  | [], s, stats => (.ok stats, s)
  | status :: rest, s, stats =>
    match f.count status with
    | some cause => (.error (.countStatusFailed status cause), s)
    | none =>
      let count : Int := s.db.countTasks userID status
      let key := (statusKey status).getD ""
      let s1 := CacheService.Set s (f.cacheSet status) (countKey userID key)
        (CacheVal.count count) (Hour * 24)
      statsLoop f userID rest s1 (fun k => if k = key then some count else stats k)

/-- Method `TaskService.GetUserTaskStats`. -/
def GetUserTaskStats (s : State) (f : StatsFaults) (now : Time) (userID : Nat) :
    Except Err Stats × State :=
  let s0 := CacheService.HGetAll s f.hgetall (BuildCacheKey TaskCountPrefix userID)
  match statsLoop f userID statusList s0 (fun _ => none) with
  | (.error e, s1) => (.error e, s1)
  | (.ok stats, s1) =>
    match f.total with
    | some cause => (.error (.countTotalFailed cause), s1)
    | none =>
      let stats1 : Stats :=
        fun k => if k = "total" then some (s1.db.countUserTasks userID : Int) else stats k
      match f.overdue with
      | some cause => (.error (.countOverdueFailed cause), s1)
      | none =>
        (.ok (fun k =>
          if k = "overdue" then some (s1.db.countOverdue userID now : Int) else stats1 k), s1)

/-! ## User service: deletion (`internal/services/user_service.go`) -/

/-- Faults of the calls made by `UserService.DeleteUser`. -/
structure DeleteUserFaults where
  userFirst : Fault
  deleteTasks : Fault
  deleteUser : Fault
  commit : Fault
  cacheDelete : Fault
  listDelete : Fault

/-- Method `UserService.DeleteUser`. -/
def DeleteUser (s : State) (f : DeleteUserFaults) (now : Time) (id : Nat) :
    Except Err Unit × State :=
  let s0 := beginTx s
  match f.userFirst with
  | some cause => (.error (.queryUserFailed cause), rollback s0)
  | none =>
  match s0.db.firstUser id with
  | none => (.error (.userNotFound id), rollback s0)
  | some user =>
  match f.deleteTasks with
  | some cause => (.error (.deleteUserTasksFailed cause), rollback s0)
  | none =>
  match f.deleteUser with
  | some cause => (.error (.deleteUserFailed cause), rollback s0)
  | none =>
  let tx := (s0.db.softDeleteUserTasks now id).softDeleteUser now user.ID
  match f.commit with
  | some cause =>
    (.error (.commitFailed cause), commitFailed s0)
  | none =>
  let s1 := commitTx s0 tx
  let s2 := CacheService.Delete s1 f.cacheDelete (BuildCacheKey UserCachePrefix id)
  (.ok (), CacheService.Delete s2 f.listDelete (BuildCacheKey UserTasksPrefix id))

/-! ## Data access objects (`internal/dao`)

The errors of the DAOs and of the service built on them are their texts. -/

/-- Method `userDAO.GetByID`: `First(&user, id)`. -/
def userDAO.GetByID (db : DB) (f : Fault) (id : Nat) : Except String User :=
  match f with
  | some cause => .error ("查询用户失败: " ++ cause)
  | none =>
    match db.firstUser id with
    | some u => .ok u
    | none => .error ("用户不存在: ID=" ++ toString id)

/-- Method `userDAO.GetByUsername`: `Where("username = ?", username).First(&user)`. -/
def userDAO.GetByUsername (db : DB) (f : Fault) (username : String) : Except String User :=
  match f with
  | some cause => .error ("查询用户失败: " ++ cause)
  | none =>
    match db.users.find? (fun u => decide (u.Username = username ∧ u.DeletedAt = none)) with
    | some u => .ok u
    | none => .error ("用户不存在: username=" ++ username)

/-- Method `userDAO.GetByEmail`: `Where("email = ?", email).First(&user)`. -/
def userDAO.GetByEmail (db : DB) (f : Fault) (email : String) : Except String User :=
  match f with
  | some cause => .error ("查询用户失败: " ++ cause)
  | none =>
    match db.users.find? (fun u => decide (u.Email = email ∧ u.DeletedAt = none)) with
    | some u => .ok u
    | none => .error ("用户不存在: email=" ++ email)

/-- Auto-increment key of the next inserted user. -/
def DB.nextUserID (db : DB) : Nat :=
  (db.users.map (fun u => u.ID)).foldr max 0 + 1

/-- Method `userDAO.Create`: `Create(user)`. The columns `username` and `email` carry a
unique index, which counts soft-deleted rows too; otherwise the key and both
timestamps are assigned, a zero `Status` takes the column default 1, and the row is
inserted. Returns the store and the struct as GORM leaves it. -/
def userDAO.Create (db : DB) (f : Fault) (now : Time) (user : User) : Except String (DB × User) :=
  match f with
  | some cause => .error ("创建用户失败: " ++ cause)
  | none =>
    if db.users.any (fun u => decide (u.Username = user.Username ∨ u.Email = user.Email)) then
      .error ("创建用户失败: " ++ "Duplicate entry")
    else
      let user1 : User :=
        { user with
          ID := db.nextUserID, CreatedAt := now, UpdatedAt := now,
          Status := if user.Status = 0 then 1 else user.Status }
      .ok ({ db with users := db.users ++ [user1] }, user1)

/-- Method `userDAO.Delete`: `Delete(&models.User{}, id)`, a soft deletion. -/
def userDAO.Delete (db : DB) (f : Fault) (now : Time) (id : Nat) : Except String DB :=
  match f with
  | some cause => .error ("删除用户失败: " ++ cause)
  | none => .ok (db.softDeleteUser now id)

/-- Method `userDAO.CountByStatus`. -/
def userDAO.CountByStatus (db : DB) (f : Fault) (status : Int) : Except String Nat :=
  match f with
  | some cause => .error ("统计用户数失败: " ++ cause)
  | none =>
    .ok (db.users.filter (fun u => decide (u.Status = status ∧ u.DeletedAt = none))).length

/-- Method `userDAO.GetUsersWithTasks`: the live users that own a live task. -/
def userDAO.GetUsersWithTasks (db : DB) (f : Fault) : Except String (List User) :=
  match f with
  | some cause => .error ("查询有任务的用户失败: " ++ cause)
  | none =>
    .ok (db.users.filter (fun u => decide (u.DeletedAt = none) &&
      db.tasks.any (fun r => decide (r.UserID = u.ID ∧ r.DeletedAt = none))))

/-- Method `userDAO.List`: the count of the live users, then the page
`Offset(offset).Limit(limit).Find(&users)` of them. -/
def userDAO.List (db : DB) (fcount ffind : Fault) (offset limit : Nat) :
    Except String (List User × Nat) :=
  match fcount with
  | some cause => .error ("统计用户总数失败: " ++ cause)
  | none =>
    match ffind with
    | some cause => .error ("查询用户列表失败: " ++ cause)
    | none =>
      let live := db.users.filter (fun u => decide (u.DeletedAt = none))
      .ok ((live.drop offset).take limit, live.length)

/-- Method `taskDAO.ListByUserID`: the count of the live tasks of the user, then the
page of them, newest first, with their tags preloaded. Rows created at the same
instant keep the order of the table here. -/
def taskDAO.ListByUserID (db : DB) (fcount ffind : Fault) (userID : Nat) (offset limit : Nat) :
    Except String (List Task × Nat) :=
  match fcount with
  | some cause => .error ("统计用户任务总数失败: " ++ cause)
  | none =>
    match ffind with
    | some cause => .error ("查询用户任务列表失败: " ++ cause)
    | none =>
      let live := db.tasks.filter (fun r => decide (r.UserID = userID ∧ r.DeletedAt = none))
      let sorted := live.insertionSort (fun a b => b.CreatedAt ≤ a.CreatedAt)
      .ok (((sorted.drop offset).take limit).map
        (fun r => Task.ofRow r User.zero (db.preloadTags r)), live.length)

/-- Method `taskDAO.BatchDelete`: the body is `return nil`; the store is not touched. -/
def taskDAO.BatchDelete (db : DB) (_ids : List Nat) : Except String DB :=
  .ok db

/-! ## User service on the DAOs (`internal/services/user_service_with_dao.go`) -/

/-- Faults of the calls made by `UserServiceWithDAO.CreateUser`. -/
structure UserCreateFaults where
  getByUsername : Fault
  getByEmail : Fault
  create : Fault
  cacheSet : Fault

/-- Method `UserServiceWithDAO.validateUserCreate`: the error, if any. A lookup that
returns an error, whatever the error, counts as "not held". -/
def UserServiceWithDAO.validateUserCreate (s : State) (f : UserCreateFaults)
    (req : UserCreateRequest) : Option String × State :=
  let s1 := { s with trace := s.trace ++ [Event.daoGetByUsername req.Username] }
  match userDAO.GetByUsername s1.db f.getByUsername req.Username with
  | .ok _ => (some ("用户名已存在: " ++ req.Username), s1)
  | .error _ =>
    let s2 := { s1 with trace := s1.trace ++ [Event.daoGetByEmail req.Email] }
    match userDAO.GetByEmail s2.db f.getByEmail req.Email with
    | .ok _ => (some ("邮箱已存在: " ++ req.Email), s2)
    | .error _ => (none, s2)

/-- Method `UserServiceWithDAO.cacheUser`; a failed write is only logged. -/
def UserServiceWithDAO.cacheUser (s : State) (f : Fault) (user : User) : State :=
  CacheService.Set s f (BuildCacheKey UserCachePrefix user.ID) (CacheVal.user user.ToResponse)
    Hour

/-- The struct `user` that `CreateUser` builds from the request. -/
def newUser (req : UserCreateRequest) : User :=
  { User.zero with
    Username := req.Username, Email := req.Email, Password := req.Password,
    Nickname := req.Nickname, Phone := req.Phone, Status := 1 }

/-- Method `UserServiceWithDAO.CreateUser`. -/
def UserServiceWithDAO.CreateUser (s : State) (f : UserCreateFaults) (now : Time)
    (req : UserCreateRequest) : Except String User × State :=
  match UserServiceWithDAO.validateUserCreate s f req with
  | (some err, s1) => (.error err, s1)
  | (none, s1) =>
    let user := newUser req
    let s2 := { s1 with trace := s1.trace ++ [Event.daoCreate user] }
    match userDAO.Create s2.db f.create now user with
    | .error err => (.error ("创建用户失败: " ++ err), s2)
    | .ok (db1, user1) =>
      (.ok user1, UserServiceWithDAO.cacheUser { s2 with db := db1 } f.cacheSet user1)

/-- Faults of the calls made by `UserServiceWithDAO.DeleteUser`. -/
structure UserDeleteFaults where
  getByID : Fault
  countTasks : Fault
  findTasks : Fault
  delete : Fault
  commit : Fault
  cacheDelete : Fault
  listDelete : Fault

/-- The goroutine started by `UserServiceWithDAO.DeleteUser`: `clearUserCache` and
`clearUserTasksCache`. -/
def UserServiceWithDAO.clearCaches (s : State) (f : UserDeleteFaults) (id : Nat) : State :=
  CacheService.Delete (CacheService.Delete s f.cacheDelete (BuildCacheKey UserCachePrefix id))
    f.listDelete (BuildCacheKey UserTasksPrefix id)

/-- Method `UserServiceWithDAO.DeleteUser`, the body of `s.db.Transaction`: an error
of the function rolls back, `nil` commits. The goroutine that clears the cache is
started inside the function, once the user is deleted; its two calls are placed
after the end of the transaction here. -/
def UserServiceWithDAO.DeleteUser (s : State) (f : UserDeleteFaults) (now : Time) (id : Nat) :
    Except String Unit × State :=
  let s0 := beginTx s
  match userDAO.GetByID s0.db f.getByID id with
  | .error err => (.error err, rollback s0)
  | .ok _ =>
    match taskDAO.ListByUserID s0.db f.countTasks f.findTasks id 0 1000 with
    | .error err => (.error ("查询用户任务失败: " ++ err), rollback s0)
    | .ok (tasks, _) =>
      let taskIDs := tasks.map (fun t => t.ID)
      match (if taskIDs.length > 0 then taskDAO.BatchDelete s0.db taskIDs else .ok s0.db) with
      | .error err => (.error ("删除用户任务失败: " ++ err), rollback s0)
      | .ok tx1 =>
        match userDAO.Delete tx1 f.delete now id with
        | .error err => (.error err, rollback s0)
        | .ok tx2 =>
          match f.commit with
          | some cause => (.error cause, UserServiceWithDAO.clearCaches (commitFailed s0) f id)
          | none => (.ok (), UserServiceWithDAO.clearCaches (commitTx s0 tx2) f id)

/-- Faults of the calls made by `UserServiceWithDAO.GetUserStats`. -/
structure UserStatsFaults where
  listCount : Fault
  listFind : Fault
  countActive : Fault
  countDisabled : Fault
  usersWithTasks : Fault

/-- Method `UserServiceWithDAO.GetUserStats`: the map `stats`. The entry
`total_users` is the length of the page `List(ctx, 0, 1)`; the total that `List` also
returns is dropped. -/
def UserServiceWithDAO.GetUserStats (db : DB) (f : UserStatsFaults) : Except String Stats :=
  match userDAO.List db f.listCount f.listFind 0 1 with
  | .error err => .error err
  | .ok (totalUsers, _) =>
    let stats0 : Stats := fun k => if k = "total_users" then some (totalUsers.length : Int) else none
    match userDAO.CountByStatus db f.countActive 1 with
    | .error err => .error err
    | .ok activeCount =>
      let stats1 : Stats :=
        fun k => if k = "active_users" then some (activeCount : Int) else stats0 k
      match userDAO.CountByStatus db f.countDisabled 0 with
      | .error err => .error err
      | .ok disabledCount =>
        let stats2 : Stats :=
          fun k => if k = "disabled_users" then some (disabledCount : Int) else stats1 k
        match userDAO.GetUsersWithTasks db f.usersWithTasks with
        | .error err => .error err
        | .ok usersWithTasks =>
          .ok (fun k =>
            if k = "users_with_tasks" then some (usersWithTasks.length : Int) else stats2 k)

/-! ## HTTP handlers (`internal/handlers/task_handler.go`) -/

/-- The number a list of decimal digit characters denotes. -/
def decodeDigits (l : List Char) : Nat :=
  l.foldl (fun acc c => acc * 10 + (c.toNat - 48)) 0

/-- The `Data` field of `models.Response`, as far as the task handlers fill it. -/
inductive ResponseData where
  | null
  | task (t : Task)
  | text (s : String)
deriving DecidableEq

/-- Go struct `models.Response`. -/
structure Response where
  Code : Nat
  Message : String
  Data : ResponseData
deriving DecidableEq

/-- Go `models.NewResponse`. -/
def NewResponse (code : Nat) (message : String) (data : ResponseData) : Response :=
  { Code := code, Message := message, Data := data }

/-- Go `models.NewSuccessResponse`. -/
def NewSuccessResponse (data : ResponseData) : Response :=
  NewResponse 200 "操作成功" data

/-- Go `models.NewErrorResponse`. -/
def NewErrorResponse (message : String) : Response :=
  NewResponse 500 message ResponseData.null

/-- What a handler writes with `c.JSON(status, body)`. -/
structure Reply where
  status : Nat
  body : Response
deriving DecidableEq

def StatusOK : Nat := 200
def StatusBadRequest : Nat := 400
def StatusUnauthorized : Nat := 401
def StatusForbidden : Nat := 403
def StatusNotFound : Nat := 404
def StatusInternalServerError : Nat := 500

/-- Go `strconv.ParseUint(s, 10, 32)`: a non-empty string of decimal digits whose
value fits 32 bits; `none` is the error. -/
def parseUint (s : String) : Option Nat :=
  if s.data = [] then none
  else if s.data.all Char.isDigit then
    (if decodeDigits s.data < 2 ^ 32 then some (decodeDigits s.data) else none)
  else none

/-- The validation that `c.ShouldBindJSON` runs on a decoded `TaskCreateRequest`,
from its `binding` tags: `Title` is `required,max=200`, `Priority` is `min=1,max=4`.
The result lists the failed field and tag of each rejected field. -/
def validateCreate (req : TaskCreateRequest) : List String :=
  (if req.Title = "" then ["Title:required"]
   else if req.Title.length > 200 then ["Title:max"] else []) ++
  (if req.Priority < 1 then ["Priority:min"]
   else if req.Priority > 4 then ["Priority:max"] else [])

/-- The validation that `c.ShouldBindJSON` runs on a decoded `TaskUpdateRequest`:
`Title` is `omitempty,max=200`, `Status` is `omitempty,min=0,max=3`, `Priority` is
`omitempty,min=1,max=4`; a nil pointer is skipped. -/
def validateUpdate (req : TaskUpdateRequest) : List String :=
  (match req.Title with
   | some t => if t.length > 200 then ["Title:max"] else []
   | none => []) ++
  (match req.Status with
   | some st => if st < 0 then ["Status:min"] else if st > 3 then ["Status:max"] else []
   | none => []) ++
  (match req.Priority with
   | some p => if p < 1 then ["Priority:min"] else if p > 4 then ["Priority:max"] else []
   | none => [])

/-- Call `c.ShouldBindJSON(&req)`: `body` is the outcome of decoding the JSON body
(`.error` carries the decoder's message), which is then validated. -/
def bindJSON {α : Type} (validate : α → List String) (body : Except String α) :
    Except String α :=
  match body with
  | .error cause => .error cause
  | .ok req =>
    if validate req = [] then .ok req else .error (String.intercalate "\n" (validate req))

/-- Handler `TaskHandler.CreateTask`. -/
def TaskHandler.CreateTask (s : State) (f : CreateFaults) (now : Time) (userIDHeader : String)
    (body : Except String TaskCreateRequest) : Reply × State :=
  match bindJSON validateCreate body with
  | .error cause => (⟨StatusBadRequest, NewErrorResponse ("请求参数错误: " ++ cause)⟩, s)
  | .ok req =>
    if userIDHeader = "" then (⟨StatusUnauthorized, NewErrorResponse "请先登录"⟩, s)
    else
      match parseUint userIDHeader with
      | none => (⟨StatusBadRequest, NewErrorResponse "用户ID格式错误"⟩, s)
      | some userID =>
        match TaskManagement.CreateTask s f now userID req with
        | (.error e, s') => (⟨StatusInternalServerError, NewErrorResponse e.Error⟩, s')
        | (.ok task, s') => (⟨StatusOK, NewSuccessResponse (ResponseData.task task)⟩, s')

/-- Handler `TaskHandler.GetTask`. -/
def TaskHandler.GetTask (s : State) (f : GetFaults) (idParam : String) : Reply × State :=
  match parseUint idParam with
  | none => (⟨StatusBadRequest, NewErrorResponse "任务ID格式错误"⟩, s)
  | some id =>
    match GetTaskByID s f id with
    | (.error e, s') =>
      if e.Error = "任务不存在" then (⟨StatusNotFound, NewErrorResponse e.Error⟩, s')
      else (⟨StatusInternalServerError, NewErrorResponse e.Error⟩, s')
    | (.ok task, s') => (⟨StatusOK, NewSuccessResponse (ResponseData.task task)⟩, s')

/-- Handler `TaskHandler.UpdateTask`. -/
def TaskHandler.UpdateTask (s : State) (f : UpdateFaults) (now : Time) (idParam : String)
    (userIDHeader : String) (body : Except String TaskUpdateRequest) : Reply × State :=
  match parseUint idParam with
  | none => (⟨StatusBadRequest, NewErrorResponse "任务ID格式错误"⟩, s)
  | some id =>
    if userIDHeader = "" then (⟨StatusUnauthorized, NewErrorResponse "请先登录"⟩, s)
    else
      match parseUint userIDHeader with
      | none => (⟨StatusBadRequest, NewErrorResponse "用户ID格式错误"⟩, s)
      | some userID =>
        match bindJSON validateUpdate body with
        | .error cause => (⟨StatusBadRequest, NewErrorResponse ("请求参数错误: " ++ cause)⟩, s)
        | .ok req =>
          match TaskManagement.UpdateTask s f now id userID req with
          | (.error e, s') =>
            if e.Error = "任务不存在" then (⟨StatusNotFound, NewErrorResponse e.Error⟩, s')
            else if e.Error = "没有权限修改此任务" then
              (⟨StatusForbidden, NewErrorResponse e.Error⟩, s')
            else (⟨StatusInternalServerError, NewErrorResponse e.Error⟩, s')
          | (.ok task, s') => (⟨StatusOK, NewSuccessResponse (ResponseData.task task)⟩, s')

/-- Handler `TaskHandler.DeleteTask`. -/
def TaskHandler.DeleteTask (s : State) (f : DeleteFaults) (now : Time) (idParam : String)
    (userIDHeader : String) : Reply × State :=
  match parseUint idParam with
  | none => (⟨StatusBadRequest, NewErrorResponse "任务ID格式错误"⟩, s)
  | some id =>
    if userIDHeader = "" then (⟨StatusUnauthorized, NewErrorResponse "请先登录"⟩, s)
    else
      match parseUint userIDHeader with
      | none => (⟨StatusBadRequest, NewErrorResponse "用户ID格式错误"⟩, s)
      | some userID =>
        match TaskManagement.DeleteTask s f now id userID with
        | (.error e, s') =>
          if e.Error = "任务不存在" then (⟨StatusNotFound, NewErrorResponse e.Error⟩, s')
          else if e.Error = "没有权限删除此任务" then
            (⟨StatusForbidden, NewErrorResponse e.Error⟩, s')
          else (⟨StatusInternalServerError, NewErrorResponse e.Error⟩, s')
        | (.ok _, s') =>
          (⟨StatusOK, NewSuccessResponse (ResponseData.text "任务删除成功")⟩, s')

/-! ## The todo list (`todolist/models/models.go`)

The package variable `todos` is the list each function takes and returns; the calls
of `time.Now()` within one function are taken at one instant `now`. -/

/-- Go struct `models.Todo`. -/
structure Todo where
  ID : Nat
  Title : String
  Description : String
  Completed : Bool
  CreateAt : Time
  UpdateAt : Time
deriving DecidableEq

/-- The zero value `Todo{}`. -/
def Todo.zero : Todo :=
  { ID := 0, Title := "", Description := "", Completed := false, CreateAt := 0, UpdateAt := 0 }

/-- The initial value of `todos`, the program starting at time `now`. -/
def initialTodos (now : Time) : List Todo :=
  [{ ID := 1, Title := "Todo 1", Description := "Todo 1 Description", Completed := false,
     CreateAt := now, UpdateAt := now },
   { ID := 2, Title := "Todo 2", Description := "Todo 2 Description", Completed := true,
     CreateAt := now, UpdateAt := now }]

/-- Function `GetAllTodos`. -/
def GetAllTodos (todos : List Todo) : List Todo := todos

/-- Function `GetTodoByID`: the first todo with that ID and `true`, else the zero
value and `false`. -/
def GetTodoByID : List Todo → Nat → Todo × Bool
  | [], _ => (Todo.zero, false)
  | todo :: rest, id => if todo.ID = id then (todo, true) else GetTodoByID rest id

/-- Function `GreateTodo`: the ID is `len(todos) + 1`; returns the todo and the new
list. -/
def GreateTodo (todos : List Todo) (now : Time) (todo : Todo) : Todo × List Todo :=
  let todo1 : Todo := { todo with ID := todos.length + 1, CreateAt := now, UpdateAt := now }
  (todo1, todos ++ [todo1])

/-- Function `UpdateTodo`: replaces the first todo with that ID, keeping its ID and
`CreateAt`; returns the result pair and the new list. -/
def UpdateTodo : List Todo → Nat → Todo → (Todo × Bool) × List Todo
  | [], _, _ => ((Todo.zero, false), [])
  | todo :: rest, id, updatedTodo =>
    if todo.ID = id then
      let updated : Todo := { updatedTodo with ID := id, CreateAt := todo.CreateAt }
      ((updated, true), updated :: rest)
    else
      ((UpdateTodo rest id updatedTodo).1, todo :: (UpdateTodo rest id updatedTodo).2)

/-- Function `DeleteTodo`: removes the first todo with that ID; returns whether there
was one and the new list. -/
def DeleteTodo : List Todo → Nat → Bool × List Todo
  | [], _ => (false, [])
  | todo :: rest, id =>
    if todo.ID = id then (true, rest)
    else ((DeleteTodo rest id).1, todo :: (DeleteTodo rest id).2)

/-! ## Specification vocabulary -/

/-- The integer a counter key reads as: a missing key counts as 0, like `INCRBY` does. -/
def readCounter (c : Cache) (key : String) : Int :=
  match c key with
  | some ⟨CacheVal.count n, _⟩ => n
  | _ => 0

/-- The cache key `task:<id>`. -/
abbrev taskKey (id : Nat) : String := BuildCacheKey TaskCachePrefix id

/-- Every task document of the cache `c'` is held by `c` under the same key. -/
def TaskDocsWithin (c' c : Cache) : Prop :=
  ∀ key t, cachedTask c' key = some t → cachedTask c key = some t

/-- Coherence of the task cache with the store: primary keys of `tasks` are unique,
and a task document cached under `task:<k>` carries the key `k` and the owner of the
row `k`, and has no timestamp set that the row lacks. -/
structure Coherent (s : State) : Prop where
  nodup : (s.db.tasks.map (fun r => r.ID)).Nodup
  cached : ∀ k t, cachedTask s.cache (taskKey k) = some t →
    t.ID = k ∧ ∃ r ∈ s.db.tasks, r.ID = k ∧ r.UserID = t.UserID ∧
      (t.StartTime ≠ none → r.StartTime ≠ none) ∧ (t.EndTime ≠ none → r.EndTime ≠ none)

/-- The task `id` has its `StartTime` set wherever `UpdateTask` can read it: in the
live rows with that key and in the document cached under `task:<id>`, if there is one. -/
def StartTimeSeen (s : State) (id : Nat) : Prop :=
  (∀ t, cachedTask s.cache (taskKey id) = some t → t.StartTime ≠ none) ∧
  (∀ r ∈ s.db.tasks, r.ID = id → r.DeletedAt = none → r.StartTime ≠ none)

/-- The `StartTime` column of the `tasks` table, row by row. -/
def startTimes (s : State) : List (Nat × Option Time) :=
  s.db.tasks.map (fun r => (r.ID, r.StartTime))

/-- A counter key stands at the integer `n`: it is missing and `n = 0`, or it holds
`n`. -/
def HoldsCount (c : Cache) (key : String) (n : Int) : Prop :=
  (c key = none ∧ n = 0) ∨ ∃ ttl, c key = some ⟨CacheVal.count n, ttl⟩

/-- Every cache call of `CreateTask` succeeds. -/
def CreateFaults.cacheOk (f : CreateFaults) : Prop :=
  f.cacheSet = none ∧ f.cacheDelete = none ∧ f.stats.incr = none ∧ f.stats.expire = none

/-- Every cache call of `GetTaskByID` succeeds. -/
def GetFaults.cacheOk (f : GetFaults) : Prop :=
  f.cacheGet = none ∧ f.cacheSet = none

/-- Every cache call of `UpdateTask` succeeds. -/
def UpdateFaults.cacheOk (f : UpdateFaults) : Prop :=
  f.get.cacheOk ∧ f.cacheDelete = none ∧ f.listDelete = none ∧
  f.statsOld.incr = none ∧ f.statsOld.expire = none ∧
  f.statsNew.incr = none ∧ f.statsNew.expire = none

/-- Every cache call of `DeleteTask` succeeds. -/
def DeleteFaults.cacheOk (f : DeleteFaults) : Prop :=
  f.get.cacheOk ∧ f.cacheDelete = none ∧ f.listDelete = none ∧
  f.stats.incr = none ∧ f.stats.expire = none

/-- The counter scenario on the clock: it starts at time `t0` from an empty `tasks`
table, no cached task and all counters at zero; then time passes (`wait`, during which
Redis counts down the times to live and drops the keys that expire) and
`CreateTask`, `UpdateTask` and `DeleteTask` are called at the current time, each call
succeeding with all its cache calls succeeding. `CounterRun t0 t s`: the scenario
that started at `t0` is in state `s` at time `t`. -/
inductive CounterRun (t0 : Time) : Time → State → Prop where
  | init (s : State) : s.db.tasks = [] → (∀ id, cachedTask s.cache (taskKey id) = none) →
      (∀ u name, HoldsCount s.cache (countKey u name) 0) → CounterRun t0 t0 s
  | wait {t : Time} {s : State} (d : Nat) : CounterRun t0 t s →
      CounterRun t0 (t + d) (s.elapse d)
  | create {t : Time} {s : State} (f : CreateFaults) (userID : Nat) (req : TaskCreateRequest)
      (task : Task) : CounterRun t0 t s → f.cacheOk →
      (CreateTask s f t userID req).1 = .ok task →
      CounterRun t0 t (CreateTask s f t userID req).2
  | update {t : Time} {s : State} (f : UpdateFaults) (id userID : Nat)
      (req : TaskUpdateRequest) (task : Task) : CounterRun t0 t s → f.cacheOk →
      (UpdateTask s f t id userID req).1 = .ok task →
      CounterRun t0 t (UpdateTask s f t id userID req).2
  | delete {t : Time} {s : State} (f : DeleteFaults) (id userID : Nat) :
      CounterRun t0 t s → f.cacheOk → (DeleteTask s f t id userID).1 = .ok () →
      CounterRun t0 t (DeleteTask s f t id userID).2

/-- At time `t`, no counter key that holds a number other than 0 expires before the
time `horizon`. -/
def CountersLast (s : State) (t horizon : Time) : Prop :=
  ∀ u name n r, s.cache (countKey u name) = some ⟨CacheVal.count n, some r⟩ → n ≠ 0 →
    horizon ≤ t + r

/-- The invariant of the counter scenario: unique task keys; a document cached under
`task:<k>` carries the key, the owner and the status of the live row `k`; and every
counter key stands at the number of live tasks of its user in its status. -/
structure CountersAgree (s : State) : Prop where
  nodup : (s.db.tasks.map (fun r => r.ID)).Nodup
  cached : ∀ k t, cachedTask s.cache (taskKey k) = some t →
    t.ID = k ∧ ∃ r ∈ s.db.tasks, r.ID = k ∧ r.DeletedAt = none ∧ r.UserID = t.UserID ∧
      r.Status = t.Status
  counts : ∀ u st name, statusKey st = some name →
    HoldsCount s.cache (countKey u name) (s.db.countTasks u st)

/-- Every row of `tasks` has its status in {0, 1, 2, 3} and its priority in
{1, 2, 3, 4}. -/
def InRange (db : DB) : Prop :=
  ∀ r ∈ db.tasks, (0 ≤ r.Status ∧ r.Status ≤ 3) ∧ (1 ≤ r.Priority ∧ r.Priority ≤ 4)

/-- States the system can be in: it starts with unique task keys and an empty cache,
and then runs the service methods, with any faults and at any time. The step `env`
stands for everything else that happens to the store and the cache (the user and tag
management, expiry of keys): it leaves the `tasks` table alone and puts no task
document under a task key. -/
inductive Reachable : State → Prop where
  | init (s : State) : (s.db.tasks.map (fun r => r.ID)).Nodup → (∀ key, s.cache key = none) →
      Reachable s
  | create {s : State} (f : CreateFaults) (now : Time) (userID : Nat) (req : TaskCreateRequest) :
      Reachable s → Reachable (CreateTask s f now userID req).2
  | get {s : State} (f : GetFaults) (id : Nat) :
      Reachable s → Reachable (GetTaskByID s f id).2
  | update {s : State} (f : UpdateFaults) (now : Time) (id userID : Nat)
      (req : TaskUpdateRequest) : Reachable s → Reachable (UpdateTask s f now id userID req).2
  | delete {s : State} (f : DeleteFaults) (now : Time) (id userID : Nat) :
      Reachable s → Reachable (DeleteTask s f now id userID).2
  | deleteUser {s : State} (f : DeleteUserFaults) (now : Time) (id : Nat) :
      Reachable s → Reachable (DeleteUser s f now id).2
  | env {s s' : State} : Reachable s → s'.db.tasks = s.db.tasks →
      (∀ k t, cachedTask s'.cache (taskKey k) = some t → cachedTask s.cache (taskKey k) = some t) →
      Reachable s'

/-- Whether an event is an attempted cache or counter mutation: a set, a delete, an
increment, a decrement or an expire. -/
def Event.isMutation : Event → Bool
  | .cacheSet _ _ => true
  | .cacheDelete _ _ => true
  | .cacheIncrBy _ _ => true
  | .cacheDecrBy _ _ => true
  | .cacheExpire _ _ => true
  | _ => false

/-- No mutation is attempted in a run before its first successful commit. -/
def commitsFirst : List Event → Bool
  | [] => true
  | e :: run => if e = Event.txCommit true then true else !e.isMutation && commitsFirst run

/-- The events a call appended to the trace of the state `s` it started from. -/
def eventsSince (s s' : State) : List Event := s'.trace.drop s.trace.length

/-- The five cache-key prefixes defined in `pkg/redis`. -/
def cachePrefixes : List String :=
  [UserCachePrefix, TaskCachePrefix, UserTasksPrefix, TaskCountPrefix, LoginAttemptsPrefix]

/-- The values `todos` can take: the initial list, then any calls of `GreateTodo`,
`UpdateTodo` and `DeleteTodo`. -/
inductive TodosReachable : List Todo → Prop where
  | init (now : Time) : TodosReachable (initialTodos now)
  | create {todos : List Todo} (now : Time) (todo : Todo) :
      TodosReachable todos → TodosReachable (GreateTodo todos now todo).2
  | update {todos : List Todo} (id : Nat) (todo : Todo) :
      TodosReachable todos → TodosReachable (UpdateTodo todos id todo).2
  | delete {todos : List Todo} (id : Nat) :
      TodosReachable todos → TodosReachable (DeleteTodo todos id).2

/-- Every counter key of the cache `c'` is as in the cache `c`, or has a time to live
of 24 hours. -/
def CountersTouched (c c' : Cache) : Prop :=
  ∀ u name, c' (countKey u name) = c (countKey u name) ∨
    ∃ v, c' (countKey u name) = some ⟨v, some (Hour * 24)⟩

/-- Whether an event is a call on the cache, a read included. -/
def Event.isCacheCall : Event → Bool
  | .cacheGet _ => true
  | .cacheSet _ _ => true
  | .cacheDelete _ _ => true
  | .cacheIncrBy _ _ => true
  | .cacheDecrBy _ _ => true
  | .cacheExpire _ _ => true
  | .cacheHGetAll _ => true
  | _ => false

/-- No cache call is made in a run while a transaction is open. The flag tells
whether a transaction is open where the run starts; `Begin` opens one, and a commit,
successful or not, or a rollback ends it. -/
def cacheCallsOutsideTx : Bool → List Event → Bool
  | _, [] => true
  | _, Event.txBegin :: run => cacheCallsOutsideTx true run
  | _, Event.txCommit _ :: run => cacheCallsOutsideTx false run
  | _, Event.txRollback :: run => cacheCallsOutsideTx false run
  | inTx, e :: run => !(inTx && e.isCacheCall) && cacheCallsOutsideTx inTx run

/-- From the state `s` to the state `s'` the trace grew by mutations only. -/
def GrewByMutations (s s' : State) : Prop :=
  ∃ l, s'.trace = s.trace ++ l ∧ ∀ e ∈ l, e.isMutation = true

/-! ## A concrete scenario

Two users, three tags and no task; user 1 creates the task "write spec". -/

/-- All calls of `updateTaskStats` succeed. -/
def StatFaults.ok : StatFaults := ⟨none, none⟩

/-- All calls of `GetTaskByID` succeed. -/
def GetFaults.ok : GetFaults := ⟨none, none, none⟩

/-- All calls of `CreateTask` succeed. -/
def CreateFaults.ok : CreateFaults :=
  ⟨none, none, none, none, none, none, none, none, StatFaults.ok⟩

/-- All calls of `UpdateTask` succeed. -/
def UpdateFaults.ok : UpdateFaults :=
  ⟨GetFaults.ok, none, none, none, none, none, none, none, none, StatFaults.ok, StatFaults.ok⟩

/-- All calls of `DeleteTask` succeed. -/
def DeleteFaults.ok : DeleteFaults :=
  ⟨GetFaults.ok, none, none, none, none, none, StatFaults.ok⟩

/-- A request that changes nothing: every field absent. -/
def TaskUpdateRequest.empty : TaskUpdateRequest :=
  ⟨none, none, none, none, none, none, none, none⟩

def user1 : User :=
  { ID := 1, CreatedAt := 0, UpdatedAt := 0, DeletedAt := none, Username := "u1",
    Email := "u1@example.com", Password := "secret", Nickname := "", Avatar := "", Phone := "",
    Status := 1, LastLoginAt := none }

def user2 : User :=
  { ID := 2, CreatedAt := 0, UpdatedAt := 0, DeletedAt := none, Username := "u2",
    Email := "u2@example.com", Password := "hidden", Nickname := "", Avatar := "", Phone := "",
    Status := 1, LastLoginAt := none }

def tagA : Tag := ⟨1, 0, 0, none, "A", "#ff0000"⟩
def tagB : Tag := ⟨2, 0, 0, none, "B", "#00ff00"⟩
def tagC : Tag := ⟨3, 0, 0, none, "C", "#0000ff"⟩

/-- The initial store: two users, three tags, no task. -/
def db0 : DB := { users := [user1, user2], tasks := [], tags := [tagA, tagB, tagC], task_tags := [] }

/-- The initial state: the initial store and an empty cache. -/
def state0 : State := { db := db0, cache := fun _ => none, trace := [] }

/-- The request `{title: "write spec", priority: High}` with the tags A and B. -/
def reqWriteSpec : TaskCreateRequest :=
  { Title := "write spec", Description := "", Priority := TaskPriorityHigh, DueDate := none,
    TagIDs := [1, 2] }

/-- The state after user 1 created the task at time 10. -/
def state1 : State := (CreateTask state0 CreateFaults.ok 10 1 reqWriteSpec).2

/-- The row of the task created in `state1`. -/
def row1 : TaskRow :=
  { ID := 1, CreatedAt := 10, UpdatedAt := 10, DeletedAt := none, Title := "write spec",
    Description := "", Status := 0, Priority := 3, StartTime := none, EndTime := none,
    DueDate := none, UserID := 1 }

/-- The task created in `state1`, as `CreateTask` returns it. -/
def task1 : Task := Task.ofRow row1 user1 [tagA, tagB]

/-- The calls of `CreateTask` succeed up to the tag lookup, which fails. -/
def CreateFaults.tagLookup : CreateFaults :=
  ⟨none, none, some "connection refused", none, none, none, none, none, StatFaults.ok⟩

/-- The request `{status: Completed}`. -/
def reqComplete : TaskUpdateRequest :=
  { Title := none, Description := none, Status := some TaskStatusCompleted, Priority := none,
    StartTime := none, EndTime := none, DueDate := none, TagIDs := none }

/-- The task of `state1` once its owner completed it at time 20. -/
def task1Done : Task :=
  { task1 with Status := TaskStatusCompleted, EndTime := some 20, UpdatedAt := 20 }

/-- The state after user 1 completed the task at time 20. -/
def state2 : State := (UpdateTask state1 UpdateFaults.ok 20 1 1 reqComplete).2

/-- The state `state1` after the key `task:1` expired. -/
def state1Expired : State := { state1 with cache := fun _ => none }

/-- The request `{tag_ids: [3, 99]}`: tag C and a key that matches no tag. -/
def reqTagsC : TaskUpdateRequest :=
  { Title := none, Description := none, Status := none, Priority := none,
    StartTime := none, EndTime := none, DueDate := none, TagIDs := some [3, 99] }

/-- The task of `state1` once its tags were replaced at time 20. -/
def task1C : Task := { task1 with Tags := [tagC], UpdatedAt := 20 }

/-- The request `{status: InProgress}`. -/
def reqStart : TaskUpdateRequest :=
  { Title := none, Description := none, Status := some TaskStatusInProgress, Priority := none,
    StartTime := none, EndTime := none, DueDate := none, TagIDs := none }

/-- The calls of `UpdateTask` succeed, except the deletion of `task:<id>`. -/
def UpdateFaults.staleCache : UpdateFaults :=
  ⟨GetFaults.ok, none, none, none, none, none, none, some "i/o timeout", none, StatFaults.ok,
    StatFaults.ok⟩

/-- The state after user 1 started the task of `state1` at time 20 while the deletion
of `task:1` failed: the cache keeps the document written by `CreateTask`. -/
def stateStale : State := (UpdateTask state1 UpdateFaults.staleCache 20 1 1 reqStart).2

/-- The state after user 1 started the task of `state1` at time 20. -/
def stateStarted : State := (UpdateTask state1 UpdateFaults.ok 20 1 1 reqStart).2

/-- The request `{title: "write the spec"}`. -/
def reqRetitle : TaskUpdateRequest :=
  { Title := some "write the spec", Description := none, Status := none, Priority := none,
    StartTime := none, EndTime := none, DueDate := none, TagIDs := none }

/-- The request of a second task of user 1, without tags. -/
def reqReview : TaskCreateRequest :=
  { Title := "review", Description := "", Priority := TaskPriorityLow, DueDate := none,
    TagIDs := [] }

/-- The second task of user 1, created at time 30. -/
def task2 : Task :=
  { ID := 2, CreatedAt := 30, UpdatedAt := 30, DeletedAt := none, Title := "review",
    Description := "", Status := 0, Priority := 1, StartTime := none, EndTime := none,
    DueDate := none, UserID := 1, User := user1, Tags := [] }

/-- The counter scenario started at time 0 from `state0`, at time 10: user 1 has
created the task "write spec". -/
def timed1 : State := (CreateTask (state0.elapse 10) CreateFaults.ok 10 1 reqWriteSpec).2

/-- The scenario at time 20: user 1 has completed the task. -/
def timed2 : State := (UpdateTask (timed1.elapse 10) UpdateFaults.ok 20 1 1 reqComplete).2

/-- The scenario at time 30: user 1 has created a second task. -/
def timed3 : State := (CreateTask (timed2.elapse 10) CreateFaults.ok 30 1 reqReview).2

/-- The scenario at time 40: user 1 has deleted the completed first task. -/
def timed4 : State := (DeleteTask (timed3.elapse 10) DeleteFaults.ok 40 1 1).2

/-- The scenario of `timed1` 25 hours later, at time 90010: user 1 has created a second
task. The counter key armed at time 10 expired at time 86410. -/
def stateDayLater : State :=
  (CreateTask (timed1.elapse 90000) CreateFaults.ok 90010 1 reqReview).2

/-- All calls of `DeleteUser` succeed. -/
def DeleteUserFaults.ok : DeleteUserFaults := ⟨none, none, none, none, none, none⟩

/-- The state after user 1, owner of the task cached under `task:1`, was deleted at
time 20. -/
def stateUserGone : State := (DeleteUser state1 DeleteUserFaults.ok 20 1).2

/-- The state after user 1 deleted the task of `state1` at time 20. -/
def stateTaskGone : State := (DeleteTask state1 DeleteFaults.ok 20 1 1).2

/-- A create request with an empty title and the priority 9. -/
def reqBad : TaskCreateRequest :=
  { Title := "", Description := "", Priority := 9, DueDate := none, TagIDs := [] }

/-- The request `{status: 7, priority: 9}`. -/
def reqWild : TaskUpdateRequest :=
  { Title := none, Description := none, Status := some 7, Priority := some 9,
    StartTime := none, EndTime := none, DueDate := none, TagIDs := none }

/-- The state after the second start of the task in `stateStale`, at time 30. -/
def stateStaleAgain : State := (UpdateTask stateStale UpdateFaults.ok 30 1 1 reqStart).2

/-- The store calls of `CreateTask` succeed and each of its three cache steps fails. -/
def CreateFaults.cacheDown : CreateFaults :=
  ⟨none, none, none, none, none, none, some "connection refused", some "connection refused",
    ⟨some "connection refused", some "connection refused"⟩⟩

/-- The calls of `UpdateTask` succeed up to the `Updates` statement, which fails. -/
def UpdateFaults.updatesDown : UpdateFaults :=
  ⟨GetFaults.ok, some "deadlock", none, none, none, none, none, none, none, StatFaults.ok,
    StatFaults.ok⟩

/-- All calls of `GetUserTaskStats` succeed. -/
def StatsFaults.ok : StatsFaults := ⟨none, fun _ => none, fun _ => none, none, none⟩

/-- All calls of `UserServiceWithDAO.DeleteUser` succeed. -/
def UserDeleteFaults.ok : UserDeleteFaults := ⟨none, none, none, none, none, none, none⟩

/-- All calls of `UserServiceWithDAO.CreateUser` succeed. -/
def UserCreateFaults.ok : UserCreateFaults := ⟨none, none, none, none⟩

/-- A create-user request with the username of user 1. -/
def reqDuplicate : UserCreateRequest :=
  { Username := "u1", Email := "new@example.com", Password := "123456", Nickname := "",
    Phone := "" }

/-- A create-user request with a username and an email no user holds. -/
def reqNewUser : UserCreateRequest :=
  { Username := "testuser", Email := "test@example.com", Password := "123456",
    Nickname := "tester", Phone := "" }

/-- The user created from `reqNewUser` in the initial store at time 10. -/
def user3 : User :=
  { ID := 3, CreatedAt := 10, UpdatedAt := 10, DeletedAt := none, Username := "testuser",
    Email := "test@example.com", Password := "123456", Nickname := "tester", Avatar := "",
    Phone := "", Status := 1, LastLoginAt := none }

/-- All calls of `UserServiceWithDAO.GetUserStats` succeed. -/
def UserStatsFaults.ok : UserStatsFaults := ⟨none, none, none, none, none⟩

/-- The request `{status: InProgress, start_time: 5}`. -/
def reqStartAt : TaskUpdateRequest :=
  { Title := none, Description := none, Status := some TaskStatusInProgress, Priority := none,
    StartTime := some 5, EndTime := none, DueDate := none, TagIDs := none }

/-- A todo as a caller hands it to `GreateTodo`. -/
def todoNew : Todo :=
  { ID := 0, Title := "Todo 3", Description := "", Completed := false, CreateAt := 0,
    UpdateAt := 0 }

/-- The todo list after `DeleteTodo(1)` and then `GreateTodo(todoNew)` at time 5, the
program having started at time 0. -/
def todosAfter : List Todo :=
  (GreateTodo (DeleteTodo (initialTodos 0) 1).2 5 todoNew).2

/-- The state after user 1 replaced the tags of the task of `state1` by tag C at time
20 while the deletion of `task:1` failed: the store links the task to C, the cache
keeps the document written by `CreateTask`, which carries the tags A and B. -/
def stateStaleTags : State := (UpdateTask state1 UpdateFaults.staleCache 20 1 1 reqTagsC).2

/-- The task of `stateStaleTags` as returned by the update of its title at time 30:
it is linked to C and, again, to A and B. -/
def task1Relinked : Task :=
  { task1 with Title := "write the spec", UpdatedAt := 30, Tags := [tagA, tagB, tagC] }

/-! ## Decimal rendering and cache keys -/

theorem digitChar_toNat (k : Nat) (h : k < 10) : (Nat.digitChar k).toNat - 48 = k := by
  interval_cases k <;> rfl

theorem digitChar_ne_colon (k : Nat) (h : k < 10) : Nat.digitChar k ≠ ':' := by
  interval_cases k <;> decide

theorem toDigitsCore_append (f : Nat) : ∀ (n : Nat) (ds : List Char),
    Nat.toDigitsCore 10 f n ds = Nat.toDigitsCore 10 f n [] ++ ds := by
  induction f with
  | zero => intro n ds; simp [Nat.toDigitsCore]
  | succ f ih =>
    intro n ds
    simp only [Nat.toDigitsCore]
    by_cases h : n / 10 = 0
    · simp [h]
    · simp only [h, if_false]
      rw [ih (n / 10) (Nat.digitChar (n % 10) :: ds), ih (n / 10) [Nat.digitChar (n % 10)]]
      simp

theorem decodeDigits_snoc (l : List Char) (c : Char) :
    decodeDigits (l ++ [c]) = decodeDigits l * 10 + (c.toNat - 48) := by
  simp [decodeDigits, List.foldl_append]

theorem decodeDigits_toDigitsCore (f : Nat) : ∀ n : Nat, n < f →
    decodeDigits (Nat.toDigitsCore 10 f n []) = n := by
  induction f with
  | zero => intro n h; omega
  | succ f ih =>
    intro n hn
    simp only [Nat.toDigitsCore]
    by_cases h : n / 10 = 0
    · simp only [h, if_true]
      have h10 : n < 10 := by omega
      have hm : n % 10 = n := by omega
      rw [hm]
      simpa [decodeDigits] using digitChar_toNat n h10
    · simp only [h, if_false]
      rw [toDigitsCore_append, decodeDigits_snoc, ih (n / 10) (by omega),
        digitChar_toNat (n % 10) (Nat.mod_lt _ (by decide))]
      omega

theorem toDigitsCore_ne_colon (f : Nat) : ∀ n : Nat, ∀ c ∈ Nat.toDigitsCore 10 f n [], c ≠ ':' := by
  induction f with
  | zero => intro n c hc; simp [Nat.toDigitsCore] at hc
  | succ f ih =>
    intro n c hc
    simp only [Nat.toDigitsCore] at hc
    by_cases h : n / 10 = 0
    · simp only [h, if_true, List.mem_singleton] at hc
      subst hc
      exact digitChar_ne_colon _ (Nat.mod_lt _ (by decide))
    · simp only [h, if_false] at hc
      rw [toDigitsCore_append] at hc
      rcases List.mem_append.1 hc with hc | hc
      · exact ih _ c hc
      · simp only [List.mem_singleton] at hc
        subst hc
        exact digitChar_ne_colon _ (Nat.mod_lt _ (by decide))

theorem toString_data (n : Nat) : (toString n).data = Nat.toDigits 10 n := rfl

theorem toString_nat_inj {a b : Nat} (h : (toString a).data = (toString b).data) : a = b := by
  rw [toString_data, toString_data] at h
  have ha := decodeDigits_toDigitsCore (a + 1) a (by omega)
  have hb := decodeDigits_toDigitsCore (b + 1) b (by omega)
  unfold Nat.toDigits at h
  rw [h] at ha
  omega

theorem toString_nat_ne_colon (n : Nat) : ∀ c ∈ (toString n).data, c ≠ ':' := by
  rw [toString_data]
  exact toDigitsCore_ne_colon _ _

/-- Splitting at the first colon is unambiguous. -/
theorem append_colon_inj : ∀ (xs ys a b : List Char),
    (∀ c ∈ xs, c ≠ ':') → (∀ c ∈ ys, c ≠ ':') →
    xs ++ ':' :: a = ys ++ ':' :: b → xs = ys ∧ a = b := by
  intro xs
  induction xs with
  | nil =>
    intro ys a b _ hy h
    cases ys with
    | nil => simpa using h
    | cons y ys =>
      simp only [List.nil_append, List.cons_append, List.cons.injEq] at h
      exact absurd h.1.symm (hy y (by simp))
  | cons x xs ih =>
    intro ys a b hx hy h
    cases ys with
    | nil =>
      simp only [List.nil_append, List.cons_append, List.cons.injEq] at h
      exact absurd h.1 (hx x (by simp))
    | cons y ys =>
      simp only [List.cons_append, List.cons.injEq] at h
      obtain ⟨h1, h2⟩ := ih ys a b (fun c hc => hx c (by simp [hc])) (fun c hc => hy c (by simp [hc])) h.2
      exact ⟨by rw [h.1, h1], h2⟩

theorem BuildCacheKey_inj (pfx : String) {a b : Nat}
    (h : BuildCacheKey pfx a = BuildCacheKey pfx b) : a = b := by
  have h1 := congrArg String.data h
  simp only [BuildCacheKey, String.data_append, List.append_cancel_left_eq] at h1
  exact toString_nat_inj h1

theorem taskKey_ne_userTasksKey (a b : Nat) :
    BuildCacheKey TaskCachePrefix a ≠ BuildCacheKey UserTasksPrefix b := by
  intro h
  have h1 := congrArg String.data h
  simp [BuildCacheKey, String.data_append, TaskCachePrefix, UserTasksPrefix] at h1

theorem taskKey_ne_countKey (a u : Nat) (key : String) :
    BuildCacheKey TaskCachePrefix a ≠ countKey u key := by
  intro h
  have h1 := congrArg String.data h
  simp [BuildCacheKey, countKey, String.data_append, TaskCachePrefix, TaskCountPrefix] at h1

theorem userTasksKey_ne_countKey (a u : Nat) (key : String) :
    BuildCacheKey UserTasksPrefix a ≠ countKey u key := by
  intro h
  have h1 := congrArg String.data h
  simp [BuildCacheKey, countKey, String.data_append, UserTasksPrefix, TaskCountPrefix] at h1

theorem countKey_inj {u v : Nat} {j k : String} (h : countKey u j = countKey v k) :
    u = v ∧ j = k := by
  have h1 := congrArg String.data h
  simp only [countKey, String.data_append, List.append_assoc, List.append_cancel_left_eq] at h1
  have h2 := append_colon_inj _ _ _ _ (toString_nat_ne_colon u) (toString_nat_ne_colon v) h1
  exact ⟨toString_nat_inj h2.1, String.ext h2.2⟩


theorem taskCountKey_ne_countKey (a u : Nat) (key : String) :
    BuildCacheKey TaskCountPrefix a ≠ countKey u key := by
  intro h
  have h1 := congrArg String.data h
  simp only [BuildCacheKey, countKey, String.data_append, List.append_assoc,
    List.append_cancel_left_eq] at h1
  have hmem : ':' ∈ (toString a).data := by
    rw [h1]
    have : (":" : String).data = [':'] := rfl
    simp [this]
  exact toString_nat_ne_colon a ':' hmem rfl

/-- Keys built from two of the five prefixes are equal only when the prefixes and the
ids are. -/
theorem BuildCacheKey_inj_prefixes {p q : String} (hp : p ∈ cachePrefixes)
    (hq : q ∈ cachePrefixes) {a b : Nat} (h : BuildCacheKey p a = BuildCacheKey q b) :
    p = q ∧ a = b := by
  simp only [cachePrefixes, List.mem_cons, List.mem_singleton, List.not_mem_nil, or_false] at hp hq
  rcases hp with rfl | rfl | rfl | rfl | rfl <;> rcases hq with rfl | rfl | rfl | rfl | rfl
  all_goals first
    | exact ⟨rfl, BuildCacheKey_inj _ h⟩
    | (exfalso
       have h1 := congrArg String.data h
       simp [BuildCacheKey, String.data_append, UserCachePrefix, TaskCachePrefix,
         UserTasksPrefix, TaskCountPrefix, LoginAttemptsPrefix] at h1)

/-- No key built from one of the five prefixes is a counter key. -/
theorem BuildCacheKey_ne_countKey {p : String} (hp : p ∈ cachePrefixes) (a u : Nat)
    (key : String) : BuildCacheKey p a ≠ countKey u key := by
  simp only [cachePrefixes, List.mem_cons, List.mem_singleton, List.not_mem_nil, or_false] at hp
  rcases hp with rfl | rfl | rfl | rfl | rfl
  · intro h
    have h1 := congrArg String.data h
    simp [BuildCacheKey, countKey, String.data_append, UserCachePrefix, TaskCountPrefix] at h1
  · exact taskKey_ne_countKey a u key
  · exact userTasksKey_ne_countKey a u key
  · exact taskCountKey_ne_countKey a u key
  · intro h
    have h1 := congrArg String.data h
    simp [BuildCacheKey, countKey, String.data_append, LoginAttemptsPrefix, TaskCountPrefix] at h1
/-! ## Frame lemmas for the cache calls -/

@[simp] theorem Set_db (s : State) (f : Fault) (key : String) (v : CacheVal) (e : Nat) :
    (CacheService.Set s f key v e).db = s.db := by
  unfold CacheService.Set; split <;> rfl

@[simp] theorem Delete_db (s : State) (f : Fault) (key : String) :
    (CacheService.Delete s f key).db = s.db := by
  unfold CacheService.Delete; split <;> rfl

@[simp] theorem IncrBy_db (s : State) (f : Fault) (key : String) (v : Int) :
    (CacheService.IncrBy s f key v).db = s.db := by
  unfold CacheService.IncrBy; split <;> rfl

@[simp] theorem DecrBy_db (s : State) (f : Fault) (key : String) (v : Int) :
    (CacheService.DecrBy s f key v).db = s.db := by
  unfold CacheService.DecrBy; split <;> rfl

@[simp] theorem SetExpire_db (s : State) (f : Fault) (key : String) (e : Nat) :
    (CacheService.SetExpire s f key e).db = s.db := by
  unfold CacheService.SetExpire; split <;> rfl

@[simp] theorem updateTaskStats_db (s : State) (f : StatFaults) (u : Nat) (st d : Int) :
    (updateTaskStats s f u st d).db = s.db := by
  unfold updateTaskStats
  split
  · rfl
  · simp only [SetExpire_db]; split <;> simp

@[simp] theorem rollback_db (s : State) : (rollback s).db = s.db := rfl

@[simp] theorem rollback_cache (s : State) : (rollback s).cache = s.cache := rfl

@[simp] theorem beginTx_db (s : State) : (beginTx s).db = s.db := rfl

@[simp] theorem beginTx_cache (s : State) : (beginTx s).cache = s.cache := rfl

@[simp] theorem commitTx_db (s : State) (tx : DB) : (commitTx s tx).db = tx := rfl

@[simp] theorem commitTx_cache (s : State) (tx : DB) : (commitTx s tx).cache = s.cache := rfl

@[simp] theorem commitFailed_db (s : State) : (commitFailed s).db = s.db := rfl

@[simp] theorem commitFailed_cache (s : State) : (commitFailed s).cache = s.cache := rfl

@[simp] theorem Get_snd_db (s : State) (f : Fault) (key : String) :
    (CacheService.Get s f key).2.db = s.db := by
  unfold CacheService.Get; split <;> rfl

@[simp] theorem Get_snd_cache (s : State) (f : Fault) (key : String) :
    (CacheService.Get s f key).2.cache = s.cache := by
  unfold CacheService.Get; split <;> rfl

theorem TaskDocsWithin.refl (c : Cache) : TaskDocsWithin c c := fun _ _ h => h

theorem TaskDocsWithin.trans {a b c : Cache} (h1 : TaskDocsWithin a b) (h2 : TaskDocsWithin b c) :
    TaskDocsWithin a c := fun key t h => h2 key t (h1 key t h)

theorem Delete_within (s : State) (f : Fault) (key : String) :
    TaskDocsWithin (CacheService.Delete s f key).cache s.cache := by
  intro k t h
  unfold CacheService.Delete at h
  split at h
  · exact h
  · by_cases hk : k = key
    · simp [cachedTask, hk] at h
    · simpa [cachedTask, hk] using h

theorem redisIncrBy_within {c c' : Cache} {key : String} {v : Int}
    (h : redisIncrBy c key v = some c') : TaskDocsWithin c' c := by
  intro k t hk
  unfold redisIncrBy at h
  split at h
  · cases h
    by_cases hkk : k = key
    · simp [cachedTask, hkk] at hk
    · simpa [cachedTask, hkk] using hk
  · cases h
    by_cases hkk : k = key
    · simp [cachedTask, hkk] at hk
    · simpa [cachedTask, hkk] using hk
  · cases h

theorem IncrBy_within (s : State) (f : Fault) (key : String) (v : Int) :
    TaskDocsWithin (CacheService.IncrBy s f key v).cache s.cache := by
  unfold CacheService.IncrBy
  split
  · next c h => exact redisIncrBy_within h
  · exact TaskDocsWithin.refl _

theorem DecrBy_within (s : State) (f : Fault) (key : String) (v : Int) :
    TaskDocsWithin (CacheService.DecrBy s f key v).cache s.cache := by
  unfold CacheService.DecrBy
  split
  · next c h => exact redisIncrBy_within h
  · exact TaskDocsWithin.refl _

theorem SetExpire_within (s : State) (f : Fault) (key : String) (e : Nat) :
    TaskDocsWithin (CacheService.SetExpire s f key e).cache s.cache := by
  intro k t h
  unfold CacheService.SetExpire at h
  split at h
  · exact h
  · by_cases hk : k = key
    · subst hk
      simp only [cachedTask, if_true] at h ⊢
      cases hc : s.cache k with
      | none => simp [hc] at h
      | some e0 =>
        obtain ⟨v0, t0⟩ := e0
        simp only [hc, Option.map_some'] at h
        cases v0 <;> simp_all
    · simpa [cachedTask, hk] using h

theorem updateTaskStats_within (s : State) (f : StatFaults) (u : Nat) (st d : Int) :
    TaskDocsWithin (updateTaskStats s f u st d).cache s.cache := by
  unfold updateTaskStats
  split
  · exact TaskDocsWithin.refl _
  · refine TaskDocsWithin.trans (SetExpire_within _ _ _ _) ?_
    split
    · exact IncrBy_within _ _ _ _
    · exact DecrBy_within _ _ _ _


@[simp] theorem modelUpdates_tasks (db : DB) (now : Time) (task : Task) (u : Updates) :
    (db.modelUpdates now task u).tasks = (db.updates now task.ID u).tasks := rfl

@[simp] theorem modelUpdates_users (db : DB) (now : Time) (task : Task) (u : Updates) :
    (db.modelUpdates now task u).users = db.users := rfl

@[simp] theorem modelUpdates_tags (db : DB) (now : Time) (task : Task) (u : Updates) :
    (db.modelUpdates now task u).tags = db.tags := rfl

theorem modelUpdates_task_tags (db : DB) (now : Time) (task : Task) (u : Updates) :
    (db.modelUpdates now task u).task_tags = (db.appendTags task.ID task.Tags).task_tags := rfl
/-! ## Keys a cache call leaves alone -/

theorem Set_cache_other (s : State) (f : Fault) (key k : String) (v : CacheVal) (e : Nat)
    (hk : k ≠ key) : (CacheService.Set s f key v e).cache k = s.cache k := by
  unfold CacheService.Set; split <;> simp [hk]

theorem Delete_cache_other (s : State) (f : Fault) (key k : String) (hk : k ≠ key) :
    (CacheService.Delete s f key).cache k = s.cache k := by
  unfold CacheService.Delete; split <;> simp [hk]

theorem Delete_cache_same (s : State) (key : String) :
    (CacheService.Delete s none key).cache key = none := by
  simp [CacheService.Delete]

theorem redisIncrBy_other {c c' : Cache} {key : String} {v : Int}
    (h : redisIncrBy c key v = some c') (k : String) (hk : k ≠ key) : c' k = c k := by
  unfold redisIncrBy at h
  split at h
  · cases h; simp [hk]
  · cases h; simp [hk]
  · cases h

theorem IncrBy_cache_other (s : State) (f : Fault) (key k : String) (v : Int) (hk : k ≠ key) :
    (CacheService.IncrBy s f key v).cache k = s.cache k := by
  unfold CacheService.IncrBy
  split
  · next c h => exact redisIncrBy_other h k hk
  · rfl

theorem DecrBy_cache_other (s : State) (f : Fault) (key k : String) (v : Int) (hk : k ≠ key) :
    (CacheService.DecrBy s f key v).cache k = s.cache k := by
  unfold CacheService.DecrBy
  split
  · next c h => exact redisIncrBy_other h k hk
  · rfl

theorem SetExpire_cache_other (s : State) (f : Fault) (key k : String) (e : Nat) (hk : k ≠ key) :
    (CacheService.SetExpire s f key e).cache k = s.cache k := by
  unfold CacheService.SetExpire; split <;> simp [hk]

/-- The counter update touches no key outside the counter keys of the user. -/
theorem updateTaskStats_cache_other (s : State) (f : StatFaults) (u : Nat) (st d : Int)
    (k : String) (hk : ∀ name, k ≠ countKey u name) :
    (updateTaskStats s f u st d).cache k = s.cache k := by
  unfold updateTaskStats
  split
  · rfl
  · next name _ =>
    simp only
    rw [SetExpire_cache_other _ _ _ _ _ (hk name)]
    split
    · exact IncrBy_cache_other _ _ _ _ _ (hk name)
    · exact DecrBy_cache_other _ _ _ _ _ (hk name)

theorem updateTaskStats_taskKey (s : State) (f : StatFaults) (u : Nat) (st d : Int) (id : Nat) :
    (updateTaskStats s f u st d).cache (taskKey id) = s.cache (taskKey id) :=
  updateTaskStats_cache_other s f u st d _ (fun name => taskKey_ne_countKey id u name)

/-! ## The coherence invariant -/

theorem le_foldr_max (l : List Nat) : ∀ x ∈ l, x ≤ l.foldr max 0 := by
  induction l with
  | nil => intro x hx; cases hx
  | cons a l ih =>
    intro x hx
    simp only [List.foldr_cons]
    rcases List.mem_cons.1 hx with h | h
    · subst h; exact le_max_left _ _
    · exact le_trans (ih x h) (le_max_right _ _)

theorem lt_nextTaskID (db : DB) : ∀ r ∈ db.tasks, r.ID < db.nextTaskID := by
  intro r hr
  have := le_foldr_max (db.tasks.map (fun r => r.ID)) r.ID (List.mem_map_of_mem _ hr)
  unfold DB.nextTaskID
  omega

theorem nodup_ids_append (db : DB) (row : TaskRow) (hid : row.ID = db.nextTaskID)
    (h : (db.tasks.map (fun r => r.ID)).Nodup) :
    ((db.tasks ++ [row]).map (fun r => r.ID)).Nodup := by
  rw [List.map_append, List.nodup_append]
  refine ⟨h, by simp, ?_⟩
  intro a ha hb
  simp only [List.map_cons, List.map_nil, List.mem_singleton] at hb
  obtain ⟨r, hr, rfl⟩ := List.mem_map.1 ha
  have := lt_nextTaskID db r hr
  omega

/-- Two rows of a table with unique keys that share a key are the same row. -/
theorem row_unique {l : List TaskRow} (h : (l.map (fun r => r.ID)).Nodup) {a b : TaskRow}
    (ha : a ∈ l) (hb : b ∈ l) (hab : a.ID = b.ID) : a = b :=
  List.inj_on_of_nodup_map h ha hb hab

theorem Coherent.mono {s s' : State} (h : Coherent s)
    (hnd : (s'.db.tasks.map (fun r => r.ID)).Nodup)
    (hrows : ∀ r ∈ s.db.tasks, ∃ r' ∈ s'.db.tasks, r'.ID = r.ID ∧ r'.UserID = r.UserID ∧
      (r.StartTime ≠ none → r'.StartTime ≠ none) ∧ (r.EndTime ≠ none → r'.EndTime ≠ none))
    (hc : TaskDocsWithin s'.cache s.cache) : Coherent s' := by
  refine ⟨hnd, ?_⟩
  intro k t hk
  obtain ⟨hid, r, hr, h1, h2, h3, h4⟩ := h.cached k t (hc _ _ hk)
  obtain ⟨r', hr', g1, g2, g3, g4⟩ := hrows r hr
  exact ⟨hid, r', hr', by rw [g1, h1], by rw [g2, h2], fun x => g3 (h3 x), fun x => g4 (h4 x)⟩

/-- A step that leaves the `tasks` table alone and adds no task document. -/
theorem Coherent.frame {s s' : State} (h : Coherent s) (hdb : s'.db.tasks = s.db.tasks)
    (hc : TaskDocsWithin s'.cache s.cache) : Coherent s' := by
  refine h.mono (by rw [hdb]; exact h.nodup) ?_ hc
  intro r hr
  exact ⟨r, by rw [hdb]; exact hr, rfl, rfl, id, id⟩

theorem Coherent.set {s : State} (h : Coherent s) (f : Fault) (t : Task) (r : TaskRow)
    (hr : r ∈ s.db.tasks) (hid : t.ID = r.ID) (hu : r.UserID = t.UserID)
    (hs : t.StartTime ≠ none → r.StartTime ≠ none) (he : t.EndTime ≠ none → r.EndTime ≠ none)
    (e : Nat) :
    Coherent (CacheService.Set s f (taskKey t.ID) (CacheVal.task (marshalTask t)) e) := by
  unfold CacheService.Set
  split
  · exact h.frame rfl (TaskDocsWithin.refl _)
  · refine ⟨h.nodup, ?_⟩
    intro k t' hk
    by_cases hkk : taskKey k = taskKey t.ID
    · have hk' : k = t.ID := BuildCacheKey_inj _ hkk
      simp only [cachedTask, hkk, if_true, Option.some.injEq] at hk
      subst hk
      exact ⟨hk'.symm, r, hr, by rw [hk', hid], hu, hs, he⟩
    · have : cachedTask s.cache (taskKey k) = some t' := by
        simpa [cachedTask, hkk] using hk
      exact h.cached k t' this

theorem ids_map_eq (l : List TaskRow) (g : TaskRow → TaskRow) (hg : ∀ r, (g r).ID = r.ID) :
    (l.map g).map (fun r => r.ID) = l.map (fun r => r.ID) := by
  rw [List.map_map]
  exact List.map_congr_left (fun r _ => hg r)

/-- A store step that rewrites rows in place, keeping key and owner and unsetting no
timestamp, together with a cache step that adds no task document. -/
theorem Coherent.map {s s' : State} (h : Coherent s) (g : TaskRow → TaskRow)
    (hdb : s'.db.tasks = s.db.tasks.map g)
    (hg : ∀ r, (g r).ID = r.ID ∧ (g r).UserID = r.UserID ∧
      (r.StartTime ≠ none → (g r).StartTime ≠ none) ∧ (r.EndTime ≠ none → (g r).EndTime ≠ none))
    (hc : TaskDocsWithin s'.cache s.cache) : Coherent s' := by
  refine h.mono ?_ ?_ hc
  · rw [hdb, ids_map_eq _ g (fun r => (hg r).1)]; exact h.nodup
  · intro r hr
    exact ⟨g r, by rw [hdb]; exact List.mem_map_of_mem g hr, hg r⟩

theorem firstTask_some {db : DB} {d id : Nat} {t : Task} (h : db.firstTask d id = some t) :
    ∃ r ∈ db.tasks, r.ID = id ∧ (d = 0 ∨ r.ID = d) ∧ r.DeletedAt = none ∧
      t = Task.ofRow r (db.preloadUser r) (db.preloadTags r) := by
  unfold DB.firstTask at h
  split at h
  · next r hf =>
    have hp := List.find?_some hf
    simp only [decide_eq_true_eq] at hp
    cases h
    exact ⟨r, List.mem_of_find?_eq_some hf, hp.1, hp.2.1, hp.2.2, rfl⟩
  · cases h

/-- The state after the cache lookup of `GetTaskByID`. -/
theorem Get_snd (s : State) (f : Fault) (key : String) :
    (CacheService.Get s f key).2 = { s with trace := s.trace ++ [Event.cacheGet key] } := by
  unfold CacheService.Get; split <;> rfl

theorem Get_fst (s : State) (f : Fault) (key : String) :
    (CacheService.Get s f key).1 = if f = none then cachedTask s.cache key else none := by
  unfold CacheService.Get; split <;> simp

/-- The four outcomes of `GetTaskByID`: a cache hit, a failed store read, a missing
row, and a row read from the store and written to the cache. -/
theorem GetTaskByID_cases (s : State) (f : GetFaults) (id : Nat) :
    (∃ t, (CacheService.Get s f.cacheGet (taskKey id)).1 = some t ∧
      GetTaskByID s f id = (.ok t, (CacheService.Get s f.cacheGet (taskKey id)).2)) ∨
    (∃ cause, (CacheService.Get s f.cacheGet (taskKey id)).1 = none ∧ f.dbFirst = some cause ∧
      GetTaskByID s f id =
        (.error (.queryTaskFailed cause), (CacheService.Get s f.cacheGet (taskKey id)).2)) ∨
    ((CacheService.Get s f.cacheGet (taskKey id)).1 = none ∧ f.dbFirst = none ∧
      s.db.firstTask 0 id = none ∧
      GetTaskByID s f id =
        (.error (.taskNotFound id), (CacheService.Get s f.cacheGet (taskKey id)).2)) ∨
    (∃ t, (CacheService.Get s f.cacheGet (taskKey id)).1 = none ∧ f.dbFirst = none ∧
      s.db.firstTask 0 id = some t ∧
      GetTaskByID s f id =
        (.ok t, CacheService.Set (CacheService.Get s f.cacheGet (taskKey id)).2 f.cacheSet
          (taskKey id) (CacheVal.task (marshalTask t)) Hour)) := by
  unfold GetTaskByID
  simp only
  generalize hg : CacheService.Get s f.cacheGet (BuildCacheKey TaskCachePrefix id) = g
  have hdb : g.2.db = s.db := by rw [← hg]; simp
  obtain ⟨o, s1⟩ := g
  simp only at hdb
  cases o with
  | some t => simp
  | none =>
    simp only
    cases hf : f.dbFirst with
    | some cause => simp
    | none =>
      simp only
      rw [hdb]
      cases ht : s.db.firstTask 0 id with
      | none => simp
      | some t => simp

theorem GetTaskByID_db (s : State) (f : GetFaults) (id : Nat) :
    (GetTaskByID s f id).2.db = s.db := by
  rcases GetTaskByID_cases s f id with ⟨t, _, h⟩ | ⟨c, _, _, h⟩ | ⟨_, _, _, h⟩ | ⟨t, _, _, _, h⟩ <;>
    simp [h]

theorem GetTaskByID_coherent {s : State} (h : Coherent s) (f : GetFaults) (id : Nat) :
    Coherent (GetTaskByID s f id).2 := by
  have h1 : Coherent (CacheService.Get s f.cacheGet (taskKey id)).2 :=
    h.frame (by simp) (by simp [TaskDocsWithin.refl])
  rcases GetTaskByID_cases s f id with ⟨t, _, hg⟩ | ⟨c, _, _, hg⟩ | ⟨_, _, _, hg⟩ | ⟨t, _, _, ht, hg⟩
  · rw [hg]; exact h1
  · rw [hg]; exact h1
  · rw [hg]; exact h1
  · rw [hg]
    obtain ⟨r, hr, hid, _, _, rfl⟩ := firstTask_some ht
    have := Coherent.set h1 f.cacheSet (Task.ofRow r (s.db.preloadUser r) (s.db.preloadTags r))
      r (by simpa using hr) rfl rfl (fun x => x) (fun x => x) Hour
    simpa [Task.ofRow, hid] using this

/-! ## Outcomes of `UpdateTask` and `DeleteTask` -/

theorem replaceTags_tables {tx tx2 : DB} {f : UpdateFaults} {taskID : Nat}
    {tagIDs : Option (List Nat)} (h : replaceTags tx f taskID tagIDs = .ok tx2) :
    tx2.tasks = tx.tasks ∧ tx2.users = tx.users ∧ tx2.tags = tx.tags := by
  unfold replaceTags at h
  split at h
  · cases h; exact ⟨rfl, rfl, rfl⟩
  · split at h
    · cases h
    · split at h
      · split at h
        · cases h
        · split at h
          · cases h
          · cases h; exact ⟨rfl, rfl, rfl⟩
      · cases h; exact ⟨rfl, rfl, rfl⟩

@[simp] theorem updateSideEffects_db (s : State) (f : UpdateFaults) (id userID : Nat)
    (oldStatus : Int) (req : TaskUpdateRequest) :
    (updateSideEffects s f id userID oldStatus req).db = s.db := by
  unfold updateSideEffects
  simp only
  split
  · simp
  · split <;> simp

theorem updateSideEffects_within (s : State) (f : UpdateFaults) (id userID : Nat)
    (oldStatus : Int) (req : TaskUpdateRequest) :
    TaskDocsWithin (updateSideEffects s f id userID oldStatus req).cache s.cache := by
  have h2 : TaskDocsWithin
      (CacheService.Delete (CacheService.Delete s f.cacheDelete (BuildCacheKey TaskCachePrefix id))
        f.listDelete (BuildCacheKey UserTasksPrefix userID)).cache s.cache :=
    (Delete_within _ _ _).trans (Delete_within _ _ _)
  unfold updateSideEffects
  simp only
  split
  · exact h2
  · split
    · exact ((updateTaskStats_within _ _ _ _ _).trans (updateTaskStats_within _ _ _ _ _)).trans h2
    · exact h2

/-- The outcomes of `UpdateTask`, by the step that ends the call. `s1` is the state
left by the fetch; a failure inside the transaction leaves the store and the cache
of `s1`; a failure of the reload leaves the committed store and the cache of `s1`. -/
theorem UpdateTask_cases (s : State) (f : UpdateFaults) (now : Time) (id userID : Nat)
    (req : TaskUpdateRequest) :
    (∃ e, (GetTaskByID s f.get id).1 = .error e ∧
      UpdateTask s f now id userID req = (.error e, (GetTaskByID s f.get id).2)) ∨
    (∃ task, (GetTaskByID s f.get id).1 = .ok task ∧ task.UserID ≠ userID ∧
      UpdateTask s f now id userID req = (.error .updateNotPermitted, (GetTaskByID s f.get id).2)) ∨
    (∃ task e s', (GetTaskByID s f.get id).1 = .ok task ∧ task.UserID = userID ∧
      UpdateTask s f now id userID req = (.error e, s') ∧
      s'.db = s.db ∧ s'.cache = (GetTaskByID s f.get id).2.cache) ∨
    (∃ task tx2 e, (GetTaskByID s f.get id).1 = .ok task ∧ task.UserID = userID ∧
      f.updates = none ∧ f.commit = none ∧
      replaceTags (s.db.modelUpdates now task (buildUpdates task now req)) f task.ID req.TagIDs
        = .ok tx2 ∧
      (f.reload ≠ none ∨ tx2.firstTask task.ID id = none) ∧
      UpdateTask s f now id userID req =
        (.error e, commitTx (beginTx (GetTaskByID s f.get id).2) tx2)) ∨
    (∃ task tx2 task1, (GetTaskByID s f.get id).1 = .ok task ∧ task.UserID = userID ∧
      f.updates = none ∧ f.commit = none ∧ f.reload = none ∧
      replaceTags (s.db.modelUpdates now task (buildUpdates task now req)) f task.ID req.TagIDs
        = .ok tx2 ∧
      tx2.firstTask task.ID id = some task1 ∧
      UpdateTask s f now id userID req =
        (.ok task1, updateSideEffects (commitTx (beginTx (GetTaskByID s f.get id).2) tx2) f id
          userID task.Status req)) := by
  unfold UpdateTask
  have hdb := GetTaskByID_db s f.get id
  generalize GetTaskByID s f.get id = g at hdb ⊢
  obtain ⟨o, s1⟩ := g
  simp only at hdb
  cases o with
  | error e => exact Or.inl ⟨e, rfl, rfl⟩
  | ok task =>
    simp only
    by_cases hu : task.UserID = userID
    · simp only [hu, ne_eq, not_true_eq_false, if_false]
      refine Or.inr (Or.inr ?_)
      cases hf : f.updates with
      | some cause => exact Or.inl ⟨task, _, _, rfl, hu, rfl, hdb, rfl⟩
      | none =>
        simp only [beginTx_db, hdb]
        cases hr : replaceTags (s.db.modelUpdates now task (buildUpdates task now req)) f task.ID
            req.TagIDs with
        | error e => exact Or.inl ⟨task, _, _, rfl, hu, rfl, hdb, rfl⟩
        | ok tx2 =>
          simp only
          cases hc : f.commit with
          | some cause => exact Or.inl ⟨task, _, _, rfl, hu, rfl, hdb, rfl⟩
          | none =>
            simp only
            refine Or.inr ?_
            cases hl : f.reload with
            | some cause =>
              exact Or.inl ⟨task, tx2, _, rfl, hu, trivial, trivial, hr, Or.inl (by simp), rfl⟩
            | none =>
              simp only [commitTx_db]
              cases ht : tx2.firstTask task.ID id with
              | none => exact Or.inl ⟨task, tx2, _, rfl, hu, trivial, trivial, hr, Or.inr ht, rfl⟩
              | some task1 => exact Or.inr ⟨task, tx2, task1, rfl, hu, trivial, trivial, trivial, hr, ht, rfl⟩
    · exact Or.inr (Or.inl ⟨task, rfl, hu, by simp [hu]⟩)

theorem Updates_apply_keeps (u : Updates) (now : Time) (r : TaskRow) :
    (u.apply now r).ID = r.ID ∧ (u.apply now r).UserID = r.UserID ∧
      (r.StartTime ≠ none → (u.apply now r).StartTime ≠ none) ∧
      (r.EndTime ≠ none → (u.apply now r).EndTime ≠ none) := by
  refine ⟨rfl, rfl, ?_, ?_⟩
  · intro h; unfold Updates.apply; simp only; split <;> simp_all
  · intro h; unfold Updates.apply; simp only; split <;> simp_all

theorem updates_row_keeps (u : Updates) (now : Time) (taskID : Nat) (r : TaskRow) :
    (if r.ID = taskID ∧ r.DeletedAt = none then u.apply now r else r).ID = r.ID ∧
    (if r.ID = taskID ∧ r.DeletedAt = none then u.apply now r else r).UserID = r.UserID ∧
    (r.StartTime ≠ none →
      (if r.ID = taskID ∧ r.DeletedAt = none then u.apply now r else r).StartTime ≠ none) ∧
    (r.EndTime ≠ none →
      (if r.ID = taskID ∧ r.DeletedAt = none then u.apply now r else r).EndTime ≠ none) := by
  split
  · exact Updates_apply_keeps u now r
  · exact ⟨rfl, rfl, fun x => x, fun x => x⟩

theorem UpdateTask_coherent {s : State} (h : Coherent s) (f : UpdateFaults) (now : Time)
    (id userID : Nat) (req : TaskUpdateRequest) :
    Coherent (UpdateTask s f now id userID req).2 := by
  have h1 := GetTaskByID_coherent h f.get id
  have hdb := GetTaskByID_db s f.get id
  rcases UpdateTask_cases s f now id userID req with
    ⟨e, _, hr⟩ | ⟨task, _, _, hr⟩ | ⟨task, e, s', _, _, hr, hd, hc⟩ |
    ⟨task, tx2, e, _, _, _, _, hrt, _, hr⟩ | ⟨task, tx2, task1, _, _, _, _, _, hrt, _, hr⟩
  · rw [hr]; exact h1
  · rw [hr]; exact h1
  · rw [hr]
    exact h1.frame (by simp only; rw [hd, hdb]) (by simp only; rw [hc]; exact TaskDocsWithin.refl _)
  · rw [hr]
    refine h1.map _ ?_ (updates_row_keeps (buildUpdates task now req) now task.ID)
      (TaskDocsWithin.refl _)
    simp only [commitTx_db, (replaceTags_tables hrt).1, hdb]
    rfl
  · rw [hr]
    refine h1.map _ ?_ (updates_row_keeps (buildUpdates task now req) now task.ID)
      (updateSideEffects_within _ _ _ _ _ _)
    simp only [updateSideEffects_db, commitTx_db, (replaceTags_tables hrt).1, hdb]
    rfl

@[simp] theorem deleteSideEffects_db (s : State) (f : DeleteFaults) (id userID : Nat)
    (status : Int) : (deleteSideEffects s f id userID status).db = s.db := by
  simp [deleteSideEffects]

theorem deleteSideEffects_within (s : State) (f : DeleteFaults) (id userID : Nat)
    (status : Int) : TaskDocsWithin (deleteSideEffects s f id userID status).cache s.cache :=
  (updateTaskStats_within _ _ _ _ _).trans ((Delete_within _ _ _).trans (Delete_within _ _ _))

/-- The outcomes of `DeleteTask`, by the step that ends the call. -/
theorem DeleteTask_cases (s : State) (f : DeleteFaults) (now : Time) (id userID : Nat) :
    (∃ e, (GetTaskByID s f.get id).1 = .error e ∧
      DeleteTask s f now id userID = (.error e, (GetTaskByID s f.get id).2)) ∨
    (∃ task, (GetTaskByID s f.get id).1 = .ok task ∧ task.UserID ≠ userID ∧
      DeleteTask s f now id userID = (.error .deleteNotPermitted, (GetTaskByID s f.get id).2)) ∨
    (∃ task e s', (GetTaskByID s f.get id).1 = .ok task ∧ task.UserID = userID ∧
      DeleteTask s f now id userID = (.error e, s') ∧
      s'.db = s.db ∧ s'.cache = (GetTaskByID s f.get id).2.cache) ∨
    (∃ task, (GetTaskByID s f.get id).1 = .ok task ∧ task.UserID = userID ∧
      f.clearTags = none ∧ f.delete = none ∧ f.commit = none ∧
      DeleteTask s f now id userID =
        (.ok (), deleteSideEffects
          (commitTx (beginTx (GetTaskByID s f.get id).2)
            ((s.db.clearTags task.ID).softDeleteTask now task.ID)) f id userID task.Status)) := by
  unfold DeleteTask
  have hdb := GetTaskByID_db s f.get id
  generalize GetTaskByID s f.get id = g at hdb ⊢
  obtain ⟨o, s1⟩ := g
  simp only at hdb
  cases o with
  | error e => exact Or.inl ⟨e, rfl, rfl⟩
  | ok task =>
    simp only
    by_cases hu : task.UserID = userID
    · simp only [hu, ne_eq, not_true_eq_false, if_false]
      refine Or.inr (Or.inr ?_)
      cases hf : f.clearTags with
      | some cause => exact Or.inl ⟨task, _, _, rfl, hu, rfl, hdb, rfl⟩
      | none =>
        simp only
        cases hd : f.delete with
        | some cause => exact Or.inl ⟨task, _, _, rfl, hu, rfl, hdb, rfl⟩
        | none =>
          simp only
          cases hc : f.commit with
          | some cause => exact Or.inl ⟨task, _, _, rfl, hu, rfl, hdb, rfl⟩
          | none =>
            simp only [beginTx_db, hdb]
            exact Or.inr ⟨task, rfl, hu, trivial, trivial, trivial, rfl⟩
    · exact Or.inr (Or.inl ⟨task, rfl, hu, by simp [hu]⟩)

theorem softDelete_row_keeps (now : Time) (taskID : Nat) (r : TaskRow) :
    (if r.ID = taskID ∧ r.DeletedAt = none then { r with DeletedAt := some now } else r).ID = r.ID ∧
    (if r.ID = taskID ∧ r.DeletedAt = none then { r with DeletedAt := some now } else r).UserID
      = r.UserID ∧
    (r.StartTime ≠ none →
      (if r.ID = taskID ∧ r.DeletedAt = none then { r with DeletedAt := some now } else r).StartTime
        ≠ none) ∧
    (r.EndTime ≠ none →
      (if r.ID = taskID ∧ r.DeletedAt = none then { r with DeletedAt := some now } else r).EndTime
        ≠ none) := by
  split <;> exact ⟨rfl, rfl, fun x => x, fun x => x⟩

theorem DeleteTask_coherent {s : State} (h : Coherent s) (f : DeleteFaults) (now : Time)
    (id userID : Nat) : Coherent (DeleteTask s f now id userID).2 := by
  have h1 := GetTaskByID_coherent h f.get id
  have hdb := GetTaskByID_db s f.get id
  rcases DeleteTask_cases s f now id userID with
    ⟨e, _, hr⟩ | ⟨task, _, _, hr⟩ | ⟨task, e, s', _, _, hr, hd, hc⟩ | ⟨task, _, _, _, _, _, hr⟩
  · rw [hr]; exact h1
  · rw [hr]; exact h1
  · rw [hr]
    exact h1.frame (by simp only; rw [hd, hdb]) (by simp only; rw [hc]; exact TaskDocsWithin.refl _)
  · rw [hr]
    refine h1.map _ ?_ (softDelete_row_keeps now task.ID) (deleteSideEffects_within _ _ _ _ _)
    simp only [deleteSideEffects_db, commitTx_db, hdb]
    rfl

/-! ## Outcomes of `CreateTask` -/

@[simp] theorem createSideEffects_db (s : State) (f : CreateFaults) (userID : Nat) (task : Task) :
    (createSideEffects s f userID task).db = s.db := by
  simp [createSideEffects]

theorem create_fst_tasks (db : DB) (now : Time) (task : Task) :
    (db.create now task).1.tasks = db.tasks ++ [(db.create now task).2.toRow] := rfl

theorem create_snd (db : DB) (now : Time) (userID : Nat) (req : TaskCreateRequest) :
    (db.create now (newTask userID req)).2.ID = db.nextTaskID ∧
    (db.create now (newTask userID req)).2.Status = TaskStatusPending ∧
    (db.create now (newTask userID req)).2.UserID = userID ∧
    (db.create now (newTask userID req)).2.DeletedAt = none ∧
    (db.create now (newTask userID req)).2.StartTime = none ∧
    (db.create now (newTask userID req)).2.EndTime = none :=
  ⟨rfl, rfl, rfl, rfl, rfl, rfl⟩

theorem linkTags_ok {tx tx2 : DB} {task task2 : Task} {f : CreateFaults} {ids : List Nat}
    (h : linkTags tx task f ids = .ok (tx2, task2)) :
    tx2.tasks = tx.tasks ∧ tx2.users = tx.users ∧ tx2.tags = tx.tags ∧
    task2.toRow = task.toRow := by
  unfold linkTags at h
  split at h
  · split at h
    · cases h
    · split at h
      · cases h
      · cases h; exact ⟨rfl, rfl, rfl, rfl⟩
  · cases h; exact ⟨rfl, rfl, rfl, rfl⟩

/-- The outcomes of `CreateTask`: an error leaves the store and the cache as they
were; a success commits the transaction and runs the best-effort steps. -/
theorem CreateTask_cases (s : State) (f : CreateFaults) (now : Time) (userID : Nat)
    (req : TaskCreateRequest) :
    (∃ e s', CreateTask s f now userID req = (.error e, s') ∧ s'.db = s.db ∧ s'.cache = s.cache) ∨
    (∃ u tx2 task2, f.userFirst = none ∧ s.db.firstUser userID = some u ∧ f.create = none ∧
      f.commit = none ∧
      linkTags (s.db.create now (newTask userID req)).1 (s.db.create now (newTask userID req)).2
        f req.TagIDs = .ok (tx2, task2) ∧
      CreateTask s f now userID req =
        (.ok (reloadCreated tx2 f.reload task2),
          createSideEffects (commitTx (beginTx s) tx2) f userID
            (reloadCreated tx2 f.reload task2))) := by
  unfold CreateTask
  cases hf : f.userFirst with
  | some cause => exact Or.inl ⟨_, _, rfl, rfl, rfl⟩
  | none =>
    simp only
    cases hu : s.db.firstUser userID with
    | none => exact Or.inl ⟨_, _, rfl, rfl, rfl⟩
    | some u =>
      simp only
      cases hc : f.create with
      | some cause => exact Or.inl ⟨_, _, rfl, rfl, rfl⟩
      | none =>
        simp only [beginTx_db]
        cases hl : linkTags (s.db.create now (newTask userID req)).1
            (s.db.create now (newTask userID req)).2 f req.TagIDs with
        | error e => exact Or.inl ⟨_, _, rfl, rfl, rfl⟩
        | ok p =>
          obtain ⟨tx2, task2⟩ := p
          simp only
          cases hm : f.commit with
          | some cause => exact Or.inl ⟨_, _, rfl, rfl, rfl⟩
          | none =>
            refine Or.inr ⟨u, tx2, task2, ?_, ?_, ?_, ?_, ?_, ?_⟩ <;> first | rfl | trivial

/-- The struct returned by a committed `CreateTask` has the columns of the inserted
row (its timestamps apart), whether or not the reload succeeded. -/
theorem reloadCreated_row {db tx2 : DB} {task2 : Task} (f : Fault) {row : TaskRow}
    (htasks : tx2.tasks = db.tasks ++ [row]) (hrow : task2.toRow = row)
    (hid : row.ID = db.nextTaskID) :
    (reloadCreated tx2 f task2).toRow = row := by
  unfold reloadCreated
  split
  · exact hrow
  · cases ht : tx2.firstTask task2.ID task2.ID with
    | none => simpa using hrow
    | some t =>
      simp only [Option.getD_some]
      obtain ⟨r, hr, hrid, _, _, rfl⟩ := firstTask_some ht
      have h2 : task2.ID = row.ID := by rw [← hrow]; rfl
      rw [htasks] at hr
      rcases List.mem_append.1 hr with hr | hr
      · have := lt_nextTaskID db r hr
        omega
      · simp only [List.mem_singleton] at hr
        subst hr
        rfl

theorem CreateTask_coherent {s : State} (h : Coherent s) (f : CreateFaults) (now : Time)
    (userID : Nat) (req : TaskCreateRequest) :
    Coherent (CreateTask s f now userID req).2 := by
  rcases CreateTask_cases s f now userID req with
    ⟨e, s', hr, hd, hc⟩ | ⟨u, tx2, task2, _, _, _, _, hl, hr⟩
  · rw [hr]
    exact h.frame (by simp only; rw [hd]) (by simp only; rw [hc]; exact TaskDocsWithin.refl _)
  · rw [hr]
    obtain ⟨ht, _, _, hrow⟩ := linkTags_ok hl
    rw [create_fst_tasks] at ht
    have hid := (create_snd s.db now userID req).1
    have hrel := reloadCreated_row f.reload ht hrow hid
    have hmem : (reloadCreated tx2 f.reload task2).toRow ∈ (commitTx (beginTx s) tx2).db.tasks := by
      rw [hrel, commitTx_db, ht]; simp
    have h0 : Coherent (commitTx (beginTx s) tx2) := by
      refine h.mono ?_ ?_ (TaskDocsWithin.refl _)
      · rw [commitTx_db, ht]; exact nodup_ids_append s.db _ hid h.nodup
      · intro r hr
        exact ⟨r, by rw [commitTx_db, ht]; exact List.mem_append_left _ hr, rfl, rfl,
          fun x => x, fun x => x⟩
    have h1 := h0.set f.cacheSet (reloadCreated tx2 f.reload task2) _ hmem rfl rfl
      (fun x => x) (fun x => x) Hour
    unfold createSideEffects
    exact h1.frame (by simp) ((updateTaskStats_within _ _ _ _ _).trans (Delete_within _ _ _))

/-! ## Deleting a user -/

theorem DeleteUser_coherent {s : State} (h : Coherent s) (f : DeleteUserFaults) (now : Time)
    (id : Nat) : Coherent (DeleteUser s f now id).2 := by
  unfold DeleteUser
  simp only
  split
  · exact h.frame rfl (TaskDocsWithin.refl _)
  · split
    · exact h.frame rfl (TaskDocsWithin.refl _)
    · split
      · exact h.frame rfl (TaskDocsWithin.refl _)
      · split
        · exact h.frame rfl (TaskDocsWithin.refl _)
        · split
          · exact h.frame rfl (TaskDocsWithin.refl _)
          · refine h.map (fun r => if r.UserID = id ∧ r.DeletedAt = none
                then { r with DeletedAt := some now } else r) (by simp; rfl) ?_
              ((Delete_within _ _ _).trans (Delete_within _ _ _))
            intro r
            simp only
            split <;> exact ⟨rfl, rfl, fun x => x, fun x => x⟩

/-- Every reachable state is coherent. -/
theorem Reachable.coherent {s : State} (h : Reachable s) : Coherent s := by
  induction h with
  | init s hnd hc =>
    refine ⟨hnd, ?_⟩
    intro k t hk
    simp [cachedTask, hc] at hk
  | create f now userID req _ ih => exact CreateTask_coherent ih f now userID req
  | get f id _ ih => exact GetTaskByID_coherent ih f id
  | update f now id userID req _ ih => exact UpdateTask_coherent ih f now id userID req
  | delete f now id userID _ ih => exact DeleteTask_coherent ih f now id userID
  | deleteUser f now id _ ih => exact DeleteUser_coherent ih f now id
  | env _ hdb hc ih =>
    refine ⟨by rw [hdb]; exact ih.nodup, ?_⟩
    intro k t hk
    obtain ⟨h1, r, hr, h2⟩ := ih.cached k t (hc k t hk)
    exact ⟨h1, r, by rw [hdb]; exact hr, h2⟩

/-! ## What the fetch of a live task returns -/

theorem firstTask_none {db : DB} {d id : Nat} (h : db.firstTask d id = none) :
    ∀ r ∈ db.tasks, ¬ (r.ID = id ∧ (d = 0 ∨ r.ID = d) ∧ r.DeletedAt = none) := by
  unfold DB.firstTask at h
  split at h
  · cases h
  · next hf =>
    intro r hr
    have := List.find?_eq_none.1 hf r hr
    simpa using this

/-- The cache calls of `GetTaskByID` touch no key but `task:<id>`. -/
theorem GetTaskByID_cache_other (s : State) (f : GetFaults) (id : Nat) (key : String)
    (hk : key ≠ taskKey id) : (GetTaskByID s f id).2.cache key = s.cache key := by
  rcases GetTaskByID_cases s f id with ⟨t, _, h⟩ | ⟨c, _, _, h⟩ | ⟨_, _, _, h⟩ | ⟨t, _, _, _, h⟩
  · simp [h]
  · simp [h]
  · simp [h]
  · rw [h]
    unfold CacheService.Set
    split
    · simp
    · simp [hk]

/-- In a coherent state the fetch of a live task either fails on the store read or
returns a task with the key and the owner of the row and no timestamp the row lacks. -/
theorem fetch_live {s : State} (h : Coherent s) {T : TaskRow} (hT : T ∈ s.db.tasks)
    (hl : T.DeletedAt = none) (f : GetFaults) :
    (∃ cause, f.dbFirst = some cause ∧
      (GetTaskByID s f T.ID).1 = .error (.queryTaskFailed cause)) ∨
    (∃ t, (GetTaskByID s f T.ID).1 = .ok t ∧ t.ID = T.ID ∧ t.UserID = T.UserID ∧
      (t.StartTime ≠ none → T.StartTime ≠ none) ∧ (t.EndTime ≠ none → T.EndTime ≠ none)) := by
  rcases GetTaskByID_cases s f T.ID with
    ⟨t, hg, hr⟩ | ⟨c, _, hf, hr⟩ | ⟨_, _, hn, _⟩ | ⟨t, _, _, ht, hr⟩
  · right
    rw [Get_fst] at hg
    split at hg
    · obtain ⟨h1, r, hrm, h2, h3, h4, h5⟩ := h.cached T.ID t hg
      have : r = T := row_unique h.nodup hrm hT h2
      subst this
      exact ⟨t, by rw [hr], h1, h3.symm, h4, h5⟩
    · cases hg
  · left
    exact ⟨c, hf, by rw [hr]⟩
  · exact absurd ⟨rfl, Or.inl rfl, hl⟩ (firstTask_none hn T hT)
  · right
    obtain ⟨r, hrm, h2, _, _, rfl⟩ := firstTask_some ht
    have : r = T := row_unique h.nodup hrm hT h2
    subst this
    exact ⟨_, by rw [hr], rfl, rfl, fun x => x, fun x => x⟩

/-! ## The join table under the tag calls -/

theorem mem_foldl_link (taskID : Nat) (tags : List Tag) : ∀ (l : List (Nat × Nat)) (p : Nat × Nat),
    p ∈ tags.foldl (fun l g => if (taskID, g.ID) ∈ l then l else l ++ [(taskID, g.ID)]) l ↔
      p ∈ l ∨ ∃ g ∈ tags, p = (taskID, g.ID) := by
  induction tags with
  | nil => intro l p; simp
  | cons g tags ih =>
    intro l p
    simp only [List.foldl_cons]
    rw [ih]
    by_cases hg : (taskID, g.ID) ∈ l
    · simp only [hg, if_true, List.mem_cons, exists_eq_or_imp]
      constructor
      · rintro (h | h)
        · exact Or.inl h
        · exact Or.inr (Or.inr h)
      · rintro (h | h | h)
        · exact Or.inl h
        · subst h; exact Or.inl hg
        · exact Or.inr h
    · simp only [hg, if_false, List.mem_append, List.mem_singleton, List.mem_cons,
        exists_eq_or_imp]
      tauto

theorem mem_appendTags (db : DB) (taskID : Nat) (tags : List Tag) (a b : Nat) :
    (a, b) ∈ (db.appendTags taskID tags).task_tags ↔
      (a, b) ∈ db.task_tags ∨ (a = taskID ∧ ∃ g ∈ tags, g.ID = b) := by
  unfold DB.appendTags
  simp only
  rw [mem_foldl_link]
  constructor
  · rintro (h | ⟨g, hg, h⟩)
    · exact Or.inl h
    · simp only [Prod.mk.injEq] at h
      exact Or.inr ⟨h.1, g, hg, h.2.symm⟩
  · rintro (h | ⟨h1, g, hg, h2⟩)
    · exact Or.inl h
    · exact Or.inr ⟨g, hg, by rw [h1, h2]⟩

theorem mem_clearTags (db : DB) (taskID : Nat) (a b : Nat) :
    (a, b) ∈ (db.clearTags taskID).task_tags ↔ (a, b) ∈ db.task_tags ∧ a ≠ taskID := by
  simp [DB.clearTags]

theorem mem_findTags (db : DB) (ids : List Nat) (g : Tag) :
    g ∈ db.findTags ids ↔ g ∈ db.tags ∧ g.ID ∈ ids ∧ g.DeletedAt = none := by
  simp [DB.findTags]

/-- The join table after the tag replacement step of `UpdateTask`: the rows of the
other tasks, and one row per live tag whose key is listed. -/
theorem replaceTags_links {tx tx2 : DB} {f : UpdateFaults} {taskID : Nat} {ids : List Nat}
    (h : replaceTags tx f taskID (some ids) = .ok tx2) (a b : Nat) :
    (a, b) ∈ tx2.task_tags ↔
      ((a, b) ∈ tx.task_tags ∧ a ≠ taskID) ∨
      (a = taskID ∧ b ∈ ids ∧ ∃ g ∈ tx.tags, g.ID = b ∧ g.DeletedAt = none) := by
  unfold replaceTags at h
  simp only at h
  split at h
  · cases h
  · split at h
    · split at h
      · cases h
      · split at h
        · cases h
        · cases h
          rw [mem_appendTags, mem_clearTags]
          constructor
          · rintro (h | ⟨h1, g, hg, h2⟩)
            · exact Or.inl h
            · rw [mem_findTags] at hg
              exact Or.inr ⟨h1, h2 ▸ hg.2.1, g, hg.1, h2, hg.2.2⟩
          · rintro (h | ⟨h1, h2, g, hg, h3, h4⟩)
            · exact Or.inl h
            · exact Or.inr ⟨h1, g, (mem_findTags _ _ _).2 ⟨hg, h3 ▸ h2, h4⟩, h3⟩
    · next hlen =>
      cases h
      have hnil : ids = [] := by
        cases ids with
        | nil => rfl
        | cons x xs => simp at hlen
      subst hnil
      rw [mem_clearTags]
      simp

/-- In a coherent state the fetched task carries the requested key. -/
theorem fetch_id {s : State} (h : Coherent s) {f : GetFaults} {id : Nat} {t : Task}
    (hg : (GetTaskByID s f id).1 = .ok t) : t.ID = id := by
  rcases GetTaskByID_cases s f id with
    ⟨t', h1, hr⟩ | ⟨c, _, _, hr⟩ | ⟨_, _, _, hr⟩ | ⟨t', _, _, ht, hr⟩
  · rw [hr] at hg
    cases hg
    rw [Get_fst] at h1
    split at h1
    · exact (h.cached id t h1).1
    · cases h1
  · rw [hr] at hg; cases hg
  · rw [hr] at hg; cases hg
  · rw [hr] at hg
    cases hg
    obtain ⟨r, _, hid, _, _, rfl⟩ := firstTask_some ht
    exact hid


/-- Appending tags that are all linked already leaves the join table as it is. -/
theorem appendTags_linked (db : DB) (taskID : Nat) (tags : List Tag)
    (h : ∀ g ∈ tags, (taskID, g.ID) ∈ db.task_tags) :
    (db.appendTags taskID tags).task_tags = db.task_tags := by
  unfold DB.appendTags
  simp only
  induction tags with
  | nil => rfl
  | cons g tags ih =>
    simp only [List.foldl_cons, h g (List.mem_cons_self _ _), if_true]
    exact ih (fun g' hg' => h g' (List.mem_cons_of_mem _ hg'))

/-- The join table and the `tags` table after `UpdateTask` with `tagIDs` absent: as
they were, or the join table with the tags of the fetched task appended. -/
theorem UpdateTask_absent_links (s : State) (f : UpdateFaults) (now : Time) (id userID : Nat)
    (req : TaskUpdateRequest) (h : req.TagIDs = none) :
    ((UpdateTask s f now id userID req).2.db.task_tags = s.db.task_tags ∨
      ∃ task, (GetTaskByID s f.get id).1 = .ok task ∧
        (UpdateTask s f now id userID req).2.db.task_tags
          = (s.db.appendTags task.ID task.Tags).task_tags) ∧
    (UpdateTask s f now id userID req).2.db.tags = s.db.tags ∧
    (∀ t, (UpdateTask s f now id userID req).1 = .ok t →
      ∃ task, (GetTaskByID s f.get id).1 = .ok task ∧
        (UpdateTask s f now id userID req).2.db.task_tags
          = (s.db.appendTags task.ID task.Tags).task_tags) := by
  have hdb := GetTaskByID_db s f.get id
  rcases UpdateTask_cases s f now id userID req with
    ⟨e, _, hr⟩ | ⟨task, _, _, hr⟩ | ⟨task, e, s', _, _, hr, hd, _⟩ |
    ⟨task, tx2, e, hg, _, _, _, hrt, _, hr⟩ | ⟨task, tx2, task1, hg, _, _, _, _, hrt, _, hr⟩
  · rw [hr]; simp only; rw [hdb]
    exact ⟨Or.inl rfl, rfl, fun t ht => by cases ht⟩
  · rw [hr]; simp only; rw [hdb]
    exact ⟨Or.inl rfl, rfl, fun t ht => by cases ht⟩
  · rw [hr]; simp only; rw [hd]
    exact ⟨Or.inl rfl, rfl, fun t ht => by cases ht⟩
  · rw [h] at hrt
    cases hrt
    rw [hr]
    exact ⟨Or.inr ⟨task, hg, rfl⟩, rfl, fun t ht => by cases ht⟩
  · rw [h] at hrt
    cases hrt
    rw [hr]
    simp only [updateSideEffects_db]
    exact ⟨Or.inr ⟨task, hg, rfl⟩, rfl, fun _ _ => ⟨task, hg, rfl⟩⟩
/-! ## The cache entry of an updated task -/

/-- The key carried by the destination struct does not change what `First` finds
once it has found a row. -/
theorem firstTask_dest {db : DB} {d id : Nat} {t : Task} (h : db.firstTask d id = some t) :
    db.firstTask 0 id = some t := by
  obtain ⟨r, _, hid, hd, _, _⟩ := firstTask_some h
  have hp : (fun r : TaskRow => decide (r.ID = id ∧ (0 = 0 ∨ r.ID = 0) ∧ r.DeletedAt = none))
      = (fun r : TaskRow => decide (r.ID = id ∧ (d = 0 ∨ r.ID = d) ∧ r.DeletedAt = none)) := by
    funext x
    by_cases hx : x.ID = id
    · have : d = 0 ∨ id = d := by
        rcases hd with h0 | h1
        · exact Or.inl h0
        · exact Or.inr (by rw [← hid, h1])
      simp [hx, this]
    · simp [hx]
  unfold DB.firstTask at h ⊢
  rw [hp]
  exact h

theorem updateSideEffects_taskKey (s : State) (f : UpdateFaults) (id userID : Nat)
    (oldStatus : Int) (req : TaskUpdateRequest) (hd : f.cacheDelete = none) :
    (updateSideEffects s f id userID oldStatus req).cache (taskKey id) = none := by
  have h2 : (CacheService.Delete
      (CacheService.Delete s f.cacheDelete (BuildCacheKey TaskCachePrefix id))
        f.listDelete (BuildCacheKey UserTasksPrefix userID)).cache (taskKey id) = none := by
    rw [Delete_cache_other _ _ _ _ (taskKey_ne_userTasksKey id userID), hd]
    exact Delete_cache_same _ _
  unfold updateSideEffects
  simp only
  split
  · exact h2
  · split
    · rw [updateTaskStats_taskKey, updateTaskStats_taskKey]; exact h2
    · exact h2

/-! ## The per-status counters -/

theorem statusKey_inj {a b : Int} {name : String} (ha : statusKey a = some name)
    (hb : statusKey b = some name) : a = b := by
  unfold statusKey at ha hb
  split_ifs at ha hb
  all_goals first
    | (cases ha; done)
    | (cases ha; simp at hb; done)
    | (subst_vars; rfl)

theorem HoldsCount.congr {c c' : Cache} {key : String} {n : Int} (h : HoldsCount c key n)
    (he : c' key = c key) : HoldsCount c' key n := by
  unfold HoldsCount at *
  rw [he]
  exact h

theorem HoldsCount.readCounter {c : Cache} {key : String} {n : Int} (h : HoldsCount c key n) :
    readCounter c key = n := by
  unfold TaskManagement.readCounter
  rcases h with ⟨h1, h2⟩ | ⟨ttl, h1⟩
  · rw [h1, h2]
  · rw [h1]

theorem HoldsCount.redisIncrBy {c : Cache} {key : String} {n : Int} (h : HoldsCount c key n)
    (v : Int) : ∃ c', redisIncrBy c key v = some c' ∧ HoldsCount c' key (n + v) := by
  unfold TaskManagement.redisIncrBy
  rcases h with ⟨h1, h2⟩ | ⟨ttl, h1⟩
  · rw [h1]
    exact ⟨_, rfl, Or.inr ⟨none, by simp [h2]⟩⟩
  · rw [h1]
    exact ⟨_, rfl, Or.inr ⟨ttl, by simp⟩⟩

theorem HoldsCount.IncrBy {s : State} {key : String} {n : Int} (h : HoldsCount s.cache key n)
    (v : Int) : HoldsCount (CacheService.IncrBy s none key v).cache key (n + v) := by
  obtain ⟨c', h1, h2⟩ := h.redisIncrBy v
  unfold CacheService.IncrBy
  rw [h1]
  exact h2

theorem HoldsCount.DecrBy {s : State} {key : String} {n : Int} (h : HoldsCount s.cache key n)
    (v : Int) : HoldsCount (CacheService.DecrBy s none key v).cache key (n + -v) := by
  obtain ⟨c', h1, h2⟩ := h.redisIncrBy (-v)
  unfold CacheService.DecrBy
  rw [h1]
  exact h2

theorem HoldsCount.SetExpire {s : State} {key : String} {n : Int} (h : HoldsCount s.cache key n)
    (f : Fault) (k : String) (e : Nat) :
    HoldsCount (CacheService.SetExpire s f k e).cache key n := by
  unfold CacheService.SetExpire
  split
  · exact h
  · by_cases hk : key = k
    · subst hk
      rcases h with ⟨h1, h2⟩ | ⟨ttl, h1⟩
      · exact Or.inl ⟨by simp [h1], h2⟩
      · exact Or.inr ⟨some e, by simp [h1]⟩
    · exact h.congr (by simp [hk])

/-- With its cache calls succeeding, `updateTaskStats` with delta 1 or -1 moves the
counter of its user and status by the delta and leaves every other counter. -/
theorem HoldsCount.updateTaskStats {s : State} {u : Nat} {name : String} {n : Int}
    (h : HoldsCount s.cache (countKey u name) n) (f : StatFaults) (hf : f.incr = none)
    (userID : Nat) (st d : Int) :
    HoldsCount (updateTaskStats s f userID st d).cache (countKey u name)
      (n + if u = userID ∧ statusKey st = some name then d else 0) := by
  unfold TaskManagement.updateTaskStats
  cases hk : statusKey st with
  | none => simpa using h
  | some key =>
    simp only
    by_cases heq : countKey u name = countKey userID key
    · obtain ⟨h1, h2⟩ := countKey_inj heq
      subst h1 h2
      simp only [true_and, if_true]
      apply HoldsCount.SetExpire
      rw [hf]
      split
      · exact h.IncrBy d
      · simpa using h.DecrBy (-d)
    · have hne : ¬ (u = userID ∧ some key = some name) := by
        rintro ⟨h1, h2⟩
        simp only [Option.some.injEq] at h2
        exact heq (by rw [h1, h2])
      simp only [hne, if_false, add_zero]
      apply HoldsCount.SetExpire
      apply h.congr
      split
      · exact IncrBy_cache_other _ _ _ _ _ heq
      · exact DecrBy_cache_other _ _ _ _ _ heq

/-- Rewriting the one row with key `id` of a table with unique keys moves each count
by the row's contribution before and after. -/
theorem count_map_row (p : TaskRow → Bool) (g : TaskRow → TaskRow) (id : Nat) :
    ∀ (l : List TaskRow), (l.map (fun r => r.ID)).Nodup → ∀ r ∈ l, r.ID = id →
      (((l.map (fun x => if x.ID = id then g x else x)).filter p).length : Int)
        = (l.filter p).length - (if p r then 1 else 0) + (if p (g r) then 1 else 0) := by
  intro l
  induction l with
  | nil => intro _ r hr; cases hr
  | cons a l ih =>
    intro hnd r hr hid
    simp only [List.map_cons, List.nodup_cons] at hnd
    rcases List.mem_cons.1 hr with h | h
    · subst h
      have hrest : l.map (fun x => if x.ID = id then g x else x) = l := by
        conv_rhs => rw [← List.map_id l]
        apply List.map_congr_left
        intro x hx
        have : x.ID ≠ id := by
          intro hx'
          exact hnd.1 (List.mem_map.2 ⟨x, hx, by rw [hx', hid]⟩)
        simp [this]
      simp only [List.map_cons, hid, if_true, hrest, List.filter_cons]
      by_cases h1 : p r <;> by_cases h2 : p (g r) <;> simp [h1, h2]
    · have ha : a.ID ≠ id := by
        intro ha'
        exact hnd.1 (List.mem_map.2 ⟨r, h, by rw [ha', hid]⟩)
      have := ih hnd.2 r h hid
      simp only [List.map_cons, ha, if_false, List.filter_cons]
      by_cases h1 : p a <;> simp [h1] <;> omega

theorem cachedTask_congr {c c' : Cache} {key : String} (h : c' key = c key) :
    cachedTask c' key = cachedTask c key := by
  unfold cachedTask; rw [h]

theorem countTasks_append (db : DB) (tasks' : List TaskRow) (row : TaskRow) (u : Nat) (st : Int)
    (h : tasks' = db.tasks ++ [row]) :
    (((tasks'.filter (fun r =>
        decide (r.UserID = u ∧ r.Status = st ∧ r.DeletedAt = none))).length : Nat) : Int)
      = db.countTasks u st +
        (if row.UserID = u ∧ row.Status = st ∧ row.DeletedAt = none then 1 else 0) := by
  subst h
  unfold DB.countTasks
  rw [List.filter_append, List.length_append]
  by_cases hp : row.UserID = u ∧ row.Status = st ∧ row.DeletedAt = none
  · simp [List.filter_cons, hp]
  · simp [List.filter_cons, hp]

theorem CountersAgree.unchanged {s s' : State} (h : CountersAgree s) (hdb : s'.db.tasks = s.db.tasks)
    (hc : ∀ k, s'.cache (taskKey k) = s.cache (taskKey k))
    (hn : ∀ u name, s'.cache (countKey u name) = s.cache (countKey u name)) :
    CountersAgree s' := by
  refine ⟨by rw [hdb]; exact h.nodup, ?_, ?_⟩
  · intro k t hk
    rw [cachedTask_congr (hc k)] at hk
    rw [hdb]
    exact h.cached k t hk
  · intro u st name hname
    unfold DB.countTasks
    rw [hdb]
    exact (h.counts u st name hname).congr (hn u name)

theorem CountersAgree.cacheTask {s : State} (h : CountersAgree s) (f : Fault) (t : Task) (r : TaskRow)
    (hr : r ∈ s.db.tasks) (hid : r.ID = t.ID) (hl : r.DeletedAt = none)
    (hu : r.UserID = t.UserID) (hs : r.Status = t.Status) (e : Nat) :
    CountersAgree (CacheService.Set s f (taskKey t.ID) (CacheVal.task (marshalTask t)) e) := by
  refine ⟨by simpa using h.nodup, ?_, ?_⟩
  · intro k t' hk
    rw [Set_db]
    unfold CacheService.Set at hk
    split at hk
    · exact h.cached k t' hk
    · by_cases hkk : taskKey k = taskKey t.ID
      · have hk' : k = t.ID := BuildCacheKey_inj _ hkk
        simp only [cachedTask, hkk, if_true, Option.some.injEq] at hk
        subst hk
        exact ⟨hk'.symm, r, hr, by rw [hk', hid], hl, hu, hs⟩
      · have : cachedTask s.cache (taskKey k) = some t' := by
          simpa [cachedTask, hkk] using hk
        exact h.cached k t' this
  · intro u st name hname
    rw [Set_db]
    exact (h.counts u st name hname).congr
      (Set_cache_other _ _ _ _ _ _ (taskKey_ne_countKey _ _ _).symm)

/-- The fetch keeps the counter invariant, and what it returns carries the key, the
owner and the status of the live row. -/
theorem fetch_agree {s : State} (h : CountersAgree s) (f : GetFaults) (id : Nat) :
    CountersAgree (GetTaskByID s f id).2 ∧
    ∀ task, (GetTaskByID s f id).1 = .ok task →
      task.ID = id ∧ ∃ r ∈ s.db.tasks, r.ID = id ∧ r.DeletedAt = none ∧
        r.UserID = task.UserID ∧ r.Status = task.Status := by
  have h1 : CountersAgree (CacheService.Get s f.cacheGet (taskKey id)).2 :=
    h.unchanged (by simp) (by simp) (by simp)
  rcases GetTaskByID_cases s f id with
    ⟨t, hg, hr⟩ | ⟨c, _, _, hr⟩ | ⟨_, _, _, hr⟩ | ⟨t, _, _, ht, hr⟩
  · rw [hr]
    refine ⟨h1, ?_⟩
    intro task htask
    cases htask
    rw [Get_fst] at hg
    split at hg
    · exact h.cached id t hg
    · cases hg
  · rw [hr]; exact ⟨h1, fun task htask => by cases htask⟩
  · rw [hr]; exact ⟨h1, fun task htask => by cases htask⟩
  · rw [hr]
    obtain ⟨r, hrm, hid, _, hl, rfl⟩ := firstTask_some ht
    refine ⟨?_, ?_⟩
    · have := h1.cacheTask f.cacheSet (Task.ofRow r (s.db.preloadUser r) (s.db.preloadTags r)) r
        (by simpa using hrm) rfl hl rfl rfl Hour
      simpa [Task.ofRow, hid] using this
    · intro task htask
      cases htask
      exact ⟨hid, r, hrm, hid, hl, rfl, rfl⟩

theorem CreateTask_agree {s : State} (h : CountersAgree s) (f : CreateFaults) (hf : f.cacheOk)
    (now : Time) (userID : Nat) (req : TaskCreateRequest) (t : Task)
    (hok : (CreateTask s f now userID req).1 = .ok t) :
    CountersAgree (CreateTask s f now userID req).2 := by
  obtain ⟨hset, hdel, hincr, _⟩ := hf
  rcases CreateTask_cases s f now userID req with
    ⟨e, s', hr, _, _⟩ | ⟨u, tx2, task2, _, _, _, _, hl, hr⟩
  · rw [hr] at hok; cases hok
  · rw [hr]
    obtain ⟨ht, _, _, hrow⟩ := linkTags_ok hl
    rw [create_fst_tasks] at ht
    obtain ⟨hid, hst, hus, hlive, _, _⟩ := create_snd s.db now userID req
    have hrel := reloadCreated_row f.reload ht hrow hid
    generalize reloadCreated tx2 f.reload task2 = t3 at hrel ⊢
    generalize hrowdef : (s.db.create now (newTask userID req)).2.toRow = row at ht hrel
    have rid : row.ID = s.db.nextTaskID := by rw [← hrowdef]; exact hid
    have rst : row.Status = TaskStatusPending := by rw [← hrowdef]; exact hst
    have rus : row.UserID = userID := by rw [← hrowdef]; exact hus
    have rlv : row.DeletedAt = none := by rw [← hrowdef]; exact hlive
    have t3id : t3.ID = row.ID := by rw [← hrel]; rfl
    have t3us : t3.UserID = row.UserID := by rw [← hrel]; rfl
    have t3st : t3.Status = row.Status := by rw [← hrel]; rfl
    unfold createSideEffects
    simp only
    refine ⟨?_, ?_, ?_⟩
    · simp only [updateTaskStats_db, Delete_db, Set_db, commitTx_db, ht]
      exact nodup_ids_append s.db row rid h.nodup
    · intro k t' hk
      simp only [updateTaskStats_db, Delete_db, Set_db, commitTx_db, ht]
      rw [cachedTask_congr (updateTaskStats_taskKey _ _ _ _ _ _),
        cachedTask_congr (Delete_cache_other _ _ _ _ (taskKey_ne_userTasksKey k userID)),
        hset] at hk
      by_cases hkk : taskKey k = taskKey t3.ID
      · have hk' : k = t3.ID := BuildCacheKey_inj _ hkk
        simp only [CacheService.Set, cachedTask, hkk, if_true, Option.some.injEq] at hk
        subst hk
        exact ⟨hk'.symm, row, by simp, by rw [hk', t3id], rlv, t3us.symm, t3st.symm⟩
      · have hold : cachedTask s.cache (taskKey k) = some t' := by
          simpa [CacheService.Set, cachedTask, hkk] using hk
        obtain ⟨h1, r, hr1, h2⟩ := h.cached k t' hold
        exact ⟨h1, r, List.mem_append_left _ hr1, h2⟩
    · intro u' st name hname
      have base : HoldsCount (CacheService.Delete
          (CacheService.Set (commitTx (beginTx s) tx2) f.cacheSet
            (BuildCacheKey TaskCachePrefix t3.ID) (CacheVal.task (marshalTask t3)) Hour)
          f.cacheDelete (BuildCacheKey UserTasksPrefix userID)).cache (countKey u' name)
          (s.db.countTasks u' st) := by
        apply (h.counts u' st name hname).congr
        rw [Delete_cache_other _ _ _ _ (userTasksKey_ne_countKey _ _ _).symm,
          Set_cache_other _ _ _ _ _ _ (taskKey_ne_countKey _ _ _).symm]
        rfl
      have step := base.updateTaskStats f.stats hincr userID TaskStatusPending 1
      have hcnt := countTasks_append s.db tx2.tasks row u' st ht
      have hcond : (u' = userID ∧ statusKey TaskStatusPending = some name) ↔
          (row.UserID = u' ∧ row.Status = st ∧ row.DeletedAt = none) := by
        rw [rus, rst]
        constructor
        · rintro ⟨h1, h2⟩
          exact ⟨h1.symm, statusKey_inj h2 hname, rlv⟩
        · rintro ⟨h1, h2, _⟩
          exact ⟨h1.symm, by rw [h2]; exact hname⟩
      simp only [updateTaskStats_db, Delete_db, Set_db, commitTx_db]
      unfold DB.countTasks
      rw [hcnt]
      simp only [hcond] at step
      exact step

theorem countTasks_congr {db db' : DB} (h : db'.tasks = db.tasks) (u : Nat) (st : Int) :
    db'.countTasks u st = db.countTasks u st := by
  unfold DB.countTasks; rw [h]

/-- The count of a user and status after `Updates` on a live row. -/
theorem countTasks_updates {db : DB} (hnd : (db.tasks.map (fun r => r.ID)).Nodup) {r : TaskRow}
    (hr : r ∈ db.tasks) (hl : r.DeletedAt = none) (now : Time) (upd : Updates) (u : Nat)
    (st : Int) :
    (((db.updates now r.ID upd).countTasks u st : Nat) : Int) = db.countTasks u st
      - (if r.UserID = u ∧ r.Status = st then 1 else 0)
      + (if r.UserID = u ∧ upd.status.getD r.Status = st then 1 else 0) := by
  have hfun : (fun x : TaskRow => if x.ID = r.ID ∧ x.DeletedAt = none then upd.apply now x else x)
      = (fun x => if x.ID = r.ID
          then (fun y : TaskRow => if y.DeletedAt = none then upd.apply now y else y) x else x) := by
    funext x
    by_cases h1 : x.ID = r.ID <;> by_cases h2 : x.DeletedAt = none <;> simp [h1, h2]
  have := count_map_row (fun x => decide (x.UserID = u ∧ x.Status = st ∧ x.DeletedAt = none))
    (fun y : TaskRow => if y.DeletedAt = none then upd.apply now y else y) r.ID db.tasks hnd r hr rfl
  unfold DB.countTasks DB.updates
  simp only [hfun]
  rw [this]
  simp [hl, Updates.apply]

/-- The count of a user and status after the soft deletion of a live row. -/
theorem countTasks_softDelete {db : DB} (hnd : (db.tasks.map (fun r => r.ID)).Nodup)
    {r : TaskRow} (hr : r ∈ db.tasks) (hl : r.DeletedAt = none) (now : Time) (u : Nat)
    (st : Int) :
    (((db.softDeleteTask now r.ID).countTasks u st : Nat) : Int) = db.countTasks u st
      - (if r.UserID = u ∧ r.Status = st then 1 else 0) := by
  have hfun : (fun x : TaskRow =>
        if x.ID = r.ID ∧ x.DeletedAt = none then { x with DeletedAt := some now } else x)
      = (fun x => if x.ID = r.ID
          then (fun y : TaskRow =>
            if y.DeletedAt = none then { y with DeletedAt := some now } else y) x else x) := by
    funext x
    by_cases h1 : x.ID = r.ID <;> by_cases h2 : x.DeletedAt = none <;> simp [h1, h2]
  have := count_map_row (fun x => decide (x.UserID = u ∧ x.Status = st ∧ x.DeletedAt = none))
    (fun y : TaskRow => if y.DeletedAt = none then { y with DeletedAt := some now } else y)
    r.ID db.tasks hnd r hr rfl
  unfold DB.countTasks DB.softDeleteTask
  simp only [hfun]
  rw [this]
  simp [hl]

theorem HoldsCount.value {c : Cache} {key : String} {n m : Int} (h : HoldsCount c key n)
    (hnm : n = m) : HoldsCount c key m := hnm ▸ h

/-- The counters after the best-effort steps of `UpdateTask`, its cache calls
succeeding: the counter of the old status loses one and that of the new status gains
one when the request carries a status other than the old one. -/
theorem updateSideEffects_counts {s : State} {u : Nat} {name : String} {n : Int} {st : Int}
    (h : HoldsCount s.cache (countKey u name) n) (hname : statusKey st = some name)
    (f : UpdateFaults) (hf : f.cacheOk) (id userID : Nat) (old : Int)
    (req : TaskUpdateRequest) :
    HoldsCount (updateSideEffects s f id userID old req).cache (countKey u name)
      (n - (if userID = u ∧ old = st then 1 else 0)
         + (if userID = u ∧ req.Status.getD old = st then 1 else 0)) := by
  obtain ⟨_, _, _, ho, _, hn, _⟩ := hf
  have base : HoldsCount (CacheService.Delete
      (CacheService.Delete s f.cacheDelete (BuildCacheKey TaskCachePrefix id))
      f.listDelete (BuildCacheKey UserTasksPrefix userID)).cache (countKey u name) n := by
    apply h.congr
    rw [Delete_cache_other _ _ _ _ (userTasksKey_ne_countKey _ _ _).symm,
      Delete_cache_other _ _ _ _ (taskKey_ne_countKey _ _ _).symm]
  have hcond : ∀ x : Int, (u = userID ∧ statusKey x = some name) ↔ (userID = u ∧ x = st) := by
    intro x
    constructor
    · rintro ⟨h1, h2⟩; exact ⟨h1.symm, statusKey_inj h2 hname⟩
    · rintro ⟨h1, h2⟩; exact ⟨h1.symm, by rw [h2]; exact hname⟩
  unfold updateSideEffects
  simp only
  cases hs : req.Status with
  | none =>
    simp only [Option.getD_none]
    exact base.value (by omega)
  | some st' =>
    simp only [Option.getD_some]
    by_cases hne : old = st'
    · simp only [hne, ne_eq, not_true_eq_false, if_false]
      exact base.value (by omega)
    · simp only [ne_eq, hne, not_false_eq_true, if_true]
      have step := (base.updateTaskStats f.statsOld ho userID old (-1)).updateTaskStats
        f.statsNew hn userID st' 1
      simp only [hcond] at step
      exact step.value (by omega)

/-- What `updateSideEffects` leaves under a task key is what its first deletion
leaves there. -/
theorem updateSideEffects_taskKey_eq (s : State) (f : UpdateFaults) (id userID : Nat)
    (old : Int) (req : TaskUpdateRequest) (k : Nat) :
    (updateSideEffects s f id userID old req).cache (taskKey k)
      = (CacheService.Delete s f.cacheDelete (BuildCacheKey TaskCachePrefix id)).cache
          (taskKey k) := by
  have h2 : (CacheService.Delete
      (CacheService.Delete s f.cacheDelete (BuildCacheKey TaskCachePrefix id))
        f.listDelete (BuildCacheKey UserTasksPrefix userID)).cache (taskKey k)
      = (CacheService.Delete s f.cacheDelete (BuildCacheKey TaskCachePrefix id)).cache
          (taskKey k) :=
    Delete_cache_other _ _ _ _ (taskKey_ne_userTasksKey k userID)
  unfold updateSideEffects
  simp only
  split
  · exact h2
  · split
    · rw [updateTaskStats_taskKey, updateTaskStats_taskKey]; exact h2
    · exact h2

theorem UpdateTask_agree {s : State} (h : CountersAgree s) (f : UpdateFaults) (hf : f.cacheOk)
    (now : Time) (id userID : Nat) (req : TaskUpdateRequest) (t : Task)
    (hok : (UpdateTask s f now id userID req).1 = .ok t) :
    CountersAgree (UpdateTask s f now id userID req).2 := by
  obtain ⟨h1, hfetch⟩ := fetch_agree h f.get id
  have hdb := GetTaskByID_db s f.get id
  rcases UpdateTask_cases s f now id userID req with
    ⟨e, _, hr⟩ | ⟨task, _, _, hr⟩ | ⟨task, e, s', _, _, hr, _⟩ |
    ⟨task, tx2, e, _, _, _, _, _, _, hr⟩ | ⟨task, tx2, task1, hg, hu, _, _, _, hrt, _, hr⟩
  · rw [hr] at hok; cases hok
  · rw [hr] at hok; cases hok
  · rw [hr] at hok; cases hok
  · rw [hr] at hok; cases hok
  · rw [hr]
    obtain ⟨hid, r, hrm, hrid, hl, hus, hst⟩ := hfetch task hg
    have htasks : tx2.tasks = (s.db.updates now r.ID (buildUpdates task now req)).tasks := by
      rw [(replaceTags_tables hrt).1, modelUpdates_tasks, hid, hrid]
    refine ⟨?_, ?_, ?_⟩
    · simp only [updateSideEffects_db, commitTx_db, htasks]
      unfold DB.updates
      simp only
      rw [ids_map_eq _ _ (fun x => (updates_row_keeps _ now r.ID x).1)]
      exact h.nodup
    · intro k t' hk
      rw [cachedTask_congr (updateSideEffects_taskKey_eq _ _ _ _ _ _ _), hf.2.1] at hk
      by_cases hkk : k = id
      · subst hkk
        simp [cachedTask, Delete_cache_same] at hk
      · have hne : taskKey k ≠ taskKey id := fun hx => hkk (BuildCacheKey_inj _ hx)
        rw [cachedTask_congr (Delete_cache_other _ _ _ _ hne)] at hk
        obtain ⟨g1, rk, hrk, g2, g3⟩ := h1.cached k t' hk
        refine ⟨g1, rk, ?_, g2, g3⟩
        simp only [updateSideEffects_db, commitTx_db, htasks]
        unfold DB.updates
        simp only [List.mem_map]
        rw [hdb] at hrk
        exact ⟨rk, hrk, by simp [g2, hrid, hkk]⟩
    · intro u' st name hname
      have base : HoldsCount (commitTx (beginTx (GetTaskByID s f.get id).2) tx2).cache
          (countKey u' name) (s.db.countTasks u' st) := by
        have := h1.counts u' st name hname
        rw [countTasks_congr (congrArg DB.tasks hdb)] at this
        exact this
      have step := updateSideEffects_counts base hname f hf id userID task.Status req
      have hcnt := countTasks_updates h.nodup hrm hl now (buildUpdates task now req) u' st
      simp only [updateSideEffects_db, commitTx_db]
      rw [countTasks_congr htasks, hcnt]
      have hbs : (buildUpdates task now req).status = req.Status := rfl
      rw [hbs, hus, hst, hu]
      exact step

theorem DeleteTask_agree {s : State} (h : CountersAgree s) (f : DeleteFaults) (hf : f.cacheOk)
    (now : Time) (id userID : Nat) (hok : (DeleteTask s f now id userID).1 = .ok ()) :
    CountersAgree (DeleteTask s f now id userID).2 := by
  obtain ⟨h1, hfetch⟩ := fetch_agree h f.get id
  obtain ⟨_, hcd, _, hincr, _⟩ := hf
  have hdb := GetTaskByID_db s f.get id
  rcases DeleteTask_cases s f now id userID with
    ⟨e, _, hr⟩ | ⟨task, _, _, hr⟩ | ⟨task, e, s', _, _, hr, _⟩ | ⟨task, hg, hu, _, _, _, hr⟩
  · rw [hr] at hok; cases hok
  · rw [hr] at hok; cases hok
  · rw [hr] at hok; cases hok
  · rw [hr]
    obtain ⟨hid, r, hrm, hrid, hl, hus, hst⟩ := hfetch task hg
    have htasks : ((s.db.clearTags task.ID).softDeleteTask now task.ID).tasks
        = (s.db.softDeleteTask now r.ID).tasks := by
      rw [hid, hrid]; rfl
    unfold deleteSideEffects
    simp only
    refine ⟨?_, ?_, ?_⟩
    · simp only [updateTaskStats_db, Delete_db, commitTx_db, htasks]
      unfold DB.softDeleteTask
      simp only
      rw [ids_map_eq _ _ (fun x => (softDelete_row_keeps now r.ID x).1)]
      exact h.nodup
    · intro k t' hk
      rw [cachedTask_congr (updateTaskStats_taskKey _ _ _ _ _ _),
        cachedTask_congr (Delete_cache_other _ _ _ _ (taskKey_ne_userTasksKey k userID)),
        hcd] at hk
      by_cases hkk : k = id
      · subst hkk
        simp [cachedTask, Delete_cache_same] at hk
      · have hne : taskKey k ≠ taskKey id := fun hx => hkk (BuildCacheKey_inj _ hx)
        rw [cachedTask_congr (Delete_cache_other _ _ _ _ hne)] at hk
        obtain ⟨g1, rk, hrk, g2, g3⟩ := h1.cached k t' hk
        refine ⟨g1, rk, ?_, g2, g3⟩
        simp only [updateTaskStats_db, Delete_db, commitTx_db, htasks]
        unfold DB.softDeleteTask
        simp only [List.mem_map]
        rw [hdb] at hrk
        exact ⟨rk, hrk, by simp [g2, hrid, hkk]⟩
    · intro u' st name hname
      have base : HoldsCount (CacheService.Delete
          (CacheService.Delete
            (commitTx (beginTx (GetTaskByID s f.get id).2)
              ((s.db.clearTags task.ID).softDeleteTask now task.ID))
            f.cacheDelete (BuildCacheKey TaskCachePrefix id))
          f.listDelete (BuildCacheKey UserTasksPrefix userID)).cache (countKey u' name)
          (s.db.countTasks u' st) := by
        have := h1.counts u' st name hname
        rw [countTasks_congr (congrArg DB.tasks hdb)] at this
        apply this.congr
        rw [Delete_cache_other _ _ _ _ (userTasksKey_ne_countKey _ _ _).symm,
          Delete_cache_other _ _ _ _ (taskKey_ne_countKey _ _ _).symm]
        rfl
      have step := base.updateTaskStats f.stats hincr userID task.Status (-1)
      have hcnt := countTasks_softDelete h.nodup hrm hl now u' st
      have hcond : (u' = userID ∧ statusKey task.Status = some name) ↔
          (r.UserID = u' ∧ r.Status = st) := by
        rw [hus, hst, hu]
        constructor
        · rintro ⟨g1, g2⟩; exact ⟨g1.symm, statusKey_inj g2 hname⟩
        · rintro ⟨g1, g2⟩; exact ⟨g1.symm, by rw [g2]; exact hname⟩
      simp only [updateTaskStats_db, Delete_db, commitTx_db]
      rw [countTasks_congr htasks, hcnt]
      simp only [hcond] at step
      exact step.value (by split_ifs <;> omega)

/-! ## The counters on the clock -/

theorem cachedTask_elapse {c : Cache} {d : Nat} {key : String} {t : Task}
    (h : cachedTask (Cache.elapse c d) key = some t) : cachedTask c key = some t := by
  unfold cachedTask Cache.elapse at h
  unfold cachedTask
  cases hc : c key with
  | none => rw [hc] at h; cases h
  | some e =>
    obtain ⟨v, ttl⟩ := e
    rw [hc] at h
    cases ttl with
    | none => exact h
    | some r =>
      by_cases hr : r ≤ d
      · simp [hr] at h
      · cases v <;> simp [hr] at h ⊢
        exact h

/-- While no counter that stands above or below 0 expires, the passing of time keeps
the counter invariant. -/
theorem elapse_agree {s : State} {t horizon : Time} (h : CountersAgree s)
    (hl : CountersLast s t horizon) (d : Nat) (hd : t + d < horizon) :
    CountersAgree (s.elapse d) ∧ CountersLast (s.elapse d) (t + d) horizon := by
  refine ⟨⟨h.nodup, ?_, ?_⟩, ?_⟩
  · intro k x hk
    exact h.cached k x (cachedTask_elapse hk)
  · intro u st name hname
    have hc := h.counts u st name hname
    show HoldsCount (Cache.elapse s.cache d) (countKey u name) (s.db.countTasks u st)
    unfold Cache.elapse
    rcases hc with ⟨h1, h2⟩ | ⟨ttl, h1⟩
    · exact Or.inl ⟨by simp only [h1], h2⟩
    · cases ttl with
      | none => exact Or.inr ⟨none, by simp only [h1]⟩
      | some r =>
        by_cases hr : r ≤ d
        · have h0 : (s.db.countTasks u st : Int) = 0 := by
            by_contra hne
            have h2 : @LE.le Nat _ horizon (t + r) := hl u name _ r h1 hne
            have h3 : @LT.lt Nat _ (t + d) horizon := hd
            omega
          exact Or.inl ⟨by simp only [h1, hr, if_true], h0⟩
        · exact Or.inr ⟨some (r - d), by simp only [h1, hr, if_false]⟩
  · intro u name n r' hk hn
    have hk' : Cache.elapse s.cache d (countKey u name) = some ⟨CacheVal.count n, some r'⟩ := hk
    unfold Cache.elapse at hk'
    cases hc : s.cache (countKey u name) with
    | none => rw [hc] at hk'; cases hk'
    | some e =>
      obtain ⟨v, ttl⟩ := e
      rw [hc] at hk'
      cases ttl with
      | none => cases hk'
      | some r =>
        simp only at hk'
        split_ifs at hk' with hr
        simp only [Option.some.injEq, CacheEntry.mk.injEq] at hk'
        obtain ⟨hv, hr'⟩ := hk'
        subst hv
        have h2 : @LE.le Nat _ horizon (t + r) := hl u name n r hc hn
        show @LE.le Nat _ horizon (t + d + r')
        omega

/-- A key after `updateTaskStats` whose `EXPIRE` call succeeds: as it was, or with a
time to live of 24 hours. -/
theorem updateTaskStats_touch (s : State) (f : StatFaults) (hf : f.expire = none) (u : Nat)
    (st d : Int) (k : String) :
    (updateTaskStats s f u st d).cache k = s.cache k ∨
    ∃ v, (updateTaskStats s f u st d).cache k = some ⟨v, some (Hour * 24)⟩ := by
  unfold updateTaskStats
  cases hk : statusKey st with
  | none => exact Or.inl rfl
  | some key =>
    simp only
    by_cases hkey : k = countKey u key
    · subst hkey
      have hin : ∀ s1 : State, (s1.cache (countKey u key) = s.cache (countKey u key) ∨
            ∃ e, s1.cache (countKey u key) = some e) →
          (CacheService.SetExpire s1 f.expire (countKey u key) (Hour * 24)).cache (countKey u key)
              = s.cache (countKey u key) ∨
            ∃ v, (CacheService.SetExpire s1 f.expire (countKey u key) (Hour * 24)).cache
              (countKey u key) = some ⟨v, some (Hour * 24)⟩ := by
        intro s1 h1
        unfold CacheService.SetExpire
        rw [hf]
        simp only [if_true]
        cases hs : s1.cache (countKey u key) with
        | none =>
          left
          rcases h1 with h1 | ⟨e, h1⟩
          · rw [← h1, hs]; rfl
          · rw [hs] at h1; cases h1
        | some e => exact Or.inr ⟨e.val, rfl⟩
      have hincr : ∀ (g : Fault) (v : Int),
          (CacheService.IncrBy s g (countKey u key) v).cache (countKey u key)
              = s.cache (countKey u key) ∨
            ∃ e, (CacheService.IncrBy s g (countKey u key) v).cache (countKey u key) = some e := by
        intro g v
        unfold CacheService.IncrBy
        split
        · next c hc =>
          right
          unfold redisIncrBy at hc
          split at hc
          · cases hc; simp
          · cases hc; simp
          · cases hc
        · exact Or.inl rfl
      have hdecr : ∀ (g : Fault) (v : Int),
          (CacheService.DecrBy s g (countKey u key) v).cache (countKey u key)
              = s.cache (countKey u key) ∨
            ∃ e, (CacheService.DecrBy s g (countKey u key) v).cache (countKey u key) = some e := by
        intro g v
        unfold CacheService.DecrBy
        split
        · next c hc =>
          right
          unfold redisIncrBy at hc
          split at hc
          · cases hc; simp
          · cases hc; simp
          · cases hc
        · exact Or.inl rfl
      split
      · exact hin _ (hincr _ _)
      · exact hin _ (hdecr _ _)
    · left
      rw [SetExpire_cache_other _ _ _ _ _ hkey]
      split
      · exact IncrBy_cache_other _ _ _ _ _ hkey
      · exact DecrBy_cache_other _ _ _ _ _ hkey

theorem countersTouched_of_eq {c c' : Cache}
    (h : ∀ u name, c' (countKey u name) = c (countKey u name)) : CountersTouched c c' :=
  fun u name => Or.inl (h u name)

theorem countersTouched_trans {c c' c'' : Cache} (h1 : CountersTouched c c')
    (h2 : CountersTouched c' c'') : CountersTouched c c'' := by
  intro u name
  rcases h2 u name with h | h
  · rw [h]; exact h1 u name
  · exact Or.inr h

theorem updateTaskStats_touched (s : State) (f : StatFaults) (hf : f.expire = none) (u : Nat)
    (st d : Int) : CountersTouched s.cache (updateTaskStats s f u st d).cache :=
  fun u' name => updateTaskStats_touch s f hf u st d (countKey u' name)

theorem fetch_touched (s : State) (f : GetFaults) (id : Nat) :
    CountersTouched s.cache (GetTaskByID s f id).2.cache :=
  countersTouched_of_eq (fun _ _ =>
    GetTaskByID_cache_other s f id _ (taskKey_ne_countKey _ _ _).symm)

theorem CreateTask_touched (s : State) (f : CreateFaults) (hf : f.stats.expire = none)
    (now : Time) (userID : Nat) (req : TaskCreateRequest) :
    CountersTouched s.cache (CreateTask s f now userID req).2.cache := by
  rcases CreateTask_cases s f now userID req with
    ⟨e, s', hr, _, hc⟩ | ⟨u, tx2, task2, _, _, _, _, _, hr⟩
  · rw [hr]
    exact countersTouched_of_eq (fun u name => by simp only [hc])
  · rw [hr]
    unfold createSideEffects
    simp only
    refine countersTouched_trans (countersTouched_of_eq ?_) (updateTaskStats_touched _ _ hf _ _ _)
    intro u' name
    rw [Delete_cache_other _ _ _ _ (userTasksKey_ne_countKey _ _ _).symm,
      Set_cache_other _ _ _ _ _ _ (taskKey_ne_countKey _ _ _).symm]
    rfl

theorem UpdateTask_touched (s : State) (f : UpdateFaults) (h1 : f.statsOld.expire = none)
    (h2 : f.statsNew.expire = none) (now : Time) (id userID : Nat) (req : TaskUpdateRequest) :
    CountersTouched s.cache (UpdateTask s f now id userID req).2.cache := by
  refine countersTouched_trans (fetch_touched s f.get id) ?_
  rcases UpdateTask_cases s f now id userID req with
    ⟨e, _, hr⟩ | ⟨task, _, _, hr⟩ | ⟨task, e, s', _, _, hr, _, hc⟩ |
    ⟨task, tx2, e, _, _, _, _, _, _, hr⟩ | ⟨task, tx2, task1, _, _, _, _, _, _, _, hr⟩
  · rw [hr]; exact countersTouched_of_eq (fun _ _ => rfl)
  · rw [hr]; exact countersTouched_of_eq (fun _ _ => rfl)
  · rw [hr]; exact countersTouched_of_eq (fun _ _ => by simp only [hc])
  · rw [hr]; exact countersTouched_of_eq (fun _ _ => rfl)
  · rw [hr]
    unfold updateSideEffects
    simp only
    have base : CountersTouched (GetTaskByID s f.get id).2.cache
        (CacheService.Delete (CacheService.Delete
          (commitTx (beginTx (GetTaskByID s f.get id).2) tx2) f.cacheDelete
          (BuildCacheKey TaskCachePrefix id)) f.listDelete
          (BuildCacheKey UserTasksPrefix userID)).cache := by
      apply countersTouched_of_eq
      intro u' name
      rw [Delete_cache_other _ _ _ _ (userTasksKey_ne_countKey _ _ _).symm,
        Delete_cache_other _ _ _ _ (taskKey_ne_countKey _ _ _).symm]
      rfl
    split
    · exact base
    · split
      · exact countersTouched_trans
          (countersTouched_trans base (updateTaskStats_touched _ _ h1 _ _ _))
          (updateTaskStats_touched _ _ h2 _ _ _)
      · exact base

theorem DeleteTask_touched (s : State) (f : DeleteFaults) (hf : f.stats.expire = none)
    (now : Time) (id userID : Nat) :
    CountersTouched s.cache (DeleteTask s f now id userID).2.cache := by
  refine countersTouched_trans (fetch_touched s f.get id) ?_
  rcases DeleteTask_cases s f now id userID with
    ⟨e, _, hr⟩ | ⟨task, _, _, hr⟩ | ⟨task, e, s', _, _, hr, _, hc⟩ | ⟨task, _, _, _, _, _, hr⟩
  · rw [hr]; exact countersTouched_of_eq (fun _ _ => rfl)
  · rw [hr]; exact countersTouched_of_eq (fun _ _ => rfl)
  · rw [hr]; exact countersTouched_of_eq (fun _ _ => by simp only [hc])
  · rw [hr]
    unfold deleteSideEffects
    simp only
    refine countersTouched_trans (countersTouched_of_eq ?_) (updateTaskStats_touched _ _ hf _ _ _)
    intro u' name
    rw [Delete_cache_other _ _ _ _ (userTasksKey_ne_countKey _ _ _).symm,
      Delete_cache_other _ _ _ _ (taskKey_ne_countKey _ _ _).symm]
    rfl

theorem countersLast_step {s s' : State} {t horizon : Time} (hl : CountersLast s t horizon)
    (ht : CountersTouched s.cache s'.cache) (hh : horizon ≤ t + Hour * 24) :
    CountersLast s' t horizon := by
  intro u name n r hk hn
  rcases ht u name with h | ⟨v, h⟩
  · rw [h] at hk
    exact hl u name n r hk hn
  · rw [h] at hk
    simp only [Option.some.injEq, CacheEntry.mk.injEq] at hk
    rw [← hk.2]
    exact hh

/-- The invariant of the counter scenario on the clock: the time does not run
backwards and, less than 24 hours after the start, the counters agree with the store
and no counter other than 0 expires before the 24 hours are over. -/
theorem CounterRun.invariant {t0 t : Time} {s : State} (h : CounterRun t0 t s) :
    t0 ≤ t ∧ (t < t0 + Hour * 24 →
      CountersAgree s ∧ CountersLast s t (t0 + Hour * 24)) := by
  induction h with
  | init s ht hc hn =>
    refine ⟨Nat.le_refl _, fun _ => ⟨⟨by rw [ht]; simp, ?_, ?_⟩, ?_⟩⟩
    · intro k t hk
      rw [hc k] at hk; cases hk
    · intro u st name _
      have : s.db.countTasks u st = 0 := by unfold DB.countTasks; rw [ht]; rfl
      rw [this]
      exact hn u name
    · intro u name n r hk hne
      rcases hn u name with ⟨h1, _⟩ | ⟨ttl, h1⟩
      · rw [h1] at hk; cases hk
      · rw [h1] at hk
        simp only [Option.some.injEq, CacheEntry.mk.injEq, CacheVal.count.injEq] at hk
        exact absurd hk.1.symm hne
  | wait d _ ih =>
    refine ⟨Nat.le_trans ih.1 (Nat.le_add_right _ _), fun hd => ?_⟩
    have hlt : _ < t0 + Hour * 24 := Nat.lt_of_le_of_lt (Nat.le_add_right _ d) hd
    obtain ⟨ha, hl⟩ := ih.2 hlt
    exact elapse_agree ha hl d hd
  | create f userID req task _ hf hok ih =>
    refine ⟨ih.1, fun hd => ?_⟩
    obtain ⟨ha, hl⟩ := ih.2 hd
    exact ⟨CreateTask_agree ha f hf _ userID req task hok,
      countersLast_step hl (CreateTask_touched _ f hf.2.2.2 _ userID req)
        (Nat.add_le_add_right ih.1 _)⟩
  | update f id userID req task _ hf hok ih =>
    refine ⟨ih.1, fun hd => ?_⟩
    obtain ⟨ha, hl⟩ := ih.2 hd
    exact ⟨UpdateTask_agree ha f hf _ id userID req task hok,
      countersLast_step hl (UpdateTask_touched _ f hf.2.2.2.2.1 hf.2.2.2.2.2.2 _ id userID req)
        (Nat.add_le_add_right ih.1 _)⟩
  | delete f id userID _ hf hok ih =>
    refine ⟨ih.1, fun hd => ?_⟩
    obtain ⟨ha, hl⟩ := ih.2 hd
    exact ⟨DeleteTask_agree ha f hf _ id userID hok,
      countersLast_step hl (DeleteTask_touched _ f hf.2.2.2.2 _ id userID)
        (Nat.add_le_add_right ih.1 _)⟩

/-! ## The tasks table after `UpdateTask`, and the update handler -/

/-- The `tasks` table after `UpdateTask`: untouched, or rewritten by `Updates` with
the map built from the fetched task and the request. -/
theorem UpdateTask_tasks (s : State) (f : UpdateFaults) (now : Time) (id userID : Nat)
    (req : TaskUpdateRequest) :
    (UpdateTask s f now id userID req).2.db.tasks = s.db.tasks ∨
    ∃ task, (GetTaskByID s f.get id).1 = .ok task ∧ task.UserID = userID ∧
      (UpdateTask s f now id userID req).2.db.tasks
        = (s.db.updates now task.ID (buildUpdates task now req)).tasks := by
  have hdb := GetTaskByID_db s f.get id
  rcases UpdateTask_cases s f now id userID req with
    ⟨e, _, hr⟩ | ⟨task, _, _, hr⟩ | ⟨task, e, s', _, _, hr, hd, _⟩ |
    ⟨task, tx2, e, hg, hu, _, _, hrt, _, hr⟩ | ⟨task, tx2, task1, hg, hu, _, _, _, hrt, _, hr⟩
  · left; rw [hr]; simp only; rw [hdb]
  · left; rw [hr]; simp only; rw [hdb]
  · left; rw [hr]; simp only; rw [hd]
  · right
    exact ⟨task, hg, hu, by rw [hr]; simp only [commitTx_db]; exact (replaceTags_tables hrt).1⟩
  · right
    refine ⟨task, hg, hu, ?_⟩
    rw [hr]
    simp only [updateSideEffects_db, commitTx_db]
    exact (replaceTags_tables hrt).1

/-- A row of the table after `Updates` is a former row, as it was or with the map
applied. -/
theorem mem_updates {db : DB} {now : Time} {taskID : Nat} {u : Updates} {r' : TaskRow}
    (h : r' ∈ (db.updates now taskID u).tasks) :
    ∃ r ∈ db.tasks, r' = r ∨ r' = u.apply now r := by
  unfold DB.updates at h
  simp only [List.mem_map] at h
  obtain ⟨r, hr, rfl⟩ := h
  refine ⟨r, hr, ?_⟩
  split
  · exact Or.inr rfl
  · exact Or.inl rfl

theorem validateUpdate_ok {req : TaskUpdateRequest} (h : validateUpdate req = []) :
    (∀ st, req.Status = some st → 0 ≤ st ∧ st ≤ 3) ∧
    (∀ p, req.Priority = some p → 1 ≤ p ∧ p ≤ 4) := by
  unfold validateUpdate at h
  simp only [List.append_eq_nil] at h
  obtain ⟨⟨_, hs⟩, hp⟩ := h
  constructor
  · intro st hst
    rw [hst] at hs
    simp only at hs
    split_ifs at hs with h1 h2
    omega
  · intro p hpp
    rw [hpp] at hp
    simp only at hp
    split_ifs at hp with h1 h2
    omega

/-- The outcomes of the update handler: it answers without calling the service and
leaves the state, or it calls the service with the parsed key, the parsed user and
a bound request that passed validation. -/
theorem handler_update_cases (s : State) (f : UpdateFaults) (now : Time)
    (idParam userIDHeader : String) (body : Except String TaskUpdateRequest) :
    ((TaskHandler.UpdateTask s f now idParam userIDHeader body).2 = s ∧
      (TaskHandler.UpdateTask s f now idParam userIDHeader body).1.status ≠ StatusOK) ∨
    (∃ id userID req, parseUint idParam = some id ∧ parseUint userIDHeader = some userID ∧
      body = .ok req ∧ validateUpdate req = [] ∧
      (TaskHandler.UpdateTask s f now idParam userIDHeader body).2
        = (UpdateTask s f now id userID req).2) := by
  unfold TaskHandler.UpdateTask
  cases hid : parseUint idParam with
  | none => left; simp [StatusBadRequest, StatusOK]
  | some id =>
    simp only
    by_cases hh : userIDHeader = ""
    · left; simp [hh, StatusUnauthorized, StatusOK]
    · simp only [hh, if_false]
      cases hu : parseUint userIDHeader with
      | none => left; simp [StatusBadRequest, StatusOK]
      | some userID =>
        simp only
        cases body with
        | error cause => left; simp [bindJSON, StatusBadRequest, StatusOK]
        | ok req =>
          by_cases hv : validateUpdate req = []
          · right
            refine ⟨id, userID, req, rfl, rfl, rfl, hv, ?_⟩
            simp only [bindJSON, hv, if_true]
            generalize UpdateTask s f now id userID req = res
            obtain ⟨o, s'⟩ := res
            cases o with
            | error e => simp only; split_ifs <;> rfl
            | ok t => rfl
          · left
            simp [bindJSON, hv, StatusBadRequest, StatusOK]

/-- The counters after a successful `UpdateTask` whose cache calls succeed, in terms
of the status of the task it fetched. -/
theorem UpdateTask_counts {s : State} {f : UpdateFaults} {now : Time} {id userID : Nat}
    {req : TaskUpdateRequest} {t : Task}
    (hok : (UpdateTask s f now id userID req).1 = .ok t) (hf : f.cacheOk) :
    ∃ task, (GetTaskByID s f.get id).1 = .ok task ∧
      ∀ u st name n, statusKey st = some name → HoldsCount s.cache (countKey u name) n →
        HoldsCount (UpdateTask s f now id userID req).2.cache (countKey u name)
          (n - (if userID = u ∧ task.Status = st then 1 else 0)
             + (if userID = u ∧ req.Status.getD task.Status = st then 1 else 0)) := by
  rcases UpdateTask_cases s f now id userID req with
    ⟨e, _, hr⟩ | ⟨task, _, _, hr⟩ | ⟨task, e, s', _, _, hr, _⟩ |
    ⟨task, tx2, e, _, _, _, _, _, _, hr⟩ | ⟨task, tx2, task1, hg, _, _, _, _, _, _, hr⟩
  · rw [hr] at hok; cases hok
  · rw [hr] at hok; cases hok
  · rw [hr] at hok; cases hok
  · rw [hr] at hok; cases hok
  · refine ⟨task, hg, ?_⟩
    intro u st name n hname hn
    rw [hr]
    have base : HoldsCount (commitTx (beginTx (GetTaskByID s f.get id).2) tx2).cache
        (countKey u name) n :=
      hn.congr (GetTaskByID_cache_other s f.get id _ (taskKey_ne_countKey _ _ _).symm)
    exact updateSideEffects_counts base hname f hf id userID task.Status req

/-- With no task document under `task:<id>`, the fetched task has the status of a
live row with that key. -/
theorem fetch_miss_status {s : State} {f : GetFaults} {id : Nat} {task : Task}
    (hc : cachedTask s.cache (taskKey id) = none) (hg : (GetTaskByID s f id).1 = .ok task) :
    ∃ r ∈ s.db.tasks, r.ID = id ∧ r.DeletedAt = none ∧ r.Status = task.Status := by
  rcases GetTaskByID_cases s f id with
    ⟨t, h1, _⟩ | ⟨c, _, _, hr⟩ | ⟨_, _, _, hr⟩ | ⟨t, _, _, ht, hr⟩
  · rw [Get_fst, hc] at h1
    simp at h1
  · rw [hr] at hg; cases hg
  · rw [hr] at hg; cases hg
  · rw [hr] at hg
    cases hg
    obtain ⟨r, hrm, hid, _, hl, rfl⟩ := firstTask_some ht
    exact ⟨r, hrm, hid, hl, rfl⟩

/-! ## How the handlers map the errors of the service -/

/-- No error of the service has the text the handlers test for before answering 404. -/
theorem Error_ne_notFoundText (e : Err) : e.Error ≠ "任务不存在" := by
  intro h
  have h1 := congrArg String.data h
  cases e <;> simp [Err.Error, String.data_append] at h1

theorem handler_get_error {s : State} {f : GetFaults} {idParam : String} {id : Nat} {e : Err}
    (hid : parseUint idParam = some id) (he : (GetTaskByID s f id).1 = .error e) :
    (TaskHandler.GetTask s f idParam).1.status = StatusInternalServerError ∧
    (TaskHandler.GetTask s f idParam).1.body.Message = e.Error := by
  unfold TaskHandler.GetTask
  simp only [hid]
  generalize GetTaskByID s f id = res at he
  obtain ⟨o, s'⟩ := res
  simp only at he
  subst he
  simp [Error_ne_notFoundText, NewErrorResponse, NewResponse]

theorem handler_update_error {s : State} {f : UpdateFaults} {now : Time}
    {idParam userIDHeader : String} {id userID : Nat} {req : TaskUpdateRequest} {e : Err}
    (hid : parseUint idParam = some id) (hne : userIDHeader ≠ "")
    (hu : parseUint userIDHeader = some userID) (hv : validateUpdate req = [])
    (he : (UpdateTask s f now id userID req).1 = .error e) :
    (TaskHandler.UpdateTask s f now idParam userIDHeader (.ok req)).1.status
      = (if e.Error = "没有权限修改此任务" then StatusForbidden else StatusInternalServerError) ∧
    (TaskHandler.UpdateTask s f now idParam userIDHeader (.ok req)).1.body.Message
      = e.Error ∧
    (TaskHandler.UpdateTask s f now idParam userIDHeader (.ok req)).2
      = (UpdateTask s f now id userID req).2 := by
  unfold TaskHandler.UpdateTask
  simp only [hid, hne, if_false, hu, bindJSON, hv, if_true]
  generalize UpdateTask s f now id userID req = res at he
  obtain ⟨o, s'⟩ := res
  simp only at he
  subst he
  simp only [Error_ne_notFoundText, if_false]
  split <;> simp [NewErrorResponse, NewResponse]

theorem handler_delete_error {s : State} {f : DeleteFaults} {now : Time}
    {idParam userIDHeader : String} {id userID : Nat} {e : Err}
    (hid : parseUint idParam = some id) (hne : userIDHeader ≠ "")
    (hu : parseUint userIDHeader = some userID)
    (he : (DeleteTask s f now id userID).1 = .error e) :
    (TaskHandler.DeleteTask s f now idParam userIDHeader).1.status
      = (if e.Error = "没有权限删除此任务" then StatusForbidden else StatusInternalServerError) ∧
    (TaskHandler.DeleteTask s f now idParam userIDHeader).1.body.Message = e.Error ∧
    (TaskHandler.DeleteTask s f now idParam userIDHeader).2
      = (DeleteTask s f now id userID).2 := by
  unfold TaskHandler.DeleteTask
  simp only [hid, hne, if_false, hu]
  generalize DeleteTask s f now id userID = res at he
  obtain ⟨o, s'⟩ := res
  simp only at he
  subst he
  simp only [Error_ne_notFoundText, if_false]
  split <;> simp [NewErrorResponse, NewResponse]

/-- With nothing under `task:<id>` and no live row `id`, the fetch fails with the
not-found error of the service. -/
theorem GetTaskByID_missing {s : State} {f : GetFaults} {id : Nat}
    (hc : s.cache (taskKey id) = none) (hf : f.dbFirst = none)
    (hrow : ∀ r ∈ s.db.tasks, ¬ (r.ID = id ∧ r.DeletedAt = none)) :
    (GetTaskByID s f id).1 = .error (.taskNotFound id) := by
  have hmiss : (CacheService.Get s f.cacheGet (taskKey id)).1 = none := by
    rw [Get_fst]; simp [cachedTask, hc]
  rcases GetTaskByID_cases s f id with
    ⟨t', h1, _⟩ | ⟨c, _, h1, _⟩ | ⟨_, _, _, h2⟩ | ⟨t', _, _, h1, _⟩
  · rw [hmiss] at h1; cases h1
  · rw [hf] at h1; cases h1
  · rw [h2]
  · obtain ⟨r, hr, h3, _, h4, _⟩ := firstTask_some h1
    exact absurd ⟨h3, h4⟩ (hrow r hr)

/-- In a coherent state a user who does not own a live task is refused by the update,
unless the store read of the fetch fails. -/
theorem UpdateTask_denied {s : State} (hc : Coherent s) {T : TaskRow} (hT : T ∈ s.db.tasks)
    (hl : T.DeletedAt = none) {B : Nat} (hB : B ≠ T.UserID) (f : UpdateFaults)
    (hf : f.get.dbFirst = none) (now : Time) (req : TaskUpdateRequest) :
    (UpdateTask s f now T.ID B req).1 = .error .updateNotPermitted ∧
    (UpdateTask s f now T.ID B req).2.db = s.db := by
  have hfetch := fetch_live hc hT hl f.get
  have hdb := GetTaskByID_db s f.get T.ID
  rcases hfetch with ⟨c, hc', _⟩ | ⟨t, ht, _, hown, _⟩
  · rw [hf] at hc'; cases hc'
  rcases UpdateTask_cases s f now T.ID B req with
    ⟨e, he, hr⟩ | ⟨task, _, _, hr⟩ | ⟨task, e, s', hg, hu, _⟩ |
    ⟨task, tx2, e, hg, hu, _⟩ | ⟨task, tx2, task1, hg, hu, _⟩
  · rw [ht] at he; cases he
  · rw [hr]; exact ⟨rfl, hdb⟩
  all_goals
    rw [ht] at hg; cases hg
    exact absurd (hu.symm.trans hown) hB

/-- In a coherent state a user who does not own a live task is refused by the deletion,
unless the store read of the fetch fails. -/
theorem DeleteTask_denied {s : State} (hc : Coherent s) {T : TaskRow} (hT : T ∈ s.db.tasks)
    (hl : T.DeletedAt = none) {B : Nat} (hB : B ≠ T.UserID) (f : DeleteFaults)
    (hf : f.get.dbFirst = none) (now : Time) :
    (DeleteTask s f now T.ID B).1 = .error .deleteNotPermitted ∧
    (DeleteTask s f now T.ID B).2.db = s.db := by
  have hfetch := fetch_live hc hT hl f.get
  have hdb := GetTaskByID_db s f.get T.ID
  rcases hfetch with ⟨c, hc', _⟩ | ⟨t, ht, _, hown, _⟩
  · rw [hf] at hc'; cases hc'
  rcases DeleteTask_cases s f now T.ID B with
    ⟨e, he, hr⟩ | ⟨task, _, _, hr⟩ | ⟨task, e, s', hg, hu, _⟩ | ⟨task, hg, hu, _⟩
  · rw [ht] at he; cases he
  · rw [hr]; exact ⟨rfl, hdb⟩
  all_goals
    rw [ht] at hg; cases hg
    exact absurd (hu.symm.trans hown) hB

/-! ## The order of the calls in a run -/

theorem eventsSince_append {s s' : State} {run : List Event} (h : s'.trace = s.trace ++ run) :
    eventsSince s s' = run := by
  unfold eventsSince
  rw [h]
  simp

theorem Set_trace (s : State) (f : Fault) (key : String) (v : CacheVal) (n : Nat) :
    ∃ b, (CacheService.Set s f key v n).trace = s.trace ++ [Event.cacheSet key b] := by
  unfold CacheService.Set
  split
  · exact ⟨false, rfl⟩
  · exact ⟨true, rfl⟩

/-- The events of the fetch: the cache read, then the cache write when the read
missed and the store had the row. -/
theorem GetTaskByID_trace (s : State) (f : GetFaults) (id : Nat) :
    (GetTaskByID s f id).2.trace = s.trace ++ [Event.cacheGet (taskKey id)] ∨
    ∃ b, (GetTaskByID s f id).2.trace
      = s.trace ++ [Event.cacheGet (taskKey id), Event.cacheSet (taskKey id) b] := by
  have hg : (CacheService.Get s f.cacheGet (taskKey id)).2.trace
      = s.trace ++ [Event.cacheGet (taskKey id)] := by
    unfold CacheService.Get; split <;> rfl
  rcases GetTaskByID_cases s f id with
    ⟨t, _, hr⟩ | ⟨c, _, _, hr⟩ | ⟨_, _, _, hr⟩ | ⟨t, _, _, _, hr⟩
  · left; rw [hr]; exact hg
  · left; rw [hr]; exact hg
  · left; rw [hr]; exact hg
  · right
    rw [hr]
    obtain ⟨b, e⟩ := Set_trace (CacheService.Get s f.cacheGet (taskKey id)).2 f.cacheSet
      (taskKey id) (CacheVal.task (marshalTask t)) Hour
    exact ⟨b, by simp only; rw [e, hg]; simp⟩

/-- What the trace of a run may look like once the mutations come after the commit. -/
theorem commitsFirst_committed (l : List Event) :
    commitsFirst ([Event.txBegin, Event.txCommit true] ++ l) = true := by
  simp [commitsFirst, Event.isMutation]

theorem grewByMutations_refl (s : State) : GrewByMutations s s :=
  ⟨[], by simp, fun e he => by cases he⟩

theorem grewByMutations_trans {s s' s'' : State} (h1 : GrewByMutations s s')
    (h2 : GrewByMutations s' s'') : GrewByMutations s s'' := by
  obtain ⟨l1, e1, m1⟩ := h1
  obtain ⟨l2, e2, m2⟩ := h2
  refine ⟨l1 ++ l2, by rw [e2, e1]; simp, ?_⟩
  intro e he
  rcases List.mem_append.1 he with h | h
  · exact m1 e h
  · exact m2 e h

theorem grewByMutations_one {s s' : State} {e : Event} (h : s'.trace = s.trace ++ [e])
    (he : e.isMutation = true) : GrewByMutations s s' :=
  ⟨[e], h, fun e' h' => by rw [List.mem_singleton.1 h']; exact he⟩

theorem Set_mutation (s : State) (f : Fault) (key : String) (v : CacheVal) (n : Nat) :
    GrewByMutations s (CacheService.Set s f key v n) := by
  unfold CacheService.Set
  split
  · exact grewByMutations_one rfl rfl
  · exact grewByMutations_one rfl rfl

theorem Delete_mutation (s : State) (f : Fault) (key : String) :
    GrewByMutations s (CacheService.Delete s f key) := by
  unfold CacheService.Delete
  split
  · exact grewByMutations_one rfl rfl
  · exact grewByMutations_one rfl rfl

theorem IncrBy_mutation (s : State) (f : Fault) (key : String) (v : Int) :
    GrewByMutations s (CacheService.IncrBy s f key v) := by
  unfold CacheService.IncrBy
  split
  · exact grewByMutations_one rfl rfl
  · exact grewByMutations_one rfl rfl

theorem DecrBy_mutation (s : State) (f : Fault) (key : String) (v : Int) :
    GrewByMutations s (CacheService.DecrBy s f key v) := by
  unfold CacheService.DecrBy
  split
  · exact grewByMutations_one rfl rfl
  · exact grewByMutations_one rfl rfl

theorem SetExpire_mutation (s : State) (f : Fault) (key : String) (n : Nat) :
    GrewByMutations s (CacheService.SetExpire s f key n) := by
  unfold CacheService.SetExpire
  split
  · exact grewByMutations_one rfl rfl
  · exact grewByMutations_one rfl rfl

theorem updateTaskStats_mutation (s : State) (f : StatFaults) (u : Nat) (st d : Int) :
    GrewByMutations s (updateTaskStats s f u st d) := by
  unfold updateTaskStats
  split
  · exact grewByMutations_refl s
  · simp only
    split
    · exact grewByMutations_trans (IncrBy_mutation _ _ _ _) (SetExpire_mutation _ _ _ _)
    · exact grewByMutations_trans (DecrBy_mutation _ _ _ _) (SetExpire_mutation _ _ _ _)

theorem createSideEffects_mutation (s : State) (f : CreateFaults) (userID : Nat) (task : Task) :
    GrewByMutations s (createSideEffects s f userID task) := by
  unfold createSideEffects
  exact grewByMutations_trans
    (grewByMutations_trans (Set_mutation _ _ _ _ _) (Delete_mutation _ _ _))
    (updateTaskStats_mutation _ _ _ _ _)

theorem updateSideEffects_mutation (s : State) (f : UpdateFaults) (id userID : Nat)
    (oldStatus : Int) (req : TaskUpdateRequest) :
    GrewByMutations s (updateSideEffects s f id userID oldStatus req) := by
  unfold updateSideEffects
  simp only
  have base := grewByMutations_trans
    (Delete_mutation s f.cacheDelete (BuildCacheKey TaskCachePrefix id))
    (Delete_mutation _ f.listDelete (BuildCacheKey UserTasksPrefix userID))
  split
  · exact base
  · split
    · exact grewByMutations_trans
        (grewByMutations_trans base (updateTaskStats_mutation _ _ _ _ _))
        (updateTaskStats_mutation _ _ _ _ _)
    · exact base

theorem deleteSideEffects_mutation (s : State) (f : DeleteFaults) (id userID : Nat)
    (status : Int) : GrewByMutations s (deleteSideEffects s f id userID status) := by
  unfold deleteSideEffects
  exact grewByMutations_trans
    (grewByMutations_trans (Delete_mutation _ _ _) (Delete_mutation _ _ _))
    (updateTaskStats_mutation _ _ _ _ _)

/-- Mutations made while no transaction is open keep the rule that no cache call is
made inside one. -/
theorem cacheCallsOutsideTx_mutations : ∀ l : List Event, (∀ e ∈ l, e.isMutation = true) →
    cacheCallsOutsideTx false l = true := by
  intro l
  induction l with
  | nil => intro _; rfl
  | cons e l ih =>
    intro h
    have he := h e (List.mem_cons_self _ _)
    have hl := ih (fun e' h' => h e' (List.mem_cons_of_mem _ h'))
    cases e <;> simp_all [cacheCallsOutsideTx, Event.isMutation]

theorem cacheCallsOutsideTx_committed (l : List Event) (h : ∀ e ∈ l, e.isMutation = true) :
    cacheCallsOutsideTx false ([Event.txBegin, Event.txCommit true] ++ l) = true := by
  simp only [List.cons_append, List.nil_append, cacheCallsOutsideTx]
  exact cacheCallsOutsideTx_mutations l h

/-- The run of `CreateTask`: no mutation before the commit, none when it fails. -/
theorem CreateTask_run (s : State) (f : CreateFaults) (now : Time) (userID : Nat)
    (req : TaskCreateRequest) :
    ∃ run, (CreateTask s f now userID req).2.trace = s.trace ++ run ∧
      commitsFirst run = true ∧
      (∀ e, (CreateTask s f now userID req).1 = .error e → ∀ ev ∈ run, ev.isMutation = false) ∧
      cacheCallsOutsideTx false run = true := by
  unfold CreateTask
  cases hf : f.userFirst with
  | some cause => exact ⟨[], by simp, rfl, by simp, rfl⟩
  | none =>
    simp only
    cases hu : s.db.firstUser userID with
    | none => exact ⟨[], by simp, rfl, by simp, rfl⟩
    | some u =>
      simp only
      cases hc : f.create with
      | some cause =>
        exact ⟨[Event.txBegin, Event.txRollback], by simp [rollback, beginTx], by decide,
          by simp [Event.isMutation], rfl⟩
      | none =>
        simp only [beginTx_db]
        cases hl : linkTags (s.db.create now (newTask userID req)).1
            (s.db.create now (newTask userID req)).2 f req.TagIDs with
        | error e =>
          exact ⟨[Event.txBegin, Event.txRollback], by simp [rollback, beginTx], by decide,
            by simp [Event.isMutation], rfl⟩
        | ok p =>
          obtain ⟨tx2, task2⟩ := p
          simp only
          cases hm : f.commit with
          | some cause =>
            exact ⟨[Event.txBegin, Event.txCommit false], by simp [commitFailed, beginTx],
              by decide, by simp [Event.isMutation], rfl⟩
          | none =>
            simp only
            obtain ⟨l, e, hm⟩ := createSideEffects_mutation (commitTx (beginTx s) tx2) f userID
              (reloadCreated (commitTx (beginTx s) tx2).db f.reload task2)
            refine ⟨[Event.txBegin, Event.txCommit true] ++ l, ?_, commitsFirst_committed l, ?_,
              cacheCallsOutsideTx_committed l hm⟩
            · rw [e]; simp [commitTx, beginTx]
            · intro e' h; cases h

/-- The run of `UpdateTask` after its fetch: no mutation before the commit, none when
it fails. -/
theorem UpdateTask_run (s : State) (f : UpdateFaults) (now : Time) (id userID : Nat)
    (req : TaskUpdateRequest) :
    ∃ run, (UpdateTask s f now id userID req).2.trace
        = (GetTaskByID s f.get id).2.trace ++ run ∧
      commitsFirst run = true ∧
      (∀ e, (UpdateTask s f now id userID req).1 = .error e →
        ∀ ev ∈ run, ev.isMutation = false) ∧
      cacheCallsOutsideTx false run = true := by
  unfold UpdateTask
  generalize GetTaskByID s f.get id = g
  obtain ⟨o, s1⟩ := g
  cases o with
  | error e => exact ⟨[], by simp, rfl, by simp, rfl⟩
  | ok task =>
    simp only
    by_cases hu : task.UserID = userID
    · simp only [hu, ne_eq, not_true_eq_false, if_false]
      cases hf : f.updates with
      | some cause =>
        exact ⟨[Event.txBegin, Event.txRollback], by simp [rollback, beginTx], by decide,
          by simp [Event.isMutation], rfl⟩
      | none =>
        simp only
        cases hr : replaceTags ((beginTx s1).db.modelUpdates now task (buildUpdates task now req))
            f task.ID req.TagIDs with
        | error e =>
          exact ⟨[Event.txBegin, Event.txRollback], by simp [rollback, beginTx], by decide,
            by simp [Event.isMutation], rfl⟩
        | ok tx2 =>
          simp only
          cases hc : f.commit with
          | some cause =>
            exact ⟨[Event.txBegin, Event.txCommit false], by simp [commitFailed, beginTx],
              by decide, by simp [Event.isMutation], rfl⟩
          | none =>
            simp only
            cases hl : f.reload with
            | some cause =>
              exact ⟨[Event.txBegin, Event.txCommit true], by simp [commitTx, beginTx],
                by decide, by simp [Event.isMutation], rfl⟩
            | none =>
              simp only [commitTx_db]
              cases ht : tx2.firstTask task.ID id with
              | none =>
                exact ⟨[Event.txBegin, Event.txCommit true], by simp [commitTx, beginTx],
                  by decide, by simp [Event.isMutation], rfl⟩
              | some task1 =>
                simp only
                obtain ⟨l, e, hm⟩ := updateSideEffects_mutation (commitTx (beginTx s1) tx2) f id
                  userID task.Status req
                refine ⟨[Event.txBegin, Event.txCommit true] ++ l, ?_,
                  commitsFirst_committed l, ?_, cacheCallsOutsideTx_committed l hm⟩
                · rw [e]; simp [commitTx, beginTx]
                · intro e' h; cases h
    · exact ⟨[], by simp [hu], rfl, by simp, rfl⟩

/-- The run of `DeleteTask` after its fetch: no mutation before the commit, none when
it fails. -/
theorem DeleteTask_run (s : State) (f : DeleteFaults) (now : Time) (id userID : Nat) :
    ∃ run, (DeleteTask s f now id userID).2.trace = (GetTaskByID s f.get id).2.trace ++ run ∧
      commitsFirst run = true ∧
      (∀ e, (DeleteTask s f now id userID).1 = .error e →
        ∀ ev ∈ run, ev.isMutation = false) ∧
      cacheCallsOutsideTx false run = true := by
  unfold DeleteTask
  generalize GetTaskByID s f.get id = g
  obtain ⟨o, s1⟩ := g
  cases o with
  | error e => exact ⟨[], by simp, rfl, by simp, rfl⟩
  | ok task =>
    simp only
    by_cases hu : task.UserID = userID
    · simp only [hu, ne_eq, not_true_eq_false, if_false]
      cases hf : f.clearTags with
      | some cause =>
        exact ⟨[Event.txBegin, Event.txRollback], by simp [rollback, beginTx], by decide,
          by simp [Event.isMutation], rfl⟩
      | none =>
        simp only
        cases hd : f.delete with
        | some cause =>
          exact ⟨[Event.txBegin, Event.txRollback], by simp [rollback, beginTx], by decide,
            by simp [Event.isMutation], rfl⟩
        | none =>
          simp only
          cases hc : f.commit with
          | some cause =>
            exact ⟨[Event.txBegin, Event.txCommit false], by simp [commitFailed, beginTx],
              by decide, by simp [Event.isMutation], rfl⟩
          | none =>
            simp only
            obtain ⟨l, e, hm⟩ := deleteSideEffects_mutation (commitTx (beginTx s1)
              (((beginTx s1).db.clearTags task.ID).softDeleteTask now task.ID)) f id userID
              task.Status
            refine ⟨[Event.txBegin, Event.txCommit true] ++ l, ?_,
              commitsFirst_committed l, ?_, cacheCallsOutsideTx_committed l hm⟩
            · rw [e]; simp [commitTx, beginTx]
            · intro e' h; cases h
    · exact ⟨[], by simp [hu], rfl, by simp, rfl⟩

/-! ## The statistics query -/

/-- What the loop of `GetUserTaskStats` leaves alone: the store, the cache keys of
other counters and the entries of `stats` under other names. -/
theorem statsLoop_frame (f : StatsFaults) (u : Nat) : ∀ (l : List Int) (s : State) (stats : Stats),
    (statsLoop f u l s stats).2.db = s.db ∧
    (∀ key, (∀ st ∈ l, key ≠ countKey u ((statusKey st).getD "")) →
      (statsLoop f u l s stats).2.cache key = s.cache key) ∧
    (∀ stats' name, (statsLoop f u l s stats).1 = .ok stats' →
      (∀ st ∈ l, name ≠ (statusKey st).getD "") → stats' name = stats name) := by
  intro l
  induction l with
  | nil =>
    intro s stats
    refine ⟨rfl, fun _ _ => rfl, ?_⟩
    intro stats' name h _
    simp only [statsLoop, Except.ok.injEq] at h
    rw [← h]
  | cons st0 rest ih =>
    intro s stats
    unfold statsLoop
    cases hc : f.count st0 with
    | some cause =>
      refine ⟨rfl, fun _ _ => rfl, ?_⟩
      intro stats' name h
      cases h
    | none =>
      simp only
      obtain ⟨h1, h2, h3⟩ := ih (CacheService.Set s (f.cacheSet st0)
        (countKey u ((statusKey st0).getD "")) (CacheVal.count (s.db.countTasks u st0))
        (Hour * 24))
        (fun k => if k = (statusKey st0).getD "" then some (s.db.countTasks u st0 : Int)
          else stats k)
      refine ⟨?_, ?_, ?_⟩
      · rw [h1]; simp
      · intro key hkey
        rw [h2 key (fun st hst => hkey st (List.mem_cons_of_mem _ hst))]
        exact Set_cache_other _ _ _ _ _ _ (hkey st0 (List.mem_cons_self _ _))
      · intro stats' name hok hname
        rw [h3 stats' name hok (fun st hst => hname st (List.mem_cons_of_mem _ hst))]
        simp [hname st0 (List.mem_cons_self _ _)]

/-- After the loop of `GetUserTaskStats` has run to its end with its cache writes
succeeding, the counter key of each visited status holds the live count, with a time
to live of 24 hours, and `stats` has the same number under the name of the status. -/
theorem statsLoop_counts (f : StatsFaults) (u : Nat) (hset : ∀ st, f.cacheSet st = none) :
    ∀ (l : List Int) (s : State) (stats stats' : Stats),
    (l.map (fun st => (statusKey st).getD "")).Nodup →
    (statsLoop f u l s stats).1 = .ok stats' →
    ∀ st ∈ l,
      (statsLoop f u l s stats).2.cache (countKey u ((statusKey st).getD ""))
        = some ⟨CacheVal.count (s.db.countTasks u st), some (Hour * 24)⟩ ∧
      stats' ((statusKey st).getD "") = some (s.db.countTasks u st : Int) := by
  intro l
  induction l with
  | nil => intro s stats stats' _ _ st hst; cases hst
  | cons st0 rest ih =>
    intro s stats stats' hnd hok st hst
    rw [List.map_cons, List.nodup_cons] at hnd
    unfold statsLoop at hok ⊢
    cases hc : f.count st0 with
    | some cause => rw [hc] at hok; cases hok
    | none =>
      rw [hc] at hok
      simp only at hok ⊢
      have hfr := statsLoop_frame f u rest (CacheService.Set s (f.cacheSet st0)
        (countKey u ((statusKey st0).getD "")) (CacheVal.count (s.db.countTasks u st0))
        (Hour * 24))
        (fun k => if k = (statusKey st0).getD "" then some (s.db.countTasks u st0 : Int)
          else stats k)
      rcases List.mem_cons.1 hst with h0 | hrest
      · subst h0
        have hne : ∀ st' ∈ rest, (statusKey st).getD "" ≠ (statusKey st').getD "" := by
          intro st' hst' heq
          exact hnd.1 (List.mem_map.2 ⟨st', hst', heq.symm⟩)
        refine ⟨?_, ?_⟩
        · rw [hfr.2.1 _ (fun st' hst' heq => hne st' hst' (countKey_inj heq).2)]
          rw [hset st]
          simp [CacheService.Set]
        · rw [hfr.2.2 stats' _ hok hne]
          simp
      · have := ih _ _ stats' hnd.2 hok st hrest
        simpa using this

theorem statusKey_some {st : Int} {name : String} (h : statusKey st = some name) :
    st ∈ statusList ∧ name ∈ ["pending", "in_progress", "completed", "cancelled"] := by
  unfold statusKey at h
  unfold statusList
  split_ifs at h with h1 h2 h3 h4 <;> simp_all

/-- The state and the result of a successful `GetUserTaskStats`: the state is the one
the loop leaves, and the result is what the loop entered in `stats` plus the entries
`total` and `overdue`. -/
theorem GetUserTaskStats_ok {s : State} {f : StatsFaults} {now : Time} {u : Nat} {stats : Stats}
    (h : (GetUserTaskStats s f now u).1 = .ok stats) :
    ∃ stats0,
      (statsLoop f u statusList
        (CacheService.HGetAll s f.hgetall (BuildCacheKey TaskCountPrefix u))
        (fun _ => none)).1 = .ok stats0 ∧
      (GetUserTaskStats s f now u).2 = (statsLoop f u statusList
        (CacheService.HGetAll s f.hgetall (BuildCacheKey TaskCountPrefix u))
        (fun _ => none)).2 ∧
      ∀ name, name ≠ "total" → name ≠ "overdue" → stats name = stats0 name := by
  unfold GetUserTaskStats at h ⊢
  simp only at h ⊢
  generalize statsLoop f u statusList
    (CacheService.HGetAll s f.hgetall (BuildCacheKey TaskCountPrefix u)) (fun _ => none) = L
    at h ⊢
  obtain ⟨o, s1⟩ := L
  cases o with
  | error e => cases h
  | ok stats0 =>
    simp only at h ⊢
    cases ht : f.total with
    | some cause => rw [ht] at h; cases h
    | none =>
      rw [ht] at h
      simp only at h ⊢
      cases ho : f.overdue with
      | some cause => rw [ho] at h; cases h
      | none =>
        rw [ho] at h
        simp only [Except.ok.injEq] at h
        refine ⟨stats0, rfl, rfl, ?_⟩
        intro name h1 h2
        rw [← h]
        simp [h1, h2]

/-! ## Deleting a user: the cascade -/

/-- A successful `DeleteUser` found the user and committed the two soft deletions. -/
theorem DeleteUser_ok {s : State} {f : DeleteUserFaults} {now : Time} {id : Nat}
    (h : (DeleteUser s f now id).1 = .ok ()) :
    ∃ user, s.db.firstUser id = some user ∧
      (DeleteUser s f now id).2.db = (s.db.softDeleteUserTasks now id).softDeleteUser now user.ID := by
  unfold DeleteUser at h ⊢
  simp only [beginTx_db] at h ⊢
  cases h1 : f.userFirst with
  | some cause => rw [h1] at h; cases h
  | none =>
    rw [h1] at h
    simp only at h ⊢
    cases h2 : s.db.firstUser id with
    | none => rw [h2] at h; cases h
    | some user =>
      rw [h2] at h
      simp only at h ⊢
      cases h3 : f.deleteTasks with
      | some cause => rw [h3] at h; cases h
      | none =>
        rw [h3] at h
        simp only at h ⊢
        cases h4 : f.deleteUser with
        | some cause => rw [h4] at h; cases h
        | none =>
          rw [h4] at h
          simp only at h ⊢
          cases h5 : f.commit with
          | some cause => rw [h5] at h; cases h
          | none => exact ⟨user, rfl, by simp⟩

theorem firstUser_some {db : DB} {id : Nat} {u : User} (h : db.firstUser id = some u) :
    u ∈ db.users ∧ u.ID = id ∧ u.DeletedAt = none := by
  unfold DB.firstUser at h
  have hp := List.find?_some h
  simp only [decide_eq_true_eq] at hp
  exact ⟨List.mem_of_find?_eq_some h, hp.1, hp.2⟩

theorem filter_map_fixed {α : Type} (p : α → Bool) (g : α → α) (hg : ∀ a, p (g a) = p a)
    (hp : ∀ a, p a = true → g a = a) (l : List α) : (l.map g).filter p = l.filter p := by
  induction l with
  | nil => rfl
  | cons a rest ih =>
    rw [List.map_cons, List.filter_cons, List.filter_cons, hg a, ih]
    cases h : p a with
    | true => simp [hp a h]
    | false => simp

/-! ## Creating a user through the DAO -/

theorem GetByUsername_held {db : DB} {username : String}
    (h : ∃ u ∈ db.users, u.Username = username ∧ u.DeletedAt = none) :
    ∃ u, userDAO.GetByUsername db none username = .ok u := by
  unfold userDAO.GetByUsername
  simp only
  cases hf : db.users.find? (fun u => decide (u.Username = username ∧ u.DeletedAt = none)) with
  | some u => exact ⟨u, rfl⟩
  | none =>
    exfalso
    obtain ⟨u, hu, h1, h2⟩ := h
    have := List.find?_eq_none.1 hf u hu
    simp [h1, h2] at this

theorem GetByUsername_free {db : DB} {username : String} (f : Fault)
    (h : ∀ u ∈ db.users, ¬ (u.Username = username ∧ u.DeletedAt = none)) :
    ∃ err, userDAO.GetByUsername db f username = .error err := by
  unfold userDAO.GetByUsername
  cases f with
  | some cause => exact ⟨_, rfl⟩
  | none =>
    simp only
    cases hf : db.users.find? (fun u => decide (u.Username = username ∧ u.DeletedAt = none)) with
    | none => exact ⟨_, rfl⟩
    | some u =>
      exfalso
      have hp := List.find?_some hf
      simp only [decide_eq_true_eq] at hp
      exact h u (List.mem_of_find?_eq_some hf) hp

theorem GetByEmail_free {db : DB} {email : String} (f : Fault)
    (h : ∀ u ∈ db.users, ¬ (u.Email = email ∧ u.DeletedAt = none)) :
    ∃ err, userDAO.GetByEmail db f email = .error err := by
  unfold userDAO.GetByEmail
  cases f with
  | some cause => exact ⟨_, rfl⟩
  | none =>
    simp only
    cases hf : db.users.find? (fun u => decide (u.Email = email ∧ u.DeletedAt = none)) with
    | none => exact ⟨_, rfl⟩
    | some u =>
      exfalso
      have hp := List.find?_some hf
      simp only [decide_eq_true_eq] at hp
      exact h u (List.mem_of_find?_eq_some hf) hp

/-! ## Properties of the workflow -/

/-- C1. In every reachable state, for a live task `T` and an acting user `B` who is
not its owner, `UpdateTask` and `DeleteTask` never succeed, fail with the
permission error whenever the store read of the fetch does not itself fail, and
leave the whole relational state (so `T`'s row and tag links) and every counter key
`task_count:<u>:<name>` as they were. -/
theorem C1_foreign_user_is_denied (s : State) (hs : Reachable s) (T : TaskRow)
    (hT : T ∈ s.db.tasks) (hl : T.DeletedAt = none) (B : Nat) (hB : B ≠ T.UserID)
    (fu : UpdateFaults) (fd : DeleteFaults) (now : Time) (req : TaskUpdateRequest) :
    ((∀ t, (UpdateTask s fu now T.ID B req).1 ≠ .ok t) ∧
      (fu.get.dbFirst = none →
        (UpdateTask s fu now T.ID B req).1 = .error .updateNotPermitted) ∧
      (UpdateTask s fu now T.ID B req).2.db = s.db ∧
      ∀ u name, (UpdateTask s fu now T.ID B req).2.cache (countKey u name)
        = s.cache (countKey u name)) ∧
    ((DeleteTask s fd now T.ID B).1 ≠ .ok () ∧
      (fd.get.dbFirst = none → (DeleteTask s fd now T.ID B).1 = .error .deleteNotPermitted) ∧
      (DeleteTask s fd now T.ID B).2.db = s.db ∧
      ∀ u name, (DeleteTask s fd now T.ID B).2.cache (countKey u name)
        = s.cache (countKey u name)) := by
  have hc := hs.coherent
  constructor
  · have hfetch := fetch_live hc hT hl fu.get
    have hdb := GetTaskByID_db s fu.get T.ID
    have hcache : ∀ u name, (GetTaskByID s fu.get T.ID).2.cache (countKey u name)
        = s.cache (countKey u name) :=
      fun u name => GetTaskByID_cache_other s fu.get T.ID _ (taskKey_ne_countKey _ _ _).symm
    rcases UpdateTask_cases s fu now T.ID B req with
      ⟨e, he, hr⟩ | ⟨task, _, _, hr⟩ | ⟨task, e, s', hg, hu, _⟩ |
      ⟨task, tx2, e, hg, hu, _⟩ | ⟨task, tx2, task1, hg, hu, _⟩
    · rw [hr]
      refine ⟨fun t => by simp, ?_, hdb, hcache⟩
      intro hf
      rcases hfetch with ⟨c, hc', _⟩ | ⟨t, ht, _⟩
      · rw [hf] at hc'; cases hc'
      · rw [ht] at he; cases he
    · rw [hr]
      exact ⟨fun t => by simp, fun _ => rfl, hdb, hcache⟩
    all_goals
      rcases hfetch with ⟨c, _, hc'⟩ | ⟨t, ht, _, hown, _⟩
      · rw [hc'] at hg; cases hg
      · rw [ht] at hg; cases hg
        exact absurd (hu.symm.trans hown) hB
  · have hfetch := fetch_live hc hT hl fd.get
    have hdb := GetTaskByID_db s fd.get T.ID
    have hcache : ∀ u name, (GetTaskByID s fd.get T.ID).2.cache (countKey u name)
        = s.cache (countKey u name) :=
      fun u name => GetTaskByID_cache_other s fd.get T.ID _ (taskKey_ne_countKey _ _ _).symm
    rcases DeleteTask_cases s fd now T.ID B with
      ⟨e, he, hr⟩ | ⟨task, _, _, hr⟩ | ⟨task, e, s', hg, hu, _⟩ | ⟨task, hg, hu, _⟩
    · rw [hr]
      refine ⟨by simp, ?_, hdb, hcache⟩
      intro hf
      rcases hfetch with ⟨c, hc', _⟩ | ⟨t, ht, _⟩
      · rw [hf] at hc'; cases hc'
      · rw [ht] at he; cases he
    · rw [hr]
      exact ⟨by simp, fun _ => rfl, hdb, hcache⟩
    all_goals
      rcases hfetch with ⟨c, _, hc'⟩ | ⟨t, ht, _, hown, _⟩
      · rw [hc'] at hg; cases hg
      · rw [ht] at hg; cases hg
        exact absurd (hu.symm.trans hown) hB

theorem state0_reachable : Reachable state0 :=
  Reachable.init state0 (by decide) (fun _ => rfl)

theorem state1_reachable : Reachable state1 :=
  Reachable.create _ _ _ _ state0_reachable

theorem C1_foreign_user_is_denied_witness :
    (UpdateTask state1 UpdateFaults.ok 20 1 2 TaskUpdateRequest.empty).1
      = .error .updateNotPermitted ∧
    (DeleteTask state1 DeleteFaults.ok 20 1 2).1 = .error .deleteNotPermitted ∧
    (UpdateTask state1 UpdateFaults.ok 20 1 2 TaskUpdateRequest.empty).2.db = state1.db ∧
    (DeleteTask state1 DeleteFaults.ok 20 1 2).2.db = state1.db :=
  have h := C1_foreign_user_is_denied state1 state1_reachable row1 (by decide) rfl 2 (by decide)
    UpdateFaults.ok DeleteFaults.ok 20 TaskUpdateRequest.empty
  ⟨h.1.2.1 rfl, h.2.2.1 rfl, h.1.2.2.1, h.2.2.2.1⟩

/-- C2. Whenever `CreateTask` succeeds, the returned task has status Pending (0) and
the acting user as `UserID`, and the store gained exactly one row, which carries the
returned key, status Pending and that `UserID`; the request has no say in either. -/
theorem C2_created_task_is_pending (s : State) (f : CreateFaults) (now : Time) (userID : Nat)
    (req : TaskCreateRequest) (t : Task)
    (h : (CreateTask s f now userID req).1 = .ok t) :
    t.Status = 0 ∧ t.UserID = userID ∧
    ∃ row, (CreateTask s f now userID req).2.db.tasks = s.db.tasks ++ [row] ∧
      row.ID = t.ID ∧ row.Status = TaskStatusPending ∧ row.UserID = userID := by
  rcases CreateTask_cases s f now userID req with
    ⟨e, s', hr, _, _⟩ | ⟨u, tx2, task2, _, _, _, _, hl, hr⟩
  · rw [hr] at h; cases h
  · rw [hr] at h ⊢
    simp only [Except.ok.injEq] at h
    obtain ⟨ht, _, _, hrow⟩ := linkTags_ok hl
    rw [create_fst_tasks] at ht
    have hrel := reloadCreated_row f.reload ht hrow (create_snd s.db now userID req).1
    rw [h] at hrel
    have e1 : t.Status = (s.db.create now (newTask userID req)).2.Status :=
      congrArg TaskRow.Status hrel
    have e2 : t.UserID = (s.db.create now (newTask userID req)).2.UserID :=
      congrArg TaskRow.UserID hrel
    have e3 : t.ID = (s.db.create now (newTask userID req)).2.ID :=
      congrArg TaskRow.ID hrel
    refine ⟨e1, e2, _, by simpa using ht, e3.symm, rfl, rfl⟩

theorem C2_created_task_is_pending_witness :
    (CreateTask state0 CreateFaults.ok 10 1 reqWriteSpec).1 = .ok task1 ∧
    task1.Status = 0 ∧ task1.UserID = 1 ∧
    ∃ row, state1.db.tasks = state0.db.tasks ++ [row] ∧
      row.ID = task1.ID ∧ row.Status = TaskStatusPending ∧ row.UserID = 1 :=
  ⟨rfl, C2_created_task_is_pending state0 CreateFaults.ok 10 1 reqWriteSpec task1 rfl⟩

/-- C3, as stated, fails once a counter key expires. The scenario starts at time 0
from an empty `tasks` table and an empty cache; user 1 creates a task at time 10 and
another one 25 hours later, at time 90010, every call succeeding. The key
`task_count:1:pending`, armed for 24 hours at time 10, is gone by then and the second
`INCRBY` starts from 0 again: the counter reads 1 while user 1 has 2 pending tasks. -/
theorem C3_counterexample :
    CounterRun 0 90010 stateDayLater ∧
    readCounter timed1.cache (countKey 1 "pending") = 1 ∧
    (timed1.elapse 90000).cache (countKey 1 "pending") = none ∧
    readCounter stateDayLater.cache (countKey 1 "pending") = 1 ∧
    stateDayLater.db.countTasks 1 TaskStatusPending = 2 :=
  ⟨CounterRun.create CreateFaults.ok 1 reqReview _
      (CounterRun.wait 90000
        (CounterRun.create CreateFaults.ok 1 reqWriteSpec _
          (CounterRun.wait 10
            (CounterRun.init state0 rfl (fun _ => rfl) (fun _ _ => Or.inl ⟨rfl, rfl⟩)))
          ⟨rfl, rfl, rfl, rfl⟩ rfl))
      ⟨rfl, rfl, rfl, rfl⟩ rfl,
    by decide, by decide, by decide, by decide⟩

/-- C3 amended. Starting at time `t0` from an empty `tasks` table with no cached task
and all counters at zero, after any sequence of successful `CreateTask`, `UpdateTask`
and `DeleteTask` calls whose cache calls all succeed, time passing between the calls,
as long as less than 24 hours have passed since the start: for every user `u` and each
status with a counter name (pending, in_progress, completed, cancelled) the integer
cached under `task_count:<u>:<name>` equals the number of live tasks of `u` in that
status. -/
theorem C3_counters_converge_within_a_day (t0 t : Time) (s : State) (h : CounterRun t0 t s)
    (hday : t < t0 + Hour * 24) (u : Nat) (st : Int) (name : String)
    (hname : statusKey st = some name) :
    readCounter s.cache (countKey u name) = s.db.countTasks u st :=
  (((h.invariant).2 hday).1.counts u st name hname).readCounter

theorem timed4_counterRun : CounterRun 0 40 timed4 :=
  CounterRun.delete DeleteFaults.ok 1 1
    (CounterRun.wait 10
      (CounterRun.create CreateFaults.ok 1 reqReview _
        (CounterRun.wait 10
          (CounterRun.update UpdateFaults.ok 1 1 reqComplete _
            (CounterRun.wait 10
              (CounterRun.create CreateFaults.ok 1 reqWriteSpec _
                (CounterRun.wait 10
                  (CounterRun.init state0 rfl (fun _ => rfl) (fun _ _ => Or.inl ⟨rfl, rfl⟩)))
                ⟨rfl, rfl, rfl, rfl⟩ rfl))
            ⟨⟨rfl, rfl⟩, rfl, rfl, rfl, rfl, rfl, rfl⟩ rfl))
        ⟨rfl, rfl, rfl, rfl⟩ rfl))
    ⟨⟨rfl, rfl⟩, rfl, rfl, rfl, rfl⟩ rfl

theorem C3_counters_converge_within_a_day_witness :
    CounterRun 0 40 timed4 ∧
    readCounter timed4.cache (countKey 1 "pending") = 1 ∧
    readCounter timed4.cache (countKey 1 "completed") = 0 ∧
    timed4.db.countTasks 1 TaskStatusPending = 1 ∧
    timed4.db.countTasks 1 TaskStatusCompleted = 0 :=
  ⟨timed4_counterRun,
    (C3_counters_converge_within_a_day 0 40 timed4 timed4_counterRun (by decide) 1
      TaskStatusPending "pending" rfl).trans (by decide),
    (C3_counters_converge_within_a_day 0 40 timed4 timed4_counterRun (by decide) 1
      TaskStatusCompleted "completed" rfl).trans (by decide),
    by decide, by decide⟩

/-- C4. In every reachable state, when `UpdateTask` succeeds on a request whose
`tagIDs` is present (possibly empty), the returned task's tags are exactly the live
tags whose key occurs in the list, the join table links the task to exactly those
tags (former links not in the list are gone, keys of no tag add nothing and raise no
error, the empty list leaves no link), and the links of other tasks are untouched. -/
theorem C4_tags_are_replaced (s : State) (hs : Reachable s) (f : UpdateFaults) (now : Time)
    (id userID : Nat) (req : TaskUpdateRequest) (ids : List Nat) (t : Task)
    (hreq : req.TagIDs = some ids) (h : (UpdateTask s f now id userID req).1 = .ok t) :
    t.Tags = s.db.tags.filter (fun g => decide (g.ID ∈ ids ∧ g.DeletedAt = none)) ∧
    (∀ b, (id, b) ∈ (UpdateTask s f now id userID req).2.db.task_tags ↔
      b ∈ ids ∧ ∃ g ∈ s.db.tags, g.ID = b ∧ g.DeletedAt = none) ∧
    (∀ a b, a ≠ id → ((a, b) ∈ (UpdateTask s f now id userID req).2.db.task_tags ↔
      (a, b) ∈ s.db.task_tags)) := by
  have hc := hs.coherent
  rcases UpdateTask_cases s f now id userID req with
    ⟨e, _, hr⟩ | ⟨task, _, _, hr⟩ | ⟨task, e, s', _, _, hr, _⟩ |
    ⟨task, tx2, e, _, _, _, _, _, _, hr⟩ | ⟨task, tx2, task1, hg, _, _, _, _, hrt, ht, hr⟩
  · rw [hr] at h; cases h
  · rw [hr] at h; cases h
  · rw [hr] at h; cases h
  · rw [hr] at h; cases h
  · rw [hr] at h ⊢
    simp only [Except.ok.injEq] at h
    subst h
    have hid : task.ID = id := fetch_id hc hg
    rw [hreq, hid] at hrt
    have htags : tx2.tags = s.db.tags := (replaceTags_tables hrt).2.2
    have hlinks : ∀ a b, (a, b) ∈ tx2.task_tags ↔
        ((a, b) ∈ s.db.task_tags ∧ a ≠ id) ∨
        (a = id ∧ b ∈ ids ∧ ∃ g ∈ s.db.tags, g.ID = b ∧ g.DeletedAt = none) := by
      intro a b
      rw [replaceTags_links hrt, modelUpdates_task_tags, mem_appendTags, modelUpdates_tags, hid]
      constructor
      · rintro (⟨h1 | ⟨h1, _⟩, h2⟩ | h1)
        · exact Or.inl ⟨h1, h2⟩
        · exact absurd h1 h2
        · exact Or.inr h1
      · rintro (⟨h1, h2⟩ | h1)
        · exact Or.inl ⟨Or.inl h1, h2⟩
        · exact Or.inr h1
    simp only [updateSideEffects_db, commitTx_db]
    refine ⟨?_, ?_, ?_⟩
    · obtain ⟨r, _, hrid, _, _, rfl⟩ := firstTask_some ht
      show tx2.preloadTags r = _
      unfold DB.preloadTags
      rw [htags]
      apply List.filter_congr
      intro g hgm
      rw [hrid, decide_eq_decide, hlinks]
      constructor
      · rintro ⟨(⟨_, h2⟩ | ⟨_, h2, _⟩), h3⟩
        · exact absurd rfl h2
        · exact ⟨h2, h3⟩
      · rintro ⟨h2, h3⟩
        exact ⟨Or.inr ⟨rfl, h2, g, hgm, rfl, h3⟩, h3⟩
    · intro b
      rw [hlinks]
      constructor
      · rintro (⟨_, h2⟩ | ⟨_, h2⟩)
        · exact absurd rfl h2
        · exact h2
      · intro h2
        exact Or.inr ⟨rfl, h2⟩
    · intro a b hab
      rw [hlinks]
      constructor
      · rintro (⟨h1, _⟩ | ⟨h1, _⟩)
        · exact h1
        · exact absurd h1 hab
      · intro h1
        exact Or.inl ⟨h1, hab⟩

theorem C4_tags_are_replaced_witness :
    task1.Tags = [tagA, tagB] ∧
    (UpdateTask state1 UpdateFaults.ok 20 1 1 reqTagsC).1 = .ok task1C ∧
    task1C.Tags = [tagC] ∧
    ∀ b, (1, b) ∈ (UpdateTask state1 UpdateFaults.ok 20 1 1 reqTagsC).2.db.task_tags ↔
      b ∈ [3, 99] ∧ ∃ g ∈ state1.db.tags, g.ID = b ∧ g.DeletedAt = none :=
  have h := C4_tags_are_replaced state1 state1_reachable UpdateFaults.ok 20 1 1 reqTagsC [3, 99]
    task1C rfl rfl
  ⟨rfl, rfl, h.1.trans (by decide), h.2.1⟩

/-- C5, evaluated on the code. The claim says an update without `tagIDs` leaves the
task's tag links as they were; the code links the task again to every tag of the
struct it fetched, because `tx.Model(task).Updates(updates)` saves the associations
of that struct. (1) With `tagIDs` absent the `tags` table is unchanged and the join
table is the old one or the old one with one row appended for each tag of the
fetched task not yet linked; after a successful call it is the latter. (2) When every
tag of the fetched task is linked already, as for a task read from the store, the
join table is unchanged. (3) In `stateStaleTags` the store links task 1 to C alone
and `task:1` still holds the copy with the tags A and B; the owner's update of the
title, without `tagIDs`, succeeds with every call succeeding, and the task is then
linked to C, A and B. -/
theorem C5_absent_tag_ids_relink_cached_tags :
    (∀ (s : State) (f : UpdateFaults) (now : Time) (id userID : Nat)
      (req : TaskUpdateRequest), req.TagIDs = none →
      ((UpdateTask s f now id userID req).2.db.task_tags = s.db.task_tags ∨
        ∃ task, (GetTaskByID s f.get id).1 = .ok task ∧
          (UpdateTask s f now id userID req).2.db.task_tags
            = (s.db.appendTags task.ID task.Tags).task_tags) ∧
      (UpdateTask s f now id userID req).2.db.tags = s.db.tags ∧
      (∀ t, (UpdateTask s f now id userID req).1 = .ok t →
        ∃ task, (GetTaskByID s f.get id).1 = .ok task ∧
          (UpdateTask s f now id userID req).2.db.task_tags
            = (s.db.appendTags task.ID task.Tags).task_tags)) ∧
    (∀ (s : State) (f : UpdateFaults) (now : Time) (id userID : Nat)
      (req : TaskUpdateRequest) (task : Task), req.TagIDs = none →
      (GetTaskByID s f.get id).1 = .ok task →
      (∀ g ∈ task.Tags, (task.ID, g.ID) ∈ s.db.task_tags) →
      (UpdateTask s f now id userID req).2.db.task_tags = s.db.task_tags) ∧
    (Reachable stateStaleTags ∧
      stateStaleTags.db.task_tags = [(1, 3)] ∧
      (cachedTask stateStaleTags.cache (taskKey 1)).map (fun t => t.Tags)
        = some [tagA, tagB] ∧
      reqRetitle.TagIDs = none ∧
      (UpdateTask stateStaleTags UpdateFaults.ok 30 1 1 reqRetitle).1
        = .ok task1Relinked ∧
      (UpdateTask stateStaleTags UpdateFaults.ok 30 1 1 reqRetitle).2.db.task_tags
        = [(1, 3), (1, 1), (1, 2)]) := by
  refine ⟨?_, ?_, ?_⟩
  · intro s f now id userID req h
    exact UpdateTask_absent_links s f now id userID req h
  · intro s f now id userID req task h hg hl
    rcases (UpdateTask_absent_links s f now id userID req h).1 with h1 | ⟨task', hg', h1⟩
    · exact h1
    · rw [hg] at hg'
      cases hg'
      rw [h1]
      exact appendTags_linked s.db task.ID task.Tags hl
  · exact ⟨Reachable.update _ _ _ _ _ state1_reachable, by decide, by decide, rfl, rfl,
      by decide⟩

theorem C5_absent_tag_ids_relink_cached_tags_witness :
    state1.db.task_tags = [(1, 1), (1, 2)] ∧
    (UpdateTask state1 UpdateFaults.ok 20 1 1 reqRetitle).2.db.task_tags
      = state1.db.task_tags ∧
    (UpdateTask stateStaleTags UpdateFaults.ok 30 1 1 reqRetitle).2.db.tags
      = stateStaleTags.db.tags :=
  ⟨by decide,
    C5_absent_tag_ids_relink_cached_tags.2.1 state1 UpdateFaults.ok 20 1 1 reqRetitle
      (marshalTask task1) rfl rfl (by decide),
    (C5_absent_tag_ids_relink_cached_tags.1 stateStaleTags UpdateFaults.ok 30 1 1 reqRetitle
      rfl).2.1⟩

/-- C6, as stated, fails. User 1 creates a task at time 10 (cached with no
`StartTime`) and starts it at time 20 while the best-effort deletion of `task:1`
fails: the row has `StartTime = 20`, the cached document still has none. A second,
fault-free and successful `UpdateTask` with status InProgress and no `StartTime`
field, at time 30, reads the cached document and overwrites the row's `StartTime`
with 30. -/
theorem C6_counterexample :
    Reachable stateStale ∧
    startTimes stateStale = [(1, some 20)] ∧
    reqStart.Status = some TaskStatusInProgress ∧ reqStart.StartTime = none ∧
    (∃ t, (UpdateTask stateStale UpdateFaults.ok 30 1 1 reqStart).1 = .ok t ∧ t.UserID = 1) ∧
    startTimes (UpdateTask stateStale UpdateFaults.ok 30 1 1 reqStart).2 = [(1, some 30)] :=
  ⟨Reachable.update _ _ _ _ _ state1_reachable, by decide, rfl, rfl,
    ⟨{ task1 with Status := 1, StartTime := some 30, UpdatedAt := 30 }, rfl, rfl⟩, by decide⟩

theorem buildUpdates_start_time_none {task : Task} (now : Time) {req : TaskUpdateRequest}
    (ht : task.StartTime ≠ none) (hr : req.StartTime = none) :
    (buildUpdates task now req).start_time = none := by
  unfold buildUpdates
  simp only [hr]
  split
  · rfl
  · split
    · simp [ht]
    · split <;> rfl

theorem startTimes_updates (db : DB) (now : Time) (taskID : Nat) (u : Updates)
    (hu : u.start_time = none) :
    (db.updates now taskID u).tasks.map (fun r => (r.ID, r.StartTime))
      = db.tasks.map (fun r => (r.ID, r.StartTime)) := by
  unfold DB.updates
  simp only [List.map_map]
  apply List.map_congr_left
  intro r _
  simp only [Function.comp]
  split
  · simp [Updates.apply, hu]
  · rfl

/-- The fetch keeps `StartTimeSeen`, and what it returns has its `StartTime` set. -/
theorem fetch_startTimeSeen {s : State} {id : Nat} (h : StartTimeSeen s id) (f : GetFaults) :
    StartTimeSeen (GetTaskByID s f id).2 id ∧
    ∀ task, (GetTaskByID s f id).1 = .ok task → task.StartTime ≠ none := by
  rcases GetTaskByID_cases s f id with
    ⟨t, h1, hr⟩ | ⟨c, _, _, hr⟩ | ⟨_, _, _, hr⟩ | ⟨t, _, _, ht, hr⟩
  · rw [hr]
    refine ⟨⟨by simpa using h.1, by simpa using h.2⟩, ?_⟩
    intro task htask
    cases htask
    rw [Get_fst] at h1
    split at h1
    · exact h.1 t h1
    · cases h1
  · rw [hr]
    exact ⟨⟨by simpa using h.1, by simpa using h.2⟩, fun task htask => by cases htask⟩
  · rw [hr]
    exact ⟨⟨by simpa using h.1, by simpa using h.2⟩, fun task htask => by cases htask⟩
  · rw [hr]
    obtain ⟨r, hrm, hid, _, hl, rfl⟩ := firstTask_some ht
    have hset : (Task.ofRow r (s.db.preloadUser r) (s.db.preloadTags r)).StartTime ≠ none :=
      h.2 r hrm hid hl
    refine ⟨⟨?_, by simpa using h.2⟩, ?_⟩
    · intro t' ht'
      unfold CacheService.Set at ht'
      split at ht'
      · exact h.1 t' (by simpa using ht')
      · simp only [cachedTask, if_true, Option.some.injEq] at ht'
        subst ht'
        exact hset
    · intro task htask
      cases htask
      exact hset

theorem StartTimeSeen.step {s s' : State} {id : Nat} (h : StartTimeSeen s id)
    (hc : TaskDocsWithin s'.cache s.cache)
    (hrows : ∀ r' ∈ s'.db.tasks, ∃ r ∈ s.db.tasks, r.ID = r'.ID ∧ r.DeletedAt = r'.DeletedAt ∧
      r.StartTime = r'.StartTime) : StartTimeSeen s' id := by
  refine ⟨fun t ht => h.1 t (hc _ _ ht), ?_⟩
  intro r' hr' hid hl
  obtain ⟨r, hr, h1, h2, h3⟩ := hrows r' hr'
  rw [← h3]
  exact h.2 r hr (h1.trans hid) (h2.trans hl)

theorem rows_updates (db : DB) (now : Time) (taskID : Nat) (u : Updates)
    (hu : u.start_time = none) :
    ∀ r' ∈ (db.updates now taskID u).tasks, ∃ r ∈ db.tasks, r.ID = r'.ID ∧
      r.DeletedAt = r'.DeletedAt ∧ r.StartTime = r'.StartTime := by
  intro r' hr'
  unfold DB.updates at hr'
  simp only [List.mem_map] at hr'
  obtain ⟨r, hr, rfl⟩ := hr'
  refine ⟨r, hr, ?_⟩
  split
  · simp [Updates.apply, hu]
  · exact ⟨rfl, rfl, rfl⟩

/-- Under `StartTimeSeen`, an `UpdateTask` without a `StartTime` field changes no
`StartTime`, whatever its outcome, and `StartTimeSeen` still holds after it. -/
theorem UpdateTask_startTimeSeen {s : State} {id : Nat} (h : StartTimeSeen s id)
    (f : UpdateFaults) (now : Time) (userID : Nat) (req : TaskUpdateRequest)
    (hr : req.StartTime = none) :
    startTimes (UpdateTask s f now id userID req).2 = startTimes s ∧
    StartTimeSeen (UpdateTask s f now id userID req).2 id := by
  obtain ⟨h1, hset⟩ := fetch_startTimeSeen h f.get
  have hdb := GetTaskByID_db s f.get id
  have same : ∀ s' : State, s'.db = s.db →
      TaskDocsWithin s'.cache (GetTaskByID s f.get id).2.cache →
      startTimes s' = startTimes s ∧ StartTimeSeen s' id := by
    intro s' hd hc
    refine ⟨by unfold startTimes; rw [hd], h1.step hc ?_⟩
    intro r' hr'
    exact ⟨r', by rw [hdb, ← hd]; exact hr', rfl, rfl, rfl⟩
  have moved : ∀ (s' : State) (task : Task) (tx2 : DB),
      (GetTaskByID s f.get id).1 = .ok task →
      replaceTags (s.db.modelUpdates now task (buildUpdates task now req)) f task.ID req.TagIDs
        = .ok tx2 →
      s'.db = tx2 → TaskDocsWithin s'.cache (GetTaskByID s f.get id).2.cache →
      startTimes s' = startTimes s ∧ StartTimeSeen s' id := by
    intro s' task tx2 hg hrt hd hc
    have hu := buildUpdates_start_time_none now (hset task hg) hr
    have ht : s'.db.tasks = (s.db.modelUpdates now task (buildUpdates task now req)).tasks := by
      rw [hd, (replaceTags_tables hrt).1]
    refine ⟨?_, h1.step hc ?_⟩
    · unfold startTimes
      rw [ht]
      exact startTimes_updates _ _ _ _ hu
    · rw [ht, hdb]
      exact rows_updates _ _ _ _ hu
  rcases UpdateTask_cases s f now id userID req with
    ⟨e, _, hr'⟩ | ⟨task, _, _, hr'⟩ | ⟨task, e, s', _, _, hr', hd, hc⟩ |
    ⟨task, tx2, e, hg, _, _, _, hrt, _, hr'⟩ | ⟨task, tx2, task1, hg, _, _, _, _, hrt, _, hr'⟩
  · rw [hr']; exact same _ hdb (TaskDocsWithin.refl _)
  · rw [hr']; exact same _ hdb (TaskDocsWithin.refl _)
  · rw [hr']; exact same _ hd (by simp only; rw [hc]; exact TaskDocsWithin.refl _)
  · rw [hr']; exact moved _ task tx2 hg hrt rfl (TaskDocsWithin.refl _)
  · rw [hr']
    exact moved _ task tx2 hg hrt (by simp) (updateSideEffects_within _ _ _ _ _ _)

/-- After a successful transition into InProgress whose deletion of `task:<id>`
succeeds, the task has its `StartTime` set wherever `UpdateTask` can read it. -/
theorem started_startTimeSeen {s : State} (hs : Reachable s) (f : UpdateFaults) (now : Time)
    (id userID : Nat) (req : TaskUpdateRequest) (t : Task)
    (h : (UpdateTask s f now id userID req).1 = .ok t)
    (hst : req.Status = some TaskStatusInProgress) (hd : f.cacheDelete = none) :
    StartTimeSeen (UpdateTask s f now id userID req).2 id := by
  have hc := hs.coherent
  rcases UpdateTask_cases s f now id userID req with
    ⟨e, _, hr⟩ | ⟨task, _, _, hr⟩ | ⟨task, e, s', _, _, hr, _⟩ |
    ⟨task, tx2, e, _, _, _, _, _, _, hr⟩ | ⟨task, tx2, task1, hg, _, _, _, _, hrt, ht, hr⟩
  · rw [hr] at h; cases h
  · rw [hr] at h; cases h
  · rw [hr] at h; cases h
  · rw [hr] at h; cases h
  · rw [hr]
    refine ⟨?_, ?_⟩
    · intro t' ht'
      simp [cachedTask, updateSideEffects_taskKey _ f id userID task.Status req hd] at ht'
    · intro r hrm hid hl
      have hid' : task.ID = id := fetch_id hc hg
      simp only [updateSideEffects_db, commitTx_db, (replaceTags_tables hrt).1,
        modelUpdates_tasks] at hrm
      unfold DB.updates at hrm
      simp only [List.mem_map] at hrm
      obtain ⟨r0, hr0, rfl⟩ := hrm
      have hk := updates_row_keeps (buildUpdates task now req) now task.ID r0
      have hr0id : r0.ID = id := hk.1.symm.trans hid
      by_cases hlive : r0.DeletedAt = none
      · rw [if_pos ⟨hr0id.trans hid'.symm, hlive⟩]
        by_cases hts : task.StartTime = none
        · cases hq : req.StartTime <;>
            simp [Updates.apply, buildUpdates, hst, hts, hq, TaskStatusInProgress]
        · rcases fetch_live hc hr0 hlive f.get with ⟨c, _, hf⟩ | ⟨t', ht', _, _, hstart, _⟩
          · rw [hr0id] at hf
            rw [hf] at hg; cases hg
          · rw [hr0id] at ht'
            rw [hg] at ht'
            cases ht'
            exact (Updates_apply_keeps _ now r0).2.2.1 (hstart hts)
      · rw [if_neg (fun hx => hlive hx.2)] at hl
        exact absurd hl hlive

/-- C6 amended. (1) For every task whose `StartTime` is set in its live row and in
the document cached under `task:<id>`, if there is one, an `UpdateTask` with no
`StartTime` field in the request (with status InProgress in particular) leaves
every `StartTime` of the store unchanged. (2) Hence, from a reachable state, after a
successful transition into InProgress whose deletion of `task:<id>` succeeds, an
update without a `StartTime` field followed by a second transition into InProgress
without one leave the `StartTime` the first transition stored. -/
theorem C6_start_time_stamped_once :
    (∀ (s : State) (id userID : Nat) (f : UpdateFaults) (now : Time) (req : TaskUpdateRequest),
      StartTimeSeen s id → req.StartTime = none →
      startTimes (UpdateTask s f now id userID req).2 = startTimes s) ∧
    (∀ (s : State) (id userID : Nat) (f1 f2 f3 : UpdateFaults) (n1 n2 n3 : Time)
      (req1 req2 req3 : TaskUpdateRequest) (t : Task),
      Reachable s → (UpdateTask s f1 n1 id userID req1).1 = .ok t →
      req1.Status = some TaskStatusInProgress → f1.cacheDelete = none →
      req2.StartTime = none →
      req3.Status = some TaskStatusInProgress → req3.StartTime = none →
      startTimes (UpdateTask (UpdateTask (UpdateTask s f1 n1 id userID req1).2
          f2 n2 id userID req2).2 f3 n3 id userID req3).2
        = startTimes (UpdateTask s f1 n1 id userID req1).2) := by
  refine ⟨?_, ?_⟩
  · intro s id userID f now req h hr
    exact (UpdateTask_startTimeSeen h f now userID req hr).1
  · intro s id userID f1 f2 f3 n1 n2 n3 req1 req2 req3 t hs h1 hst hd h2 _ h3
    have p1 := started_startTimeSeen hs f1 n1 id userID req1 t h1 hst hd
    have p2 := UpdateTask_startTimeSeen p1 f2 n2 userID req2 h2
    have p3 := UpdateTask_startTimeSeen p2.2 f3 n3 userID req3 h3
    rw [p3.1, p2.1]

theorem C6_start_time_stamped_once_witness :
    startTimes stateStarted = [(1, some 20)] ∧
    startTimes (UpdateTask (UpdateTask stateStarted UpdateFaults.ok 30 1 1 reqRetitle).2
      UpdateFaults.ok 40 1 1 reqStart).2 = [(1, some 20)] :=
  ⟨by decide,
    (C6_start_time_stamped_once.2 state1 1 1 UpdateFaults.ok UpdateFaults.ok UpdateFaults.ok
      20 30 40 reqStart reqRetitle reqStart _ state1_reachable rfl rfl rfl rfl rfl rfl).trans
      (by decide)⟩

/-- The row of a live task after `Updates`, in a table with unique keys. -/
theorem updated_row {db : DB} (hnd : (db.tasks.map (fun r => r.ID)).Nodup) {T : TaskRow}
    (hT : T ∈ db.tasks) (hl : T.DeletedAt = none) (now : Time) (u : Updates) {r : TaskRow}
    (hr : r ∈ (db.updates now T.ID u).tasks) (hid : r.ID = T.ID) : r = u.apply now T := by
  unfold DB.updates at hr
  simp only [List.mem_map] at hr
  obtain ⟨r0, hr0, h0⟩ := hr
  have hk := updates_row_keeps u now T.ID r0
  rw [h0] at hk
  have : r0 = T := row_unique hnd hr0 hT (hk.1.symm.trans hid)
  subst this
  rw [← h0]
  simp [hl]

/-- C7. In every reachable state, for a live task and a successful `UpdateTask` by
its owner at time `now`: with status Completed and no `EndTime` in the request, on a
task whose `EndTime` is unset, the returned task has status Completed and
`EndTime = now`; with status InProgress and no `StartTime` in the request, on a task
whose `StartTime` is unset, it has status InProgress and `StartTime = now`. -/
theorem C7_first_transition_stamps_now (s : State) (hs : Reachable s) (T : TaskRow)
    (hT : T ∈ s.db.tasks) (hl : T.DeletedAt = none) (f : UpdateFaults) (now : Time)
    (req : TaskUpdateRequest) (t : Task)
    (h : (UpdateTask s f now T.ID T.UserID req).1 = .ok t) :
    (req.Status = some TaskStatusCompleted → req.EndTime = none → T.EndTime = none →
      t.Status = TaskStatusCompleted ∧ t.EndTime = some now) ∧
    (req.Status = some TaskStatusInProgress → req.StartTime = none → T.StartTime = none →
      t.Status = TaskStatusInProgress ∧ t.StartTime = some now) := by
  have hc := hs.coherent
  rcases UpdateTask_cases s f now T.ID T.UserID req with
    ⟨e, _, hr⟩ | ⟨task, _, _, hr⟩ | ⟨task, e, s', _, _, hr, _⟩ |
    ⟨task, tx2, e, _, _, _, _, _, _, hr⟩ | ⟨task, tx2, task1, hg, _, _, _, _, hrt, ht, hr⟩
  · rw [hr] at h; cases h
  · rw [hr] at h; cases h
  · rw [hr] at h; cases h
  · rw [hr] at h; cases h
  · rw [hr] at h
    simp only [Except.ok.injEq] at h
    subst h
    rcases fetch_live hc hT hl f.get with ⟨c, _, hf⟩ | ⟨t', ht', hid, _, hst, hen⟩
    · rw [hf] at hg; cases hg
    · rw [ht'] at hg
      cases hg
      obtain ⟨r, hrm, hrid, _, _, rfl⟩ := firstTask_some ht
      rw [(replaceTags_tables hrt).1, modelUpdates_tasks, hid] at hrm
      have hrow := updated_row hc.nodup hT hl now (buildUpdates task now req) hrm hrid
      subst hrow
      constructor
      · intro h1 h2 h3
        have h4 : task.EndTime = none := by
          by_contra hne
          exact hen hne h3
        simp [Task.ofRow, Updates.apply, buildUpdates, h1, h2, h4, TaskStatusCompleted,
          TaskStatusInProgress]
      · intro h1 h2 h3
        have h4 : task.StartTime = none := by
          by_contra hne
          exact hst hne h3
        simp [Task.ofRow, Updates.apply, buildUpdates, h1, h2, h4, TaskStatusInProgress]

theorem C7_first_transition_stamps_now_witness :
    (UpdateTask state1 UpdateFaults.ok 20 1 1 reqComplete).1 = .ok task1Done ∧
    reqComplete.Status = some TaskStatusCompleted ∧ reqComplete.EndTime = none ∧
    row1.EndTime = none ∧
    task1Done.Status = TaskStatusCompleted ∧ task1Done.EndTime = some 20 :=
  have h := C7_first_transition_stamps_now state1 state1_reachable row1 (by decide) rfl
    UpdateFaults.ok 20 reqComplete task1Done rfl
  ⟨rfl, rfl, rfl, rfl, h.1 rfl rfl rfl⟩

/-- C8. When the user exists, the task row is inserted and the request names tags,
a failure of the tag lookup or of the tag linking makes `CreateTask` return that
error; the transaction is rolled back, so the relational state is the one before the
call, and no cache call is made: the cache is unchanged and the trace gains only
the begin and the rollback of the transaction. -/
theorem C8_tag_failure_rolls_back (s : State) (f : CreateFaults) (now : Time) (userID : Nat)
    (req : TaskCreateRequest) (u : User) (hq : f.userFirst = none)
    (hu : s.db.firstUser userID = some u) (hc : f.create = none) (hne : req.TagIDs ≠ [])
    (hfail : f.findTags ≠ none ∨ f.appendTags ≠ none) :
    (∃ cause, (CreateTask s f now userID req).1 = .error (.queryTagsFailed cause) ∨
      (CreateTask s f now userID req).1 = .error (.linkTagsFailed cause)) ∧
    (CreateTask s f now userID req).2.db = s.db ∧
    (CreateTask s f now userID req).2.cache = s.cache ∧
    (CreateTask s f now userID req).2.trace = s.trace ++ [Event.txBegin, Event.txRollback] := by
  have hlen : req.TagIDs.length > 0 := List.length_pos.2 hne
  unfold CreateTask
  simp only [hq, hu, hc, beginTx_db, linkTags, hlen, if_true]
  cases hf : f.findTags with
  | some cause =>
    exact ⟨⟨cause, Or.inl rfl⟩, rfl, rfl, by simp [rollback, beginTx]⟩
  | none =>
    cases ha : f.appendTags with
    | some cause =>
      exact ⟨⟨cause, Or.inr rfl⟩, rfl, rfl, by simp [rollback, beginTx]⟩
    | none => simp [hf, ha] at hfail

theorem C8_tag_failure_rolls_back_witness :
    (CreateTask state0 CreateFaults.tagLookup 10 1 reqWriteSpec).1
      = .error (.queryTagsFailed "connection refused") ∧
    (CreateTask state0 CreateFaults.tagLookup 10 1 reqWriteSpec).2.db = state0.db ∧
    (CreateTask state0 CreateFaults.tagLookup 10 1 reqWriteSpec).2.cache = state0.cache :=
  have h := C8_tag_failure_rolls_back state0 CreateFaults.tagLookup 10 1 reqWriteSpec user1
    rfl rfl rfl (by decide) (Or.inl (by decide))
  ⟨rfl, h.2.1, h.2.2.1⟩

/-- C9. When `UpdateTask` succeeds and its deletion of `task:<id>` succeeds, the
cache holds nothing under `task:<id>` afterwards, the store's live row `id` with its
user and tags is the task the update returned, and a `GetTaskByID(id)` that follows
immediately, whose store read does not fail, returns exactly that task, read from the
store after the update. -/
theorem C9_read_after_update_is_fresh (s : State) (f : UpdateFaults) (now : Time)
    (id userID : Nat) (req : TaskUpdateRequest) (t : Task) (g : GetFaults)
    (h : (UpdateTask s f now id userID req).1 = .ok t) (hd : f.cacheDelete = none)
    (hg : g.dbFirst = none) :
    (UpdateTask s f now id userID req).2.cache (taskKey id) = none ∧
    (UpdateTask s f now id userID req).2.db.firstTask 0 id = some t ∧
    (GetTaskByID (UpdateTask s f now id userID req).2 g id).1 = .ok t := by
  rcases UpdateTask_cases s f now id userID req with
    ⟨e, _, hr⟩ | ⟨task, _, _, hr⟩ | ⟨task, e, s', _, _, hr, _⟩ |
    ⟨task, tx2, e, _, _, _, _, _, _, hr⟩ | ⟨task, tx2, task1, _, _, _, _, _, _, ht, hr⟩
  · rw [hr] at h; cases h
  · rw [hr] at h; cases h
  · rw [hr] at h; cases h
  · rw [hr] at h; cases h
  · rw [hr] at h ⊢
    simp only [Except.ok.injEq] at h
    subst h
    have hcache := updateSideEffects_taskKey (commitTx (beginTx (GetTaskByID s f.get id).2) tx2)
      f id userID task.Status req hd
    have hstore : (updateSideEffects (commitTx (beginTx (GetTaskByID s f.get id).2) tx2) f id
        userID task.Status req).db.firstTask 0 id = some task1 := by
      rw [updateSideEffects_db, commitTx_db]; exact firstTask_dest ht
    refine ⟨hcache, hstore, ?_⟩
    have hmiss : (CacheService.Get (updateSideEffects
        (commitTx (beginTx (GetTaskByID s f.get id).2) tx2) f id userID task.Status req)
        g.cacheGet (taskKey id)).1 = none := by
      rw [Get_fst]; simp [cachedTask, hcache]
    rcases GetTaskByID_cases (updateSideEffects
        (commitTx (beginTx (GetTaskByID s f.get id).2) tx2) f id userID task.Status req) g id with
      ⟨t', h1, _⟩ | ⟨c, _, h1, _⟩ | ⟨_, _, h1, _⟩ | ⟨t', _, _, h1, h2⟩
    · rw [hmiss] at h1; cases h1
    · rw [hg] at h1; cases h1
    · rw [hstore] at h1; cases h1
    · rw [hstore] at h1; cases h1
      rw [h2]

theorem C9_read_after_update_is_fresh_witness :
    (UpdateTask state1 UpdateFaults.ok 20 1 1 reqComplete).1 = .ok task1Done ∧
    cachedTask state1.cache (taskKey 1) = some (marshalTask task1) ∧
    state2.cache (taskKey 1) = none ∧
    (GetTaskByID state2 GetFaults.ok 1).1 = .ok task1Done ∧
    task1Done.Status = 2 ∧ task1.Status = 0 :=
  have h := C9_read_after_update_is_fresh state1 UpdateFaults.ok 20 1 1 reqComplete task1Done
    GetFaults.ok rfl rfl rfl
  ⟨rfl, by decide, h.1, h.2.2, rfl, rfl⟩

theorem firstTask_of_live {db : DB} (hnd : (db.tasks.map (fun r => r.ID)).Nodup) {r : TaskRow}
    (hr : r ∈ db.tasks) (hl : r.DeletedAt = none) :
    db.firstTask 0 r.ID = some (Task.ofRow r (db.preloadUser r) (db.preloadTags r)) := by
  cases h : db.firstTask 0 r.ID with
  | none => exact absurd ⟨rfl, Or.inl rfl, hl⟩ (firstTask_none h r hr)
  | some t =>
    obtain ⟨r', hr', hid, _, _, rfl⟩ := firstTask_some h
    have : r' = r := row_unique hnd hr' hr hid
    subst this
    rfl

theorem firstTask_of_none {db : DB} {id : Nat}
    (h : ∀ r ∈ db.tasks, ¬ (r.ID = id ∧ r.DeletedAt = none)) : db.firstTask 0 id = none := by
  cases ht : db.firstTask 0 id with
  | none => rfl
  | some t =>
    obtain ⟨r, hr, hid, _, hl, _⟩ := firstTask_some ht
    exact absurd ⟨hid, hl⟩ (h r hr)

/-- C10. `GetTaskByID(id)`, its cache read and its store read not failing:
(1) when `task:<id>` holds a task document, that task is returned, whatever the
store contains, and store and cache stay as they are;
(2) when `task:<id>` holds nothing and the store (with unique keys) has a live row
`id`, the row with its user and tags is returned, all other keys stay as they are
and, the cache write succeeding, `task:<id>` holds with a time to live of one hour
the document of that task: every column of the row, the tags of the task, and the
owner with every field but the `Password`, which is not serialised and reads back
empty; the next read then returns that document;
(3) when `task:<id>` holds nothing and the store has no live row `id`, the call
fails with the not-found error and store and cache stay as they are. -/
theorem C10_cache_aside_read (s : State) (f : GetFaults) (id : Nat) :
    (∀ t ttl, f.cacheGet = none → s.cache (taskKey id) = some ⟨CacheVal.task t, ttl⟩ →
      (GetTaskByID s f id).1 = .ok t ∧
      (∀ db', (GetTaskByID { s with db := db' } f id).1 = .ok t) ∧
      (GetTaskByID s f id).2.db = s.db ∧ (GetTaskByID s f id).2.cache = s.cache) ∧
    (∀ r, s.cache (taskKey id) = none → f.dbFirst = none →
      (s.db.tasks.map (fun r => r.ID)).Nodup → r ∈ s.db.tasks → r.ID = id → r.DeletedAt = none →
      (GetTaskByID s f id).1 = .ok (Task.ofRow r (s.db.preloadUser r) (s.db.preloadTags r)) ∧
      (GetTaskByID s f id).2.db = s.db ∧
      (∀ key, key ≠ taskKey id → (GetTaskByID s f id).2.cache key = s.cache key) ∧
      (f.cacheSet = none →
        (GetTaskByID s f id).2.cache (taskKey id) = some
          ⟨CacheVal.task (Task.ofRow r
            { ID := (s.db.preloadUser r).ID, CreatedAt := (s.db.preloadUser r).CreatedAt,
              UpdatedAt := (s.db.preloadUser r).UpdatedAt,
              DeletedAt := (s.db.preloadUser r).DeletedAt,
              Username := (s.db.preloadUser r).Username, Email := (s.db.preloadUser r).Email,
              Password := "", Nickname := (s.db.preloadUser r).Nickname,
              Avatar := (s.db.preloadUser r).Avatar, Phone := (s.db.preloadUser r).Phone,
              Status := (s.db.preloadUser r).Status,
              LastLoginAt := (s.db.preloadUser r).LastLoginAt }
            (s.db.preloadTags r)), some 3600⟩ ∧
        (∃ c, cachedTask (GetTaskByID s f id).2.cache (taskKey id) = some c ∧
          c.toRow = r ∧ c.Tags = s.db.preloadTags r ∧ c.User.ID = (s.db.preloadUser r).ID ∧
          c.User.Username = (s.db.preloadUser r).Username ∧
          c.User.Email = (s.db.preloadUser r).Email ∧ c.User.Password = "" ∧
          ∀ g : GetFaults, g.cacheGet = none →
            (GetTaskByID (GetTaskByID s f id).2 g id).1 = .ok c))) ∧
    (s.cache (taskKey id) = none → f.dbFirst = none →
      (∀ r ∈ s.db.tasks, ¬ (r.ID = id ∧ r.DeletedAt = none)) →
      (GetTaskByID s f id).1 = .error (.taskNotFound id) ∧
      (GetTaskByID s f id).2.db = s.db ∧ (GetTaskByID s f id).2.cache = s.cache) := by
  refine ⟨?_, ?_, ?_⟩
  · intro t ttl hf hc
    have hit : ∀ db', (CacheService.Get { s with db := db' } f.cacheGet (taskKey id)).1 = some t := by
      intro db'
      rw [Get_fst]; simp [hf, cachedTask, hc]
    have one : ∀ s' : State, (CacheService.Get s' f.cacheGet (taskKey id)).1 = some t →
        (GetTaskByID s' f id).1 = .ok t ∧ (GetTaskByID s' f id).2.cache = s'.cache := by
      intro s' h'
      rcases GetTaskByID_cases s' f id with
        ⟨t', h1, h2⟩ | ⟨c, h1, _⟩ | ⟨h1, _⟩ | ⟨t', h1, _⟩
      · rw [h'] at h1; cases h1
        rw [h2]; exact ⟨rfl, by simp⟩
      · rw [h'] at h1; cases h1
      · rw [h'] at h1; cases h1
      · rw [h'] at h1; cases h1
    exact ⟨(one s (hit s.db)).1, fun db' => (one _ (hit db')).1, GetTaskByID_db s f id,
      (one s (hit s.db)).2⟩
  · intro r hc hf hnd hr hid hl
    subst hid
    have hmiss : (CacheService.Get s f.cacheGet (taskKey r.ID)).1 = none := by
      rw [Get_fst]; simp [cachedTask, hc]
    have hrow := firstTask_of_live hnd hr hl
    rcases GetTaskByID_cases s f r.ID with
      ⟨t', h1, _⟩ | ⟨c, _, h1, _⟩ | ⟨_, _, h1, _⟩ | ⟨t', _, _, h1, h2⟩
    · rw [hmiss] at h1; cases h1
    · rw [hf] at h1; cases h1
    · rw [hrow] at h1; cases h1
    · rw [hrow] at h1; cases h1
      refine ⟨by rw [h2], GetTaskByID_db s f r.ID,
        fun key hk => GetTaskByID_cache_other s f r.ID key hk, ?_⟩
      intro hs
      have hcache : (GetTaskByID s f r.ID).2.cache (taskKey r.ID) = some
          ⟨CacheVal.task (marshalTask
            (Task.ofRow r (s.db.preloadUser r) (s.db.preloadTags r))), some 3600⟩ := by
        rw [h2, hs]
        simp [CacheService.Set, Hour]
      refine ⟨hcache, marshalTask (Task.ofRow r (s.db.preloadUser r) (s.db.preloadTags r)),
        by simp [cachedTask, hcache], rfl, rfl, rfl, rfl, rfl, rfl, ?_⟩
      intro g hg
      rcases GetTaskByID_cases (GetTaskByID s f r.ID).2 g r.ID with
        ⟨t', h1, h2'⟩ | ⟨c, h1, _⟩ | ⟨h1, _⟩ | ⟨t', h1, _⟩
      · rw [Get_fst] at h1
        simp only [hg, if_true, cachedTask, hcache, Option.some.injEq] at h1
        rw [h2', ← h1]
      all_goals
        rw [Get_fst] at h1
        simp [hg, cachedTask, hcache] at h1
  · intro hc hf hnone
    have hmiss : (CacheService.Get s f.cacheGet (taskKey id)).1 = none := by
      rw [Get_fst]; simp [cachedTask, hc]
    have hrow := firstTask_of_none hnone
    rcases GetTaskByID_cases s f id with
      ⟨t', h1, _⟩ | ⟨c, _, h1, _⟩ | ⟨_, _, _, h2⟩ | ⟨t', _, _, h1, _⟩
    · rw [hmiss] at h1; cases h1
    · rw [hf] at h1; cases h1
    · rw [h2]; exact ⟨rfl, by simp, by simp⟩
    · rw [hrow] at h1; cases h1

theorem C10_cache_aside_read_witness :
    (GetTaskByID state1 GetFaults.ok 1).1
      = .ok (Task.ofRow row1 { user1 with Password := "" } [tagA, tagB]) ∧
    (GetTaskByID state1Expired GetFaults.ok 1).1 = .ok (Task.ofRow row1 user1 [tagA, tagB]) ∧
    (GetTaskByID state1Expired GetFaults.ok 1).2.cache (taskKey 1)
      = some ⟨CacheVal.task (Task.ofRow row1 { user1 with Password := "" } [tagA, tagB]),
          some 3600⟩ ∧
    (GetTaskByID state0 GetFaults.ok 1).1 = .error (.taskNotFound 1) :=
  ⟨((C10_cache_aside_read state1 GetFaults.ok 1).1
      (Task.ofRow row1 { user1 with Password := "" } [tagA, tagB]) (some 3600) rfl rfl).1,
    ((C10_cache_aside_read state1Expired GetFaults.ok 1).2.1 row1 rfl rfl (by decide) (by decide)
      rfl rfl).1,
    (((C10_cache_aside_read state1Expired GetFaults.ok 1).2.1 row1 rfl rfl (by decide)
      (by decide) rfl rfl).2.2.2 rfl).1,
    ((C10_cache_aside_read state0 GetFaults.ok 1).2.2 rfl rfl (by decide)).1⟩
/-- C11 fails on the `DeleteUser` cascade. From the initial state, with every store
and cache call succeeding, user 1 creates a task (cached under `task:1`) and is then
deleted: the cascade soft-deletes the row of task 1 but, unlike `DeleteTask`, leaves
`task:1` in the cache, and `GetTaskByID(1)` returns the cached task. After
`DeleteTask` in the same state the key is gone and the read fails with the
not-found error. -/
theorem C11_deleted_user_task_still_read :
    Reachable stateUserGone ∧
    stateUserGone.db.tasks.map (fun r => (r.ID, r.DeletedAt)) = [(1, some 20)] ∧
    (GetTaskByID stateUserGone GetFaults.ok 1).1 = .ok (marshalTask task1) ∧
    stateTaskGone.db.tasks.map (fun r => (r.ID, r.DeletedAt)) = [(1, some 20)] ∧
    (GetTaskByID stateTaskGone GetFaults.ok 1).1 = .error (.taskNotFound 1) :=
  ⟨Reachable.deleteUser _ _ _ state1_reachable, by decide, rfl, by decide, rfl⟩

theorem firstUser_of_none {db : DB} {userID : Nat}
    (h : ∀ u ∈ db.users, ¬ (u.ID = userID ∧ u.DeletedAt = none)) :
    db.firstUser userID = none := by
  unfold DB.firstUser
  rw [List.find?_eq_none]
  intro u hu
  simpa using h u hu

/-- C12. When no live row of `users` has the key `userID`, `CreateTask` fails for
every request, with the not-found error whenever the lookup itself does not fail,
and returns the state it was given: store, cache (counters included) and trace are
unchanged. -/
theorem C12_unknown_user_is_rejected (s : State) (f : CreateFaults) (now : Time)
    (userID : Nat) (req : TaskCreateRequest)
    (hu : ∀ u ∈ s.db.users, ¬ (u.ID = userID ∧ u.DeletedAt = none)) :
    (∀ t, (CreateTask s f now userID req).1 ≠ .ok t) ∧
    (f.userFirst = none → (CreateTask s f now userID req).1 = .error (.userNotFound userID)) ∧
    (CreateTask s f now userID req).2 = s := by
  have hnone := firstUser_of_none hu
  unfold CreateTask
  cases hf : f.userFirst with
  | some cause =>
    refine ⟨fun t => by simp, ?_, rfl⟩
    intro h
    cases h
  | none =>
    simp [hnone]

theorem C12_unknown_user_is_rejected_witness :
    (CreateTask state0 CreateFaults.ok 10 7 reqWriteSpec).1 = .error (.userNotFound 7) ∧
    (CreateTask state0 CreateFaults.ok 10 7 reqWriteSpec).2 = state0 :=
  have h := C12_unknown_user_is_rejected state0 CreateFaults.ok 10 7 reqWriteSpec (by decide)
  ⟨h.2.1 rfl, h.2.2⟩

/-- C13, as stated of the service method, fails: `TaskService.CreateTask` checks
neither the title nor the priority. Called by an existing user with an empty title
and the priority 9 it succeeds and stores a row with that title and priority. -/
theorem C13_counterexample :
    reqBad.Title = "" ∧ reqBad.Priority = 9 ∧
    (∃ t, (CreateTask state0 CreateFaults.ok 10 1 reqBad).1 = .ok t ∧
      t.Title = "" ∧ t.Priority = 9) ∧
    (CreateTask state0 CreateFaults.ok 10 1 reqBad).2.db.tasks.map
      (fun r => (r.ID, r.Title, r.Priority)) = [(1, "", 9)] :=
  ⟨rfl, rfl, ⟨Task.ofRow { row1 with Title := "", Priority := 9 } user1 [], rfl, rfl, rfl⟩,
    by decide⟩

theorem validateCreate_rejects (req : TaskCreateRequest)
    (hbad : req.Title = "" ∨ req.Title.length > 200 ∨
      (req.Priority ≠ 1 ∧ req.Priority ≠ 2 ∧ req.Priority ≠ 3 ∧ req.Priority ≠ 4)) :
    validateCreate req ≠ [] := by
  unfold validateCreate
  rcases hbad with h | h | h
  · simp [h]
  · by_cases h0 : req.Title = ""
    · simp [h0]
    · simp [h0, h]
  · have : req.Priority < 1 ∨ req.Priority > 4 := by omega
    rcases this with h1 | h1
    · simp [h1]
    · have h2 : ¬ req.Priority < 1 := by omega
      simp [h1, h2]

/-- C13 amended. For every create request whose title is empty or longer than 200
characters, or whose priority is not one of 1, 2, 3, 4, the `CreateTask` handler
answers 400 from the binding of the request, before it reads the user header and
without calling the service: the state is unchanged and no task is created. The
service method itself performs no such check. -/
theorem C13_invalid_create_request_gets_400 (s : State) (f : CreateFaults) (now : Time)
    (userIDHeader : String) (req : TaskCreateRequest)
    (hbad : req.Title = "" ∨ req.Title.length > 200 ∨
      (req.Priority ≠ 1 ∧ req.Priority ≠ 2 ∧ req.Priority ≠ 3 ∧ req.Priority ≠ 4)) :
    (TaskHandler.CreateTask s f now userIDHeader (.ok req)).1.status = StatusBadRequest ∧
    (TaskHandler.CreateTask s f now userIDHeader (.ok req)).2 = s := by
  have hv := validateCreate_rejects req hbad
  unfold TaskHandler.CreateTask bindJSON
  simp [hv]

theorem C13_invalid_create_request_gets_400_witness :
    (TaskHandler.CreateTask state0 CreateFaults.ok 10 "1" (.ok reqBad)).1.status = 400 ∧
    (TaskHandler.CreateTask state0 CreateFaults.ok 10 "1" (.ok reqBad)).2 = state0 ∧
    (TaskHandler.CreateTask state0 CreateFaults.ok 10 "1" (.ok reqWriteSpec)).1.status = 200 :=
  have h := C13_invalid_create_request_gets_400 state0 CreateFaults.ok 10 "1" reqBad
    (Or.inl rfl)
  ⟨h.1, h.2, by decide⟩

/-- C14, as stated of the service method, fails: `TaskService.UpdateTask` copies the
request's status and priority into the update map without a range check. On the
task of `state1` (status 0, priority 3) the owner's request `{status: 7,
priority: 9}` succeeds and the row is stored with status 7 and priority 9. -/
theorem C14_counterexample :
    state1.db.tasks.map (fun r => (r.ID, r.Status, r.Priority)) = [(1, 0, 3)] ∧
    reqWild.Status = some 7 ∧ reqWild.Priority = some 9 ∧
    (∃ t, (UpdateTask state1 UpdateFaults.ok 20 1 1 reqWild).1 = .ok t ∧
      t.Status = 7 ∧ t.Priority = 9) ∧
    (UpdateTask state1 UpdateFaults.ok 20 1 1 reqWild).2.db.tasks.map
      (fun r => (r.ID, r.Status, r.Priority)) = [(1, 7, 9)] :=
  ⟨by decide, rfl, rfl,
    ⟨{ task1 with Status := 7, Priority := 9, UpdatedAt := 20 }, rfl, rfl, rfl⟩, by decide⟩

theorem validateUpdate_rejects (req : TaskUpdateRequest)
    (hbad : (∃ st, req.Status = some st ∧ ¬ (0 ≤ st ∧ st ≤ 3)) ∨
      (∃ p, req.Priority = some p ∧ ¬ (1 ≤ p ∧ p ≤ 4))) :
    validateUpdate req ≠ [] := by
  intro h
  obtain ⟨h1, h2⟩ := validateUpdate_ok h
  rcases hbad with ⟨st, hst, hn⟩ | ⟨p, hp, hn⟩
  · exact hn (h1 st hst)
  · exact hn (h2 p hp)

/-- C14 amended. The range check is made by the binding of the `UpdateTask` handler,
not by the service method. (1) A request whose status is present and outside
{0, 1, 2, 3}, or whose priority is present and outside {1, 2, 3, 4}, is never
accepted by the handler: it does not answer 200, the state is unchanged, and the
answer is 400 when the task key and the user header parse. (2) Hence, if every task
has its status and priority in range before a call of the handler, every task has
them in range after it. -/
theorem C14_handler_keeps_status_and_priority_in_range (s : State) (f : UpdateFaults)
    (now : Time) (idParam userIDHeader : String) (body : Except String TaskUpdateRequest) :
    (∀ req, body = .ok req →
      ((∃ st, req.Status = some st ∧ ¬ (0 ≤ st ∧ st ≤ 3)) ∨
        (∃ p, req.Priority = some p ∧ ¬ (1 ≤ p ∧ p ≤ 4))) →
      (TaskHandler.UpdateTask s f now idParam userIDHeader body).2 = s ∧
      (TaskHandler.UpdateTask s f now idParam userIDHeader body).1.status ≠ StatusOK ∧
      (∀ id userID, parseUint idParam = some id → parseUint userIDHeader = some userID →
        userIDHeader ≠ "" →
        (TaskHandler.UpdateTask s f now idParam userIDHeader body).1.status
          = StatusBadRequest)) ∧
    (InRange s.db → InRange (TaskHandler.UpdateTask s f now idParam userIDHeader body).2.db) := by
  constructor
  · intro req hb hbad
    have hv := validateUpdate_rejects req hbad
    rcases handler_update_cases s f now idParam userIDHeader body with
      ⟨h1, h2⟩ | ⟨id, userID, req', _, _, hb', hv', _⟩
    · refine ⟨h1, h2, ?_⟩
      intro id userID hid hu hne
      unfold TaskHandler.UpdateTask
      simp [hid, hu, hne, hb, bindJSON, hv]
    · rw [hb] at hb'
      cases hb'
      exact absurd hv' hv
  · intro hr
    rcases handler_update_cases s f now idParam userIDHeader body with
      ⟨h1, _⟩ | ⟨id, userID, req, _, _, _, hv, hs⟩
    · rw [h1]; exact hr
    · rw [hs]
      obtain ⟨v1, v2⟩ := validateUpdate_ok hv
      rcases UpdateTask_tasks s f now id userID req with h | ⟨task, _, _, h⟩
      · intro r hrm
        rw [h] at hrm
        exact hr r hrm
      · intro r' hrm
        rw [h] at hrm
        obtain ⟨r, hr0, h' | h'⟩ := mem_updates hrm
        · rw [h']; exact hr r hr0
        · have hold := hr r hr0
          rw [h']
          have e1 : ((buildUpdates task now req).apply now r).Status
              = req.Status.getD r.Status := rfl
          have e2 : ((buildUpdates task now req).apply now r).Priority
              = req.Priority.getD r.Priority := rfl
          rw [e1, e2]
          constructor
          · cases hst : req.Status with
            | none => exact hold.1
            | some st => exact v1 st hst
          · cases hp : req.Priority with
            | none => exact hold.2
            | some p => exact v2 p hp

theorem C14_handler_keeps_status_and_priority_in_range_witness :
    (TaskHandler.UpdateTask state1 UpdateFaults.ok 20 "1" "1" (.ok reqWild)).1.status = 400 ∧
    (TaskHandler.UpdateTask state1 UpdateFaults.ok 20 "1" "1" (.ok reqWild)).2 = state1 ∧
    (TaskHandler.UpdateTask state1 UpdateFaults.ok 20 "1" "1" (.ok reqComplete)).1.status
      = 200 ∧
    InRange (TaskHandler.UpdateTask state1 UpdateFaults.ok 20 "1" "1" (.ok reqComplete)).2.db :=
  have h := C14_handler_keeps_status_and_priority_in_range state1 UpdateFaults.ok 20 "1" "1"
    (.ok reqWild)
  have hbad := h.1 reqWild rfl (Or.inl ⟨7, rfl, by decide⟩)
  ⟨hbad.2.2 1 1 rfl rfl (by decide), hbad.1, by decide,
    (C14_handler_keeps_status_and_priority_in_range state1 UpdateFaults.ok 20 "1" "1"
      (.ok reqComplete)).2 (by unfold InRange; decide)⟩

theorem owners_updates (db : DB) (now : Time) (taskID : Nat) (u : Updates) :
    (db.updates now taskID u).tasks.map (fun r => (r.ID, r.UserID))
      = db.tasks.map (fun r => (r.ID, r.UserID)) := by
  unfold DB.updates
  simp only [List.map_map]
  apply List.map_congr_left
  intro r _
  simp only [Function.comp]
  split <;> rfl

/-- C15. The update map has no `user_id` entry: applying any update map to a row
keeps its `UserID`, and after `UpdateTask`, whatever the request, the acting user
and the outcome, every task of the store has the `UserID` it had before. -/
theorem C15_update_keeps_owner (s : State) (f : UpdateFaults) (now : Time) (id userID : Nat)
    (req : TaskUpdateRequest) :
    (∀ (u : Updates) (r : TaskRow), (u.apply now r).UserID = r.UserID) ∧
    (UpdateTask s f now id userID req).2.db.tasks.map (fun r => (r.ID, r.UserID))
      = s.db.tasks.map (fun r => (r.ID, r.UserID)) := by
  refine ⟨fun _ _ => rfl, ?_⟩
  rcases UpdateTask_tasks s f now id userID req with h | ⟨task, _, _, h⟩
  · rw [h]
  · rw [h]
    exact owners_updates _ _ _ _

/-- C16. The update map takes `title`, `description`, `status`, `priority` and
`due_date` from the request, entry for entry (absent field, absent entry); it has a
`start_time` only when the request has one, or when the request has none, asks for
InProgress and the fetched task has no `StartTime`, and then it is `now`; likewise
`end_time` with Completed. With every field absent the map is empty, and
`UpdateTask` then leaves title, description, status, priority, start_time, end_time
and due_date of every task unchanged. -/
theorem C16_update_set_is_sparse (s : State) (f : UpdateFaults) (now : Time) (id userID : Nat)
    (task : Task) (req : TaskUpdateRequest) :
    ((buildUpdates task now req).title = req.Title ∧
      (buildUpdates task now req).description = req.Description ∧
      (buildUpdates task now req).status = req.Status ∧
      (buildUpdates task now req).priority = req.Priority ∧
      (buildUpdates task now req).due_date = req.DueDate) ∧
    (∀ t, (buildUpdates task now req).start_time = some t →
      req.StartTime = some t ∨
      (req.StartTime = none ∧ req.Status = some TaskStatusInProgress ∧
        task.StartTime = none ∧ t = now)) ∧
    (∀ t, (buildUpdates task now req).end_time = some t →
      req.EndTime = some t ∨
      (req.EndTime = none ∧ req.Status = some TaskStatusCompleted ∧
        task.EndTime = none ∧ t = now)) ∧
    buildUpdates task now TaskUpdateRequest.empty = ⟨none, none, none, none, none, none, none⟩ ∧
    (UpdateTask s f now id userID TaskUpdateRequest.empty).2.db.tasks.map
        (fun r => (r.ID, r.Title, r.Description, r.Status, r.Priority, r.StartTime, r.EndTime,
          r.DueDate))
      = s.db.tasks.map
        (fun r => (r.ID, r.Title, r.Description, r.Status, r.Priority, r.StartTime, r.EndTime,
          r.DueDate)) := by
  refine ⟨⟨rfl, rfl, rfl, rfl, rfl⟩, ?_, ?_, rfl, ?_⟩
  · intro t ht
    unfold buildUpdates at ht
    simp only at ht
    cases hs : req.StartTime with
    | some t' => rw [hs] at ht; simp only at ht; exact Or.inl ht
    | none =>
      right
      rw [hs] at ht
      simp only at ht
      cases hst : req.Status with
      | none => rw [hst] at ht; simp at ht
      | some st =>
        rw [hst] at ht
        simp only at ht
        simp only [TaskStatusInProgress, TaskStatusCompleted] at ht ⊢
        by_cases h1 : st = 1
        · subst h1
          by_cases h2 : task.StartTime = none
          · simp [h2] at ht
            refine ⟨?_, ?_, h2, ht.symm⟩ <;> first | rfl | trivial
          · simp [h2] at ht
        · by_cases h3 : st = 2
          · subst h3; simp at ht
          · simp [h1, h3] at ht
  · intro t ht
    unfold buildUpdates at ht
    simp only at ht
    cases hs : req.EndTime with
    | some t' => rw [hs] at ht; simp only at ht; exact Or.inl ht
    | none =>
      right
      rw [hs] at ht
      simp only at ht
      cases hst : req.Status with
      | none => rw [hst] at ht; simp at ht
      | some st =>
        rw [hst] at ht
        simp only at ht
        simp only [TaskStatusInProgress, TaskStatusCompleted] at ht ⊢
        by_cases h1 : st = 1
        · subst h1; simp at ht
        · by_cases h3 : st = 2
          · subst h3
            by_cases h2 : task.EndTime = none
            · simp [h2] at ht
              refine ⟨?_, ?_, h2, ht.symm⟩ <;> first | rfl | trivial
            · simp [h2] at ht
          · simp [h1, h3] at ht
  · rcases UpdateTask_tasks s f now id userID TaskUpdateRequest.empty with h | ⟨t, _, _, h⟩
    · rw [h]
    · rw [h]
      unfold DB.updates
      simp only [List.map_map]
      apply List.map_congr_left
      intro r _
      simp only [Function.comp]
      split <;> rfl

/-- C17, as stated, fails. In `stateStale` the row of task 1 has status InProgress
while the document cached under `task:1` still has status Pending (the deletion of
the key failed in the update before). The owner's request with status InProgress,
equal to the stored status, succeeds with every call succeeding, yet `oldStatus` is
read from the cached document: the pending counter goes from 0 to -1 and the
in_progress counter from 1 to 2. -/
theorem C17_counterexample :
    Reachable stateStale ∧
    stateStale.db.tasks.map (fun r => (r.ID, r.Status)) = [(1, TaskStatusInProgress)] ∧
    reqStart.Status = some TaskStatusInProgress ∧
    (∃ t, (UpdateTask stateStale UpdateFaults.ok 30 1 1 reqStart).1 = .ok t) ∧
    readCounter stateStale.cache (countKey 1 "pending") = 0 ∧
    readCounter stateStale.cache (countKey 1 "in_progress") = 1 ∧
    readCounter stateStaleAgain.cache (countKey 1 "pending") = -1 ∧
    readCounter stateStaleAgain.cache (countKey 1 "in_progress") = 2 :=
  ⟨Reachable.update _ _ _ _ _ state1_reachable, by decide, rfl,
    ⟨{ task1 with Status := 1, StartTime := some 30, UpdatedAt := 30 }, rfl⟩,
    by decide, by decide, by decide, by decide⟩

/-- C17 amended. For every successful `UpdateTask` by user `u` whose cache calls
succeed, with `o` the status of the task as fetched (the document cached under
`task:<id>` if there is one, else the live row): if the request's status is present
and equals `n` with `n ≠ o`, the counter of `(u, o)` loses exactly 1, the counter of
`(u, n)` gains exactly 1 (each for a status that has a counter name) and every other
counter stays; if the status is absent or equals `o`, every counter stays. -/
theorem C17_counters_follow_the_fetched_status (s : State) (f : UpdateFaults) (now : Time)
    (id userID : Nat) (req : TaskUpdateRequest) (t : Task)
    (hok : (UpdateTask s f now id userID req).1 = .ok t) (hf : f.cacheOk) :
    ∃ task, (GetTaskByID s f.get id).1 = .ok task ∧
      (cachedTask s.cache (taskKey id) = none →
        ∃ r ∈ s.db.tasks, r.ID = id ∧ r.DeletedAt = none ∧ r.Status = task.Status) ∧
      (∀ n, req.Status = some n → n ≠ task.Status →
        (∀ name c, statusKey task.Status = some name →
          HoldsCount s.cache (countKey userID name) c →
          HoldsCount (UpdateTask s f now id userID req).2.cache (countKey userID name) (c - 1)) ∧
        (∀ name c, statusKey n = some name →
          HoldsCount s.cache (countKey userID name) c →
          HoldsCount (UpdateTask s f now id userID req).2.cache (countKey userID name) (c + 1)) ∧
        (∀ u st name c, statusKey st = some name →
          ¬ (u = userID ∧ st = task.Status) → ¬ (u = userID ∧ st = n) →
          HoldsCount s.cache (countKey u name) c →
          HoldsCount (UpdateTask s f now id userID req).2.cache (countKey u name) c)) ∧
      ((req.Status = none ∨ req.Status = some task.Status) →
        ∀ u st name c, statusKey st = some name →
          HoldsCount s.cache (countKey u name) c →
          HoldsCount (UpdateTask s f now id userID req).2.cache (countKey u name) c) := by
  obtain ⟨task, hg, hcount⟩ := UpdateTask_counts hok hf
  refine ⟨task, hg, fun hc => fetch_miss_status hc hg, ?_, ?_⟩
  · intro n hn hne
    refine ⟨?_, ?_, ?_⟩
    · intro name c hname hc
      have := hcount userID task.Status name c hname hc
      rw [hn] at this
      simp only [Option.getD_some, true_and, if_true, hne, if_false] at this
      exact this.value (by omega)
    · intro name c hname hc
      have := hcount userID n name c hname hc
      rw [hn] at this
      simp only [Option.getD_some, true_and, if_true, Ne.symm hne, if_false] at this
      exact this.value (by omega)
    · intro u st name c hname h1 h2 hc
      have := hcount u st name c hname hc
      rw [hn] at this
      have e1 : ¬ (userID = u ∧ task.Status = st) := fun h => h1 ⟨h.1.symm, h.2.symm⟩
      have e2 : ¬ (userID = u ∧ n = st) := fun h => h2 ⟨h.1.symm, h.2.symm⟩
      simp only [Option.getD_some, e1, e2, if_false] at this
      exact this.value (by omega)
  · intro hsame u st name c hname hc
    have := hcount u st name c hname hc
    have e : req.Status.getD task.Status = task.Status := by
      rcases hsame with h | h <;> rw [h] <;> rfl
    rw [e] at this
    exact this.value (by omega)

theorem C17_counters_follow_the_fetched_status_witness :
    (UpdateTask state1 UpdateFaults.ok 20 1 1 reqComplete).1 = .ok task1Done ∧
    readCounter state1.cache (countKey 1 "pending") = 1 ∧
    readCounter state1.cache (countKey 1 "completed") = 0 ∧
    readCounter state2.cache (countKey 1 "pending") = 0 ∧
    readCounter state2.cache (countKey 1 "completed") = 1 ∧
    ∃ task, (GetTaskByID state1 GetFaults.ok 1).1 = .ok task :=
  have h := C17_counters_follow_the_fetched_status state1 UpdateFaults.ok 20 1 1 reqComplete
    task1Done rfl ⟨⟨rfl, rfl⟩, rfl, rfl, rfl, rfl, rfl, rfl⟩
  ⟨rfl, by decide, by decide, by decide, by decide, h.elim (fun task ht => ⟨task, ht.1⟩)⟩

/-- C18, evaluated on the code. The claim says the handlers answer 404 for a missing
task; the code answers 500. No error of the service carries the text "任务不存在" the
handlers compare with (the service says "任务不存在: ID=<id>"), so whenever the path
and the header parse, the body binds, nothing is cached under `task:<id>`, no live
row has this ID and the store read does not fail, `GetTask`, `UpdateTask` and
`DeleteTask` each answer 500 with the service's message. -/
theorem C18_missing_task_gets_500 (s : State) (fg : GetFaults) (fu : UpdateFaults)
    (fd : DeleteFaults) (now : Time) (idParam userIDHeader : String) (id userID : Nat)
    (req : TaskUpdateRequest)
    (hid : parseUint idParam = some id) (hne : userIDHeader ≠ "")
    (hu : parseUint userIDHeader = some userID) (hv : validateUpdate req = [])
    (hc : s.cache (taskKey id) = none)
    (hrow : ∀ r ∈ s.db.tasks, ¬ (r.ID = id ∧ r.DeletedAt = none))
    (hg : fg.dbFirst = none) (hgu : fu.get.dbFirst = none) (hgd : fd.get.dbFirst = none) :
    (∀ e : Err, e.Error ≠ "任务不存在") ∧
    (GetTaskByID s fg id).1 = .error (.taskNotFound id) ∧
    (TaskHandler.GetTask s fg idParam).1.status = StatusInternalServerError ∧
    (TaskHandler.GetTask s fg idParam).1.body.Message = "任务不存在: ID=" ++ toString id ∧
    (TaskHandler.UpdateTask s fu now idParam userIDHeader (.ok req)).1.status
      = StatusInternalServerError ∧
    (TaskHandler.UpdateTask s fu now idParam userIDHeader (.ok req)).1.body.Message
      = "任务不存在: ID=" ++ toString id ∧
    (TaskHandler.DeleteTask s fd now idParam userIDHeader).1.status
      = StatusInternalServerError ∧
    (TaskHandler.DeleteTask s fd now idParam userIDHeader).1.body.Message
      = "任务不存在: ID=" ++ toString id := by
  have h1 := GetTaskByID_missing hc hg hrow
  have h2 : (UpdateTask s fu now id userID req).1 = .error (.taskNotFound id) := by
    have hm := GetTaskByID_missing hc hgu hrow
    rcases UpdateTask_cases s fu now id userID req with
      ⟨e, he, hr⟩ | ⟨task, he, _⟩ | ⟨task, _, _, he, _⟩ |
      ⟨task, _, _, he, _⟩ | ⟨task, _, _, he, _⟩
    · rw [hr]
      have he2 := he.symm.trans hm
      injection he2 with he2
      rw [he2]
    all_goals (rw [hm] at he; cases he)
  have h3 : (DeleteTask s fd now id userID).1 = .error (.taskNotFound id) := by
    have hm := GetTaskByID_missing hc hgd hrow
    rcases DeleteTask_cases s fd now id userID with
      ⟨e, he, hr⟩ | ⟨task, he, _⟩ | ⟨task, _, _, he, _⟩ | ⟨task, he, _⟩
    · rw [hr]
      have he2 := he.symm.trans hm
      injection he2 with he2
      rw [he2]
    all_goals (rw [hm] at he; cases he)
  have hp1 : ¬ (Err.taskNotFound id).Error = "没有权限修改此任务" := by
    intro h
    have := congrArg String.data h
    simp [Err.Error, String.data_append] at this
  have hp2 : ¬ (Err.taskNotFound id).Error = "没有权限删除此任务" := by
    intro h
    have := congrArg String.data h
    simp [Err.Error, String.data_append] at this
  have a := handler_get_error hid h1
  have b := handler_update_error hid hne hu hv h2
  have c := handler_delete_error hid hne hu h3
  rw [if_neg hp1] at b
  rw [if_neg hp2] at c
  exact ⟨Error_ne_notFoundText, h1, a.1, a.2, b.1, b.2.1, c.1, c.2.1⟩

theorem C18_missing_task_gets_500_witness :
    (TaskHandler.GetTask state1 GetFaults.ok "2").1.status = 500 ∧
    (TaskHandler.UpdateTask state1 UpdateFaults.ok 20 "2" "1"
      (.ok TaskUpdateRequest.empty)).1.status = 500 ∧
    (TaskHandler.DeleteTask state1 DeleteFaults.ok 20 "2" "1").1.status = 500 :=
  have h := C18_missing_task_gets_500 state1 GetFaults.ok UpdateFaults.ok DeleteFaults.ok 20
    "2" "1" 2 1 TaskUpdateRequest.empty (by decide) (by decide) (by decide) (by decide) rfl
    (by decide) rfl rfl rfl
  ⟨h.2.2.1, h.2.2.2.2.1, h.2.2.2.2.2.2.1⟩

/-- C19. In every reachable state, for a live task `T` and an acting user `B` who is
not its owner: when the path names `T`, the header names `B`, the body binds and the
store read of the fetch does not fail, the `UpdateTask` and `DeleteTask` handlers
answer 403 with the permission message of the service (the texts the handlers
compare with are exactly the texts the service returns) and leave the relational
state as it was. -/
theorem C19_foreign_user_gets_403 (s : State) (hs : Reachable s) (T : TaskRow)
    (hT : T ∈ s.db.tasks) (hl : T.DeletedAt = none) (B : Nat) (hB : B ≠ T.UserID)
    (fu : UpdateFaults) (fd : DeleteFaults) (now : Time) (idParam userIDHeader : String)
    (req : TaskUpdateRequest)
    (hid : parseUint idParam = some T.ID) (hne : userIDHeader ≠ "")
    (hu : parseUint userIDHeader = some B) (hv : validateUpdate req = [])
    (hgu : fu.get.dbFirst = none) (hgd : fd.get.dbFirst = none) :
    ((TaskHandler.UpdateTask s fu now idParam userIDHeader (.ok req)).1.status
        = StatusForbidden ∧
      (TaskHandler.UpdateTask s fu now idParam userIDHeader (.ok req)).1.body.Message
        = "没有权限修改此任务" ∧
      (TaskHandler.UpdateTask s fu now idParam userIDHeader (.ok req)).2.db = s.db) ∧
    ((TaskHandler.DeleteTask s fd now idParam userIDHeader).1.status = StatusForbidden ∧
      (TaskHandler.DeleteTask s fd now idParam userIDHeader).1.body.Message
        = "没有权限删除此任务" ∧
      (TaskHandler.DeleteTask s fd now idParam userIDHeader).2.db = s.db) := by
  have hc := hs.coherent
  have h1 := UpdateTask_denied hc hT hl hB fu hgu now req
  have h2 := DeleteTask_denied hc hT hl hB fd hgd now
  have a := handler_update_error hid hne hu hv h1.1
  have b := handler_delete_error hid hne hu h2.1
  refine ⟨⟨?_, ?_, ?_⟩, ⟨?_, ?_, ?_⟩⟩
  · rw [a.1]; rfl
  · rw [a.2.1]; rfl
  · rw [a.2.2]; exact h1.2
  · rw [b.1]; rfl
  · rw [b.2.1]; rfl
  · rw [b.2.2]; exact h2.2

theorem C19_foreign_user_gets_403_witness :
    (TaskHandler.UpdateTask state1 UpdateFaults.ok 20 "1" "2"
      (.ok TaskUpdateRequest.empty)).1.status = 403 ∧
    (TaskHandler.DeleteTask state1 DeleteFaults.ok 20 "1" "2").1.status = 403 :=
  have h := C19_foreign_user_gets_403 state1 state1_reachable row1 (by decide) rfl 2
    (by decide) UpdateFaults.ok DeleteFaults.ok 20 "1" "2" TaskUpdateRequest.empty
    (by decide) (by decide) (by decide) (by decide) rfl rfl
  ⟨h.1.1, h.2.1⟩

/-- C20. For every `CreateTask` call whose user lookup finds the user and whose
transaction commits (the insert, the tag step and the commit do not fail), whatever
the outcomes `cs`, `cd`, `st` of the three cache steps (writing `task:<id>`, deleting
`user_tasks:<userID>`, incrementing the Pending counter): the call returns success
with the created task, whose row is the one row the store gained, and the returned
task and the relational state are the same as with every other outcome of those
steps. -/
theorem C20_create_survives_cache_failures (s : State) (f : CreateFaults) (now : Time)
    (userID : Nat) (req : TaskCreateRequest) (u : User) (tx2 : DB) (task2 : Task)
    (hq : f.userFirst = none) (hu : s.db.firstUser userID = some u) (hc : f.create = none)
    (hl : linkTags (s.db.create now (newTask userID req)).1
      (s.db.create now (newTask userID req)).2 f req.TagIDs = .ok (tx2, task2))
    (hm : f.commit = none) (cs cd : Fault) (st : StatFaults) :
    (CreateTask s { f with cacheSet := cs, cacheDelete := cd, stats := st } now userID req).1
      = .ok (reloadCreated tx2 f.reload task2) ∧
    (CreateTask s { f with cacheSet := cs, cacheDelete := cd, stats := st } now userID req).2.db
      = tx2 ∧
    tx2.tasks = s.db.tasks ++ [(reloadCreated tx2 f.reload task2).toRow] ∧
    (CreateTask s { f with cacheSet := cs, cacheDelete := cd, stats := st } now userID req).1
      = (CreateTask s f now userID req).1 ∧
    (CreateTask s { f with cacheSet := cs, cacheDelete := cd, stats := st } now userID req).2.db
      = (CreateTask s f now userID req).2.db := by
  have hl' : linkTags (s.db.create now (newTask userID req)).1
      (s.db.create now (newTask userID req)).2
      { f with cacheSet := cs, cacheDelete := cd, stats := st } req.TagIDs
      = .ok (tx2, task2) := by
    rw [← hl]; rfl
  have key : ∀ g : CreateFaults, g.userFirst = none → g.create = none → g.commit = none →
      g.reload = f.reload →
      linkTags (s.db.create now (newTask userID req)).1
        (s.db.create now (newTask userID req)).2 g req.TagIDs = .ok (tx2, task2) →
      (CreateTask s g now userID req).1 = .ok (reloadCreated tx2 f.reload task2) ∧
      (CreateTask s g now userID req).2.db = tx2 := by
    intro g g1 g2 g3 g4 g5
    rcases CreateTask_cases s g now userID req with
      ⟨e, s', hr, _, _⟩ | ⟨u', tx', task', _, _, _, _, hl2, hr⟩
    · exfalso
      unfold CreateTask at hr
      simp only [g1, hu, g2, beginTx_db, g5, g3] at hr
      cases hr
    · rw [g5] at hl2
      cases hl2
      rw [hr, g4]
      exact ⟨rfl, by simp⟩
  have a := key { f with cacheSet := cs, cacheDelete := cd, stats := st } hq hc hm rfl hl'
  have b := key f hq hc hm rfl hl
  obtain ⟨ht, _, _, hrow⟩ := linkTags_ok hl
  rw [create_fst_tasks] at ht
  have hrel := reloadCreated_row f.reload ht hrow (create_snd s.db now userID req).1
  refine ⟨a.1, a.2, ?_, a.1.trans b.1.symm, a.2.trans b.2.symm⟩
  rw [hrel]; exact ht

theorem C20_create_survives_cache_failures_witness :
    (CreateTask state0 CreateFaults.cacheDown 10 1 reqWriteSpec).1 = .ok task1 ∧
    (CreateTask state0 CreateFaults.cacheDown 10 1 reqWriteSpec).2.db = state1.db ∧
    (CreateTask state0 CreateFaults.cacheDown 10 1 reqWriteSpec).2.cache (taskKey 1) = none :=
  have h := C20_create_survives_cache_failures state0 CreateFaults.ok 10 1 reqWriteSpec user1
    state1.db { task1 with User := User.zero } rfl rfl rfl rfl rfl (some "connection refused") (some "connection refused")
    ⟨some "connection refused", some "connection refused"⟩
  ⟨h.1, h.2.1, rfl⟩

/-- C21, as stated, fails for `UpdateTask` and `DeleteTask`, whose first step is the
cache-aside fetch. In `state1Expired` (task 1 stored, nothing cached) the owner's
update whose `Updates` statement fails writes `task:1` to the cache, then begins and
rolls back the transaction: a run whose transaction fails has performed a cache
mutation. With every call succeeding the same write precedes the commit. -/
theorem C21_counterexample :
    (UpdateTask state1Expired UpdateFaults.updatesDown 20 1 1 reqComplete).1
      = .error (.updateTaskFailed "deadlock") ∧
    eventsSince state1Expired
        (UpdateTask state1Expired UpdateFaults.updatesDown 20 1 1 reqComplete).2
      = [Event.cacheGet "task:1", Event.cacheSet "task:1" true, Event.txBegin,
          Event.txRollback] ∧
    eventsSince state1Expired (UpdateTask state1Expired UpdateFaults.ok 20 1 1 reqComplete).2
      = [Event.cacheGet "task:1", Event.cacheSet "task:1" true, Event.txBegin,
          Event.txCommit true, Event.cacheDelete "task:1" true,
          Event.cacheDelete "user_tasks:1" true,
          Event.cacheDecrBy "task_count:1:pending" true,
          Event.cacheExpire "task_count:1:pending" true,
          Event.cacheIncrBy "task_count:1:completed" true,
          Event.cacheExpire "task_count:1:completed" true] ∧
    commitsFirst (eventsSince state1Expired
      (UpdateTask state1Expired UpdateFaults.ok 20 1 1 reqComplete).2) = false :=
  ⟨rfl, by decide, by decide, by decide⟩

/-- C21 amended. (1) In every run of `CreateTask` no cache or counter mutation is
attempted before the transaction has committed, and a run that fails attempts none.
(2) Every run of `UpdateTask` and of `DeleteTask` starts with the fetch of the task,
before the transaction begins: the cache read of `task:<id>` and, when that misses
and the store has the row, the cache write of `task:<id>`. In the rest of the run no
mutation is attempted before the transaction has committed, and a run that fails
attempts none there: the write of the fetch is the only mutation that can precede
the commit. (3) In every run of the three methods no cache call, read or write, is
made while the transaction is open. -/
theorem C21_mutations_follow_the_commit (s : State) (fc : CreateFaults) (fu : UpdateFaults)
    (fd : DeleteFaults) (now : Time) (id userID : Nat) (creq : TaskCreateRequest)
    (ureq : TaskUpdateRequest) :
    (commitsFirst (eventsSince s (CreateTask s fc now userID creq).2) = true ∧
      (∀ e, (CreateTask s fc now userID creq).1 = .error e →
        ∀ ev ∈ eventsSince s (CreateTask s fc now userID creq).2, ev.isMutation = false)) ∧
    ((eventsSince s (GetTaskByID s fu.get id).2 = [Event.cacheGet (taskKey id)] ∨
        ∃ b, eventsSince s (GetTaskByID s fu.get id).2
          = [Event.cacheGet (taskKey id), Event.cacheSet (taskKey id) b]) ∧
      (UpdateTask s fu now id userID ureq).2.trace = (GetTaskByID s fu.get id).2.trace ++
        eventsSince (GetTaskByID s fu.get id).2 (UpdateTask s fu now id userID ureq).2 ∧
      commitsFirst (eventsSince (GetTaskByID s fu.get id).2
        (UpdateTask s fu now id userID ureq).2) = true ∧
      (∀ e, (UpdateTask s fu now id userID ureq).1 = .error e →
        ∀ ev ∈ eventsSince (GetTaskByID s fu.get id).2 (UpdateTask s fu now id userID ureq).2,
          ev.isMutation = false)) ∧
    ((eventsSince s (GetTaskByID s fd.get id).2 = [Event.cacheGet (taskKey id)] ∨
        ∃ b, eventsSince s (GetTaskByID s fd.get id).2
          = [Event.cacheGet (taskKey id), Event.cacheSet (taskKey id) b]) ∧
      (DeleteTask s fd now id userID).2.trace = (GetTaskByID s fd.get id).2.trace ++
        eventsSince (GetTaskByID s fd.get id).2 (DeleteTask s fd now id userID).2 ∧
      commitsFirst (eventsSince (GetTaskByID s fd.get id).2
        (DeleteTask s fd now id userID).2) = true ∧
      (∀ e, (DeleteTask s fd now id userID).1 = .error e →
        ∀ ev ∈ eventsSince (GetTaskByID s fd.get id).2 (DeleteTask s fd now id userID).2,
          ev.isMutation = false)) ∧
    (cacheCallsOutsideTx false (eventsSince s (CreateTask s fc now userID creq).2) = true ∧
      cacheCallsOutsideTx false (eventsSince s (UpdateTask s fu now id userID ureq).2) = true ∧
      cacheCallsOutsideTx false (eventsSince s (DeleteTask s fd now id userID).2) = true) := by
  have fetch : ∀ g : GetFaults,
      eventsSince s (GetTaskByID s g id).2 = [Event.cacheGet (taskKey id)] ∨
      ∃ b, eventsSince s (GetTaskByID s g id).2
        = [Event.cacheGet (taskKey id), Event.cacheSet (taskKey id) b] := by
    intro g
    rcases GetTaskByID_trace s g id with h | ⟨b, h⟩
    · exact Or.inl (eventsSince_append h)
    · exact Or.inr ⟨b, eventsSince_append h⟩
  have whole : ∀ (g : GetFaults) (s' : State) (run : List Event),
      s'.trace = (GetTaskByID s g id).2.trace ++ run → cacheCallsOutsideTx false run = true →
      cacheCallsOutsideTx false (eventsSince s s') = true := by
    intro g s' run h1 h4
    rcases GetTaskByID_trace s g id with h | ⟨b, h⟩
    · rw [h, List.append_assoc] at h1
      rw [eventsSince_append h1]
      simpa [cacheCallsOutsideTx, Event.isCacheCall] using h4
    · rw [h, List.append_assoc] at h1
      rw [eventsSince_append h1]
      simpa [cacheCallsOutsideTx, Event.isCacheCall] using h4
  refine ⟨?_, ⟨fetch fu.get, ?_⟩, ⟨fetch fd.get, ?_⟩, ?_, ?_, ?_⟩
  · obtain ⟨run, h1, h2, h3, _⟩ := CreateTask_run s fc now userID creq
    rw [eventsSince_append h1]
    exact ⟨h2, h3⟩
  · obtain ⟨run, h1, h2, h3, _⟩ := UpdateTask_run s fu now id userID ureq
    rw [eventsSince_append h1]
    exact ⟨h1, h2, h3⟩
  · obtain ⟨run, h1, h2, h3, _⟩ := DeleteTask_run s fd now id userID
    rw [eventsSince_append h1]
    exact ⟨h1, h2, h3⟩
  · obtain ⟨run, h1, _, _, h4⟩ := CreateTask_run s fc now userID creq
    rw [eventsSince_append h1]
    exact h4
  · obtain ⟨run, h1, _, _, h4⟩ := UpdateTask_run s fu now id userID ureq
    exact whole fu.get _ run h1 h4
  · obtain ⟨run, h1, _, _, h4⟩ := DeleteTask_run s fd now id userID
    exact whole fd.get _ run h1 h4

theorem C21_mutations_follow_the_commit_witness :
    (∀ ev ∈ eventsSince state0 (CreateTask state0 CreateFaults.tagLookup 10 1 reqWriteSpec).2,
      ev.isMutation = false) ∧
    commitsFirst (eventsSince (GetTaskByID state1Expired GetFaults.ok 1).2
      (UpdateTask state1Expired UpdateFaults.ok 20 1 1 reqComplete).2) = true ∧
    (∀ ev ∈ eventsSince (GetTaskByID state1Expired GetFaults.ok 1).2
        (UpdateTask state1Expired UpdateFaults.updatesDown 20 1 1 reqComplete).2,
      ev.isMutation = false) :=
  ⟨(C21_mutations_follow_the_commit state0 CreateFaults.tagLookup UpdateFaults.ok
      DeleteFaults.ok 10 1 1 reqWriteSpec reqComplete).1.2 (.queryTagsFailed "connection refused")
      rfl,
    (C21_mutations_follow_the_commit state1Expired CreateFaults.ok UpdateFaults.ok
      DeleteFaults.ok 20 1 1 reqWriteSpec reqComplete).2.1.2.2.1,
    (C21_mutations_follow_the_commit state1Expired CreateFaults.ok UpdateFaults.updatesDown
      DeleteFaults.ok 20 1 1 reqWriteSpec reqComplete).2.1.2.2.2 (.updateTaskFailed "deadlock")
      rfl⟩

/-- C22. After `GetUserTaskStats(u)` succeeds with its cache writes succeeding, for
each status `st` with a counter name `name` (pending, in_progress, completed,
cancelled): the key `task_count:<u>:<name>` holds the number of live tasks of `u` in
status `st`, with a time to live of 24 hours; the result has the same number under
`name`; the store is unchanged; and this is the key `updateTaskStats` moves for `u`
and `st`: after `updateTaskStats` with delta `d` the key stands at that number plus
`d`. -/
theorem C22_stats_refresh_the_counters (s : State) (f : StatsFaults) (now : Time) (u : Nat)
    (stats : Stats) (hok : (GetUserTaskStats s f now u).1 = .ok stats)
    (hset : ∀ st, f.cacheSet st = none) (st : Int) (name : String)
    (hname : statusKey st = some name) :
    name ∈ ["pending", "in_progress", "completed", "cancelled"] ∧
    (GetUserTaskStats s f now u).2.db = s.db ∧
    (GetUserTaskStats s f now u).2.cache (countKey u name)
      = some ⟨CacheVal.count (s.db.countTasks u st), some (Hour * 24)⟩ ∧
    readCounter (GetUserTaskStats s f now u).2.cache (countKey u name)
      = s.db.countTasks u st ∧
    stats name = some (s.db.countTasks u st : Int) ∧
    (∀ (g : StatFaults) (d : Int), g.incr = none →
      HoldsCount (updateTaskStats (GetUserTaskStats s f now u).2 g u st d).cache
        (countKey u name) (s.db.countTasks u st + d)) := by
  obtain ⟨hmem, hnames⟩ := statusKey_some hname
  obtain ⟨stats0, hloop, hstate, hstats⟩ := GetUserTaskStats_ok hok
  have hfr := statsLoop_frame f u statusList
    (CacheService.HGetAll s f.hgetall (BuildCacheKey TaskCountPrefix u)) (fun _ => none)
  have hc := statsLoop_counts f u hset statusList
    (CacheService.HGetAll s f.hgetall (BuildCacheKey TaskCountPrefix u)) (fun _ => none)
    stats0 (by decide) hloop st hmem
  rw [hname] at hc
  simp only [Option.getD_some] at hc
  have hdb : (CacheService.HGetAll s f.hgetall (BuildCacheKey TaskCountPrefix u)).db = s.db :=
    rfl
  rw [hdb] at hc
  have hcache : (GetUserTaskStats s f now u).2.cache (countKey u name)
      = some ⟨CacheVal.count (s.db.countTasks u st), some (Hour * 24)⟩ := by
    rw [hstate]; exact hc.1
  have hne : name ≠ "total" ∧ name ≠ "overdue" := by
    simp only [List.mem_cons, List.mem_singleton, List.not_mem_nil, or_false] at hnames
    rcases hnames with h | h | h | h <;> subst h <;> exact ⟨by decide, by decide⟩
  refine ⟨hnames, ?_, hcache, ?_, ?_, ?_⟩
  · rw [hstate, hfr.1]; rfl
  · unfold readCounter; rw [hcache]
  · rw [hstats name hne.1 hne.2]; exact hc.2
  · intro g d hg
    have h0 : HoldsCount (GetUserTaskStats s f now u).2.cache (countKey u name)
        (s.db.countTasks u st) := Or.inr ⟨_, hcache⟩
    have := h0.updateTaskStats g hg u st d
    simpa [hname] using this

theorem C22_stats_refresh_the_counters_witness :
    readCounter stateStaleAgain.cache (countKey 1 "in_progress") = 2 ∧
    readCounter (GetUserTaskStats stateStaleAgain StatsFaults.ok 50 1).2.cache
      (countKey 1 "in_progress") = 1 ∧
    readCounter (updateTaskStats (GetUserTaskStats stateStaleAgain StatsFaults.ok 50 1).2
      StatFaults.ok 1 TaskStatusInProgress (-1)).cache (countKey 1 "in_progress") = 0 :=
  have h : ∃ stats, (GetUserTaskStats stateStaleAgain StatsFaults.ok 50 1).1 = .ok stats :=
    ⟨_, rfl⟩
  h.elim (fun stats hs =>
    have c := C22_stats_refresh_the_counters stateStaleAgain StatsFaults.ok 50 1 stats hs
      (fun _ => rfl) TaskStatusInProgress "in_progress" rfl
    ⟨by decide, c.2.2.2.1, by decide⟩)

/-- C23. Whenever `UserService.DeleteUser(id)` succeeds, the user existed (a live row
with that key) and afterwards: every row of `users` with the key `id` is soft-deleted;
every task owned by `id` is soft-deleted, the `tasks` table being the old one with
`deleted_at` set on the live tasks of `id` (rows are marked, not removed); the tasks
of other users, the other users, the tags and the tag links are unchanged. -/
theorem C23_delete_user_cascades (s : State) (f : DeleteUserFaults) (now : Time) (id : Nat)
    (hok : (DeleteUser s f now id).1 = .ok ()) :
    (∃ u ∈ s.db.users, u.ID = id ∧ u.DeletedAt = none) ∧
    (∀ u ∈ (DeleteUser s f now id).2.db.users, u.ID = id → u.DeletedAt ≠ none) ∧
    (∀ r ∈ (DeleteUser s f now id).2.db.tasks, r.UserID = id → r.DeletedAt ≠ none) ∧
    (DeleteUser s f now id).2.db.tasks = s.db.tasks.map (fun r =>
      if r.UserID = id ∧ r.DeletedAt = none then { r with DeletedAt := some now } else r) ∧
    (DeleteUser s f now id).2.db.tasks.filter (fun r => decide (r.UserID ≠ id))
      = s.db.tasks.filter (fun r => decide (r.UserID ≠ id)) ∧
    (DeleteUser s f now id).2.db.users.filter (fun u => decide (u.ID ≠ id))
      = s.db.users.filter (fun u => decide (u.ID ≠ id)) ∧
    (DeleteUser s f now id).2.db.tags = s.db.tags ∧
    (DeleteUser s f now id).2.db.task_tags = s.db.task_tags := by
  obtain ⟨user, hu, hdb⟩ := DeleteUser_ok hok
  obtain ⟨hmem, hid, hlive⟩ := firstUser_some hu
  rw [hdb, hid]
  refine ⟨⟨user, hmem, hid, hlive⟩, ?_, ?_, rfl, ?_, ?_, rfl, rfl⟩
  · intro u hu' hk
    simp only [DB.softDeleteUser, DB.softDeleteUserTasks, List.mem_map] at hu'
    obtain ⟨u0, _, rfl⟩ := hu'
    by_cases hl : u0.DeletedAt = none
    · have h0 : u0.ID = id := by
        by_cases h0 : u0.ID = id
        · exact h0
        · simp only [h0, false_and, if_false] at hk
      simp [h0, hl]
    · simp [hl]
  · intro r hr hk
    simp only [DB.softDeleteUser, DB.softDeleteUserTasks, List.mem_map] at hr
    obtain ⟨r0, _, rfl⟩ := hr
    by_cases hl : r0.DeletedAt = none
    · have h0 : r0.UserID = id := by
        by_cases h0 : r0.UserID = id
        · exact h0
        · simp only [h0, false_and, if_false] at hk
      simp [h0, hl]
    · simp [hl]
  · exact filter_map_fixed _ _ (fun r => by split <;> rfl)
      (fun r hr => by
        have h0 : r.UserID ≠ id := by simpa using hr
        simp [h0]) _
  · exact filter_map_fixed _ _ (fun u => by split <;> rfl)
      (fun u hu' => by
        have h0 : u.ID ≠ id := by simpa using hu'
        simp [h0]) _

theorem C23_delete_user_cascades_witness :
    (DeleteUser state1 DeleteUserFaults.ok 20 1).1 = .ok () ∧
    stateUserGone.db.users.map (fun u => (u.ID, u.DeletedAt)) = [(1, some 20), (2, none)] ∧
    stateUserGone.db.tasks.map (fun r => (r.ID, r.UserID, r.DeletedAt)) = [(1, 1, some 20)] ∧
    ∀ r ∈ (DeleteUser state1 DeleteUserFaults.ok 20 1).2.db.tasks,
      r.UserID = 1 → r.DeletedAt ≠ none :=
  ⟨rfl, by decide, by decide,
    (C23_delete_user_cascades state1 DeleteUserFaults.ok 20 1 rfl).2.2.1⟩

/-- C24, evaluated on the code. The claim says the tasks of the deleted user leave the
set of tasks visible to normal reads; the code leaves them all. `taskDAO.BatchDelete`
returns `nil` without touching the store, so `UserServiceWithDAO.DeleteUser` never
changes the `tasks` table, whatever the state, the faults and the outcome. In
`state1`, where user 1 owns the live task 1, the call succeeds and soft-deletes user
1, and task 1 is still live and still read from the store; after
`UserService.DeleteUser` in the same state the store read finds no such task. -/
theorem C24_dao_delete_user_keeps_the_tasks :
    (∀ (s : State) (f : UserDeleteFaults) (now : Time) (id : Nat),
      (UserServiceWithDAO.DeleteUser s f now id).2.db.tasks = s.db.tasks) ∧
    (UserServiceWithDAO.DeleteUser state1 UserDeleteFaults.ok 20 1).1 = .ok () ∧
    (UserServiceWithDAO.DeleteUser state1 UserDeleteFaults.ok 20 1).2.db.users.map
      (fun u => (u.ID, u.DeletedAt)) = [(1, some 20), (2, none)] ∧
    (UserServiceWithDAO.DeleteUser state1 UserDeleteFaults.ok 20 1).2.db.tasks.map
      (fun r => (r.ID, r.UserID, r.DeletedAt)) = [(1, 1, none)] ∧
    ((UserServiceWithDAO.DeleteUser state1 UserDeleteFaults.ok 20 1).2.db.firstTask 0 1).map
      (fun t => (t.ID, t.UserID)) = some (1, 1) ∧
    (DeleteUser state1 DeleteUserFaults.ok 20 1).2.db.firstTask 0 1 = none := by
  refine ⟨?_, rfl, by decide, by decide, by decide, by decide⟩
  intro s f now id
  unfold UserServiceWithDAO.DeleteUser
  simp only [beginTx_db]
  split
  · rfl
  · split
    · rfl
    · split
      · rfl
      · next tx1 h1 =>
        have e1 : tx1 = s.db := by
          unfold taskDAO.BatchDelete at h1
          split at h1 <;> (injection h1 with h1; exact h1.symm)
        split
        · rfl
        · next tx2 h2 =>
          have e2 : tx2.tasks = s.db.tasks := by
            unfold userDAO.Delete at h2
            split at h2
            · cases h2
            · injection h2 with h2
              rw [← h2, e1]
              rfl
          split
          · simp [UserServiceWithDAO.clearCaches]
          · simp [UserServiceWithDAO.clearCaches, e2]

/-- C25. When a live user holds the username of the request and the username lookup
itself does not fail, `UserServiceWithDAO.CreateUser` returns no user and the error
"用户名已存在: <username>", whose text contains "用户名已存在"; the only DAO call of
the run is `GetByUsername` (no email lookup, no `Create`), and the store and the
cache are unchanged. -/
theorem C25_duplicate_username_is_rejected (s : State) (f : UserCreateFaults) (now : Time)
    (req : UserCreateRequest)
    (hheld : ∃ u ∈ s.db.users, u.Username = req.Username ∧ u.DeletedAt = none)
    (hlookup : f.getByUsername = none) :
    (UserServiceWithDAO.CreateUser s f now req).1 = .error ("用户名已存在: " ++ req.Username) ∧
    (∃ pre post, "用户名已存在: " ++ req.Username = pre ++ "用户名已存在" ++ post) ∧
    eventsSince s (UserServiceWithDAO.CreateUser s f now req).2
      = [Event.daoGetByUsername req.Username] ∧
    (UserServiceWithDAO.CreateUser s f now req).2.db = s.db ∧
    (UserServiceWithDAO.CreateUser s f now req).2.cache = s.cache := by
  obtain ⟨u, hu⟩ := GetByUsername_held hheld
  have hv : UserServiceWithDAO.validateUserCreate s f req
      = (some ("用户名已存在: " ++ req.Username),
        { s with trace := s.trace ++ [Event.daoGetByUsername req.Username] }) := by
    unfold UserServiceWithDAO.validateUserCreate
    simp only [hlookup, hu]
  unfold UserServiceWithDAO.CreateUser
  rw [hv]
  refine ⟨rfl, ⟨"", ": " ++ req.Username, ?_⟩, ?_, rfl, rfl⟩
  · apply String.ext
    simp [String.data_append]
  · exact eventsSince_append rfl

theorem C25_duplicate_username_is_rejected_witness :
    (UserServiceWithDAO.CreateUser state0 UserCreateFaults.ok 10 reqDuplicate).1
      = .error "用户名已存在: u1" ∧
    eventsSince state0 (UserServiceWithDAO.CreateUser state0 UserCreateFaults.ok 10 reqDuplicate).2
      = [Event.daoGetByUsername "u1"] ∧
    (UserServiceWithDAO.CreateUser state0 UserCreateFaults.ok 10 reqDuplicate).2.db = db0 :=
  have h := C25_duplicate_username_is_rejected state0 UserCreateFaults.ok 10 reqDuplicate
    ⟨user1, by decide, rfl, rfl⟩ rfl
  ⟨h.1, h.2.2.1, h.2.2.2.1⟩

/-- C26. When no live user holds the username or the email of the request and the
DAO's `Create` succeeds, returning the store `db1` and the struct `user1`:
`UserServiceWithDAO.CreateUser` returns `user1` without error; its `Username` and
`Email` are the request's, its `Status` is 1 and its `ID` is the key the DAO assigned;
the store is `db1`, the old users plus `user1`; and the DAO calls of the run are the
two lookups and then exactly one `Create`, with the struct built from the request,
followed by the cache write of `user:<ID>`. -/
theorem C26_new_user_is_created (s : State) (f : UserCreateFaults) (now : Time)
    (req : UserCreateRequest) (db1 : DB) (user1 : User)
    (hname : ∀ u ∈ s.db.users, ¬ (u.Username = req.Username ∧ u.DeletedAt = none))
    (hemail : ∀ u ∈ s.db.users, ¬ (u.Email = req.Email ∧ u.DeletedAt = none))
    (hcreate : userDAO.Create s.db f.create now (newUser req) = .ok (db1, user1)) :
    (UserServiceWithDAO.CreateUser s f now req).1 = .ok user1 ∧
    user1.Username = req.Username ∧ user1.Email = req.Email ∧ user1.Status = 1 ∧
    user1.ID = s.db.nextUserID ∧
    user1 = { newUser req with ID := s.db.nextUserID, CreatedAt := now, UpdatedAt := now } ∧
    (UserServiceWithDAO.CreateUser s f now req).2.db = db1 ∧
    db1.users = s.db.users ++ [user1] ∧
    (∃ b, eventsSince s (UserServiceWithDAO.CreateUser s f now req).2
      = [Event.daoGetByUsername req.Username, Event.daoGetByEmail req.Email,
          Event.daoCreate (newUser req),
          Event.cacheSet (BuildCacheKey UserCachePrefix user1.ID) b]) := by
  obtain ⟨e1, h1⟩ := GetByUsername_free f.getByUsername hname
  obtain ⟨e2, h2⟩ := GetByEmail_free f.getByEmail hemail
  have hv : UserServiceWithDAO.validateUserCreate s f req
      = (none, { s with trace := s.trace ++ [Event.daoGetByUsername req.Username] ++
          [Event.daoGetByEmail req.Email] }) := by
    unfold UserServiceWithDAO.validateUserCreate
    simp only [h1, h2]
  have hu : user1 = { newUser req with
        ID := s.db.nextUserID, CreatedAt := now, UpdatedAt := now } ∧
      db1.users = s.db.users ++ [user1] := by
    unfold userDAO.Create at hcreate
    split at hcreate
    · cases hcreate
    · split at hcreate
      · cases hcreate
      · simp only [Except.ok.injEq, Prod.mk.injEq] at hcreate
        obtain ⟨hd, hu⟩ := hcreate
        subst hd hu
        exact ⟨rfl, rfl⟩
  have hr : UserServiceWithDAO.CreateUser s f now req
      = (.ok user1, UserServiceWithDAO.cacheUser
          { db := db1, cache := s.cache,
            trace := s.trace ++ [Event.daoGetByUsername req.Username] ++
              [Event.daoGetByEmail req.Email] ++ [Event.daoCreate (newUser req)] }
          f.cacheSet user1) := by
    unfold UserServiceWithDAO.CreateUser
    rw [hv]
    simp only [hcreate]
  obtain ⟨b, hb⟩ := Set_trace
    { db := db1, cache := s.cache,
      trace := s.trace ++ [Event.daoGetByUsername req.Username] ++
        [Event.daoGetByEmail req.Email] ++ [Event.daoCreate (newUser req)] }
    f.cacheSet (BuildCacheKey UserCachePrefix user1.ID) (CacheVal.user user1.ToResponse) Hour
  rw [hr]
  refine ⟨rfl, ?_, ?_, ?_, ?_, hu.1, ?_, hu.2, ⟨b, ?_⟩⟩
  · rw [hu.1]; rfl
  · rw [hu.1]; rfl
  · rw [hu.1]; rfl
  · rw [hu.1]
  · simp [UserServiceWithDAO.cacheUser]
  · apply eventsSince_append
    unfold UserServiceWithDAO.cacheUser
    rw [hb]
    simp

theorem C26_new_user_is_created_witness :
    (UserServiceWithDAO.CreateUser state0 UserCreateFaults.ok 10 reqNewUser).1 = .ok user3 ∧
    user3.Username = "testuser" ∧ user3.Email = "test@example.com" ∧ user3.Status = 1 ∧
    (UserServiceWithDAO.CreateUser state0 UserCreateFaults.ok 10 reqNewUser).2.db.users
      = [user1, user2, user3] :=
  have h := C26_new_user_is_created state0 UserCreateFaults.ok 10 reqNewUser
    { db0 with users := [user1, user2, user3] } user3 (by decide) (by decide) rfl
  ⟨h.1, h.2.1, h.2.2.1, h.2.2.2.1, by rw [h.2.2.2.2.2.2.1]⟩

/-- C27, evaluated on the code. The claim says `total_users` is the number of users in
the store; the code reports the length of the page `List(ctx, 0, 1)`, which holds at
most one user, and drops the total that `List` returns with it. With every call
succeeding, `total_users` is the minimum of 1 and the number of live users: in the
initial store, which has two users, it is 1. -/
theorem C27_total_users_is_at_most_one :
    (∀ db : DB, ∃ stats, UserServiceWithDAO.GetUserStats db UserStatsFaults.ok = .ok stats ∧
      stats "total_users"
        = some ((min 1 (db.users.filter (fun u => decide (u.DeletedAt = none))).length : Nat) : Int)) ∧
    (db0.users.filter (fun u => decide (u.DeletedAt = none))).length = 2 ∧
    (userDAO.List db0 none none 0 1).map (fun p => p.2) = .ok 2 ∧
    (∃ stats, UserServiceWithDAO.GetUserStats db0 UserStatsFaults.ok = .ok stats ∧
      stats "total_users" = some 1) := by
  refine ⟨?_, by decide, rfl, ⟨_, rfl, by decide⟩⟩
  intro db
  refine ⟨_, rfl, ?_⟩
  simp [List.length_take]

/-- C28. For prefixes `p` and `q` among the five defined cache-key prefixes and
unsigned integers `a` and `b`: if the pairs `(p, a)` and `(q, b)` differ, so do the
keys `BuildCacheKey p a` and `BuildCacheKey q b`; and `BuildCacheKey p a` is no
counter key `task_count:<userID>:<name>`, whatever the user and the name. -/
theorem C28_cache_keys_are_distinct (p q : String) (hp : p ∈ cachePrefixes)
    (hq : q ∈ cachePrefixes) (a b : Nat) :
    ((p, a) ≠ (q, b) → BuildCacheKey p a ≠ BuildCacheKey q b) ∧
    (∀ (userID : Nat) (name : String), BuildCacheKey p a ≠ countKey userID name) := by
  refine ⟨?_, fun userID name => BuildCacheKey_ne_countKey hp a userID name⟩
  intro hne h
  obtain ⟨h1, h2⟩ := BuildCacheKey_inj_prefixes hp hq h
  exact hne (by rw [h1, h2])

theorem C28_cache_keys_are_distinct_witness :
    BuildCacheKey UserCachePrefix 1 = "user:1" ∧
    BuildCacheKey UserTasksPrefix 1 = "user_tasks:1" ∧
    BuildCacheKey UserCachePrefix 1 ≠ BuildCacheKey UserTasksPrefix 1 ∧
    BuildCacheKey TaskCountPrefix 1 ≠ countKey 1 "pending" :=
  have h := C28_cache_keys_are_distinct UserCachePrefix UserTasksPrefix (by decide) (by decide)
    1 1
  ⟨by decide, by decide, h.1 (by decide),
    (C28_cache_keys_are_distinct TaskCountPrefix TaskCountPrefix (by decide) (by decide)
      1 1).2 1 "pending"⟩

/-- C29. The update map takes `start_time` and `end_time` from the request whenever
the request has them, whatever the status and the fetched task. Hence, in every
reachable state, for a live task and a successful `UpdateTask` by its owner at time
`now`: with status InProgress and an explicit `StartTime = ts`, the row of the task
and the returned task have `StartTime = ts` (not `now`, unless they coincide), also
when the task had no `StartTime`; likewise `EndTime = te` with status Completed. -/
theorem C29_explicit_times_win (s : State) (hs : Reachable s) (T : TaskRow)
    (hT : T ∈ s.db.tasks) (hl : T.DeletedAt = none) (f : UpdateFaults) (now : Time)
    (req : TaskUpdateRequest) (t : Task)
    (h : (UpdateTask s f now T.ID T.UserID req).1 = .ok t) :
    (∀ (task : Task) (ts : Time), req.StartTime = some ts →
      (buildUpdates task now req).start_time = some ts) ∧
    (∀ (task : Task) (te : Time), req.EndTime = some te →
      (buildUpdates task now req).end_time = some te) ∧
    (∀ ts, req.Status = some TaskStatusInProgress → req.StartTime = some ts →
      t.StartTime = some ts ∧
      ∀ r ∈ (UpdateTask s f now T.ID T.UserID req).2.db.tasks, r.ID = T.ID →
        r.StartTime = some ts) ∧
    (∀ te, req.Status = some TaskStatusCompleted → req.EndTime = some te →
      t.EndTime = some te ∧
      ∀ r ∈ (UpdateTask s f now T.ID T.UserID req).2.db.tasks, r.ID = T.ID →
        r.EndTime = some te) := by
  have hc := hs.coherent
  have b1 : ∀ (task : Task) (ts : Time), req.StartTime = some ts →
      (buildUpdates task now req).start_time = some ts := by
    intro task ts h1
    simp [buildUpdates, h1]
  have b2 : ∀ (task : Task) (te : Time), req.EndTime = some te →
      (buildUpdates task now req).end_time = some te := by
    intro task te h1
    simp [buildUpdates, h1]
  refine ⟨b1, b2, ?_⟩
  rcases UpdateTask_cases s f now T.ID T.UserID req with
    ⟨e, _, hr⟩ | ⟨task, _, _, hr⟩ | ⟨task, e, s', _, _, hr, _⟩ |
    ⟨task, tx2, e, _, _, _, _, _, _, hr⟩ | ⟨task, tx2, task1, hg, _, _, _, _, hrt, ht, hr⟩
  · rw [hr] at h; cases h
  · rw [hr] at h; cases h
  · rw [hr] at h; cases h
  · rw [hr] at h; cases h
  · rw [hr] at h ⊢
    simp only [Except.ok.injEq] at h
    subst h
    rcases fetch_live hc hT hl f.get with ⟨c, _, hf⟩ | ⟨t', ht', hid, _, _, _⟩
    · rw [hf] at hg; cases hg
    · rw [ht'] at hg
      cases hg
      obtain ⟨r, hrm, hrid, _, _, rfl⟩ := firstTask_some ht
      rw [(replaceTags_tables hrt).1, modelUpdates_tasks, hid] at hrm
      have hrow := updated_row hc.nodup hT hl now (buildUpdates task now req) hrm hrid
      subst hrow
      have hrows : ∀ r ∈ (updateSideEffects (commitTx (beginTx (GetTaskByID s f.get T.ID).2) tx2)
          f T.ID T.UserID task.Status req).db.tasks, r.ID = T.ID →
          r = (buildUpdates task now req).apply now T := by
        intro r hr' hrid'
        simp only [updateSideEffects_db, commitTx_db] at hr'
        rw [(replaceTags_tables hrt).1, modelUpdates_tasks, hid] at hr'
        exact updated_row hc.nodup hT hl now (buildUpdates task now req) hr' hrid'
      constructor
      · intro ts _ h2
        have e1 : ((buildUpdates task now req).apply now T).StartTime = some ts := by
          simp [Updates.apply, b1 task ts h2]
        refine ⟨e1, ?_⟩
        intro r hr' hrid'
        rw [hrows r hr' hrid']
        exact e1
      · intro te _ h2
        have e1 : ((buildUpdates task now req).apply now T).EndTime = some te := by
          simp [Updates.apply, b2 task te h2]
        refine ⟨e1, ?_⟩
        intro r hr' hrid'
        rw [hrows r hr' hrid']
        exact e1

theorem C29_explicit_times_win_witness :
    row1.StartTime = none ∧
    (UpdateTask state1 UpdateFaults.ok 20 1 1 reqStartAt).1
      = .ok { task1 with Status := 1, StartTime := some 5, UpdatedAt := 20 } ∧
    (UpdateTask state1 UpdateFaults.ok 20 1 1 reqStartAt).2.db.tasks.map
      (fun r => (r.ID, r.StartTime)) = [(1, some 5)] ∧
    ∀ r ∈ (UpdateTask state1 UpdateFaults.ok 20 1 1 reqStartAt).2.db.tasks, r.ID = row1.ID →
      r.StartTime = some 5 :=
  have h := C29_explicit_times_win state1 state1_reachable row1 (by decide) rfl
    UpdateFaults.ok 20 reqStartAt { task1 with Status := 1, StartTime := some 5, UpdatedAt := 20 }
    rfl
  ⟨rfl, rfl, by decide, (h.2.2.1 5 rfl rfl).2⟩

/-- C30, evaluated on the code. The claim says the IDs of the todos stay pairwise
distinct; `GreateTodo` numbers a new todo `len(todos) + 1`, which repeats an ID once a
todo has been deleted. From the initial list, `DeleteTodo(1)` leaves the todo 2 alone
and `GreateTodo` then creates a second todo with ID 2: the reachable list has the IDs
2, 2; `DeleteTodo(2)` returns true and removes the first of them, and `GetTodoByID(2)`
still finds the other. -/
theorem C30_todo_ids_repeat_after_a_deletion :
    TodosReachable todosAfter ∧
    todosAfter.map (fun t => (t.ID, t.Title)) = [(2, "Todo 2"), (2, "Todo 3")] ∧
    ¬ (todosAfter.map (fun t => t.ID)).Nodup ∧
    (DeleteTodo todosAfter 2).1 = true ∧
    (DeleteTodo todosAfter 2).2.map (fun t => (t.ID, t.Title)) = [(2, "Todo 3")] ∧
    (GetTodoByID (DeleteTodo todosAfter 2).2 2).2 = true :=
  ⟨TodosReachable.create 5 todoNew (TodosReachable.delete 1 (TodosReachable.init 0)),
    by decide, by decide, by decide, by decide, by decide⟩

end TaskManagement
